import Mathlib

/-!
Verification of the sudoku-utils repository: a shallow embedding of its
Rust sources (bitmask primitives, template parser, region-masked grids,
the depth-first-search-with-progress framework, the template generator,
the symmetric expansion engine, the basic logical solver and the
band-oriented brute-force solver) together with proofs and refutations of
the specification's claims about them.

Machine integers are embedded as Nat with explicit masking at the
relevant width; iterators are embedded as eagerly-produced lists;
in-place mutation becomes explicit state passing; Rust loops without a
structural termination measure are given an explicit fuel parameter.
-/

set_option autoImplicit false

namespace SudokuUtils

/-! ### Bitmask primitives (src/bitmask.rs, src/bit_iter.rs)

Rust fixed-width unsigned integers are modelled as Nat; an operation on a
width-w integer only ever sees values below 2 to the w, and bitwise NOT
is XOR with the all-ones mask of that width. -/

/-- All-ones mask of width n, the value of (1 shifted left by n) minus 1. -/
def lowBits (n : Nat) : Nat := (1 <<< n) - 1

/-- Bitwise NOT at width w, as Rust computes it on a w-bit unsigned value. -/
def notW (w x : Nat) : Nat := lowBits w ^^^ x

/-- The count_ones intrinsic at width w: population count of the low w bits,
by structural recursion on the width so that it evaluates in the kernel. -/
def countOnes : Nat → Nat → Nat
  | 0, _ => 0
  | w + 1, x => countOnes w (x / 2) + x % 2

/-- The trailing_zeros intrinsic at width w: index of the lowest set bit,
or w itself when the value is zero (Rust returns BITS for zero). -/
def trailingZeros : Nat → Nat → Nat
  | 0, _ => 0
  | w + 1, x => if x % 2 == 1 then 0 else trailingZeros w (x / 2) + 1

/-- Floor of the base-2 logarithm computed with a width bound, evaluable in
the kernel; agrees with the mathematical log2 for x below 2 to the w. -/
def log2W : Nat → Nat → Nat
  | 0, _ => 0
  | w + 1, x => if 2 ≤ x then log2W w (x / 2) + 1 else 0

/-- Bitmask::max (src/bitmask.rs lines 79-85): the highest set bit of a
nonzero mask, i.e. BITS - 1 - leading_zeros, which is its base-2 logarithm. -/
def bitmaskMax (w x : Nat) : Option Nat :=
  if x = 0 then none else some (log2W w x)

/-- The bit-index iterator (BitIter) of a width-w mask, materialised as the
ascending list of indices of set bits that it yields. -/
def bitIndicesAux : Nat → Nat → Nat → List Nat
  | 0, _, _ => []
  | w + 1, x, pos =>
    if x = 0 then []
    else if x % 2 == 1 then pos :: bitIndicesAux w (x / 2) (pos + 1)
    else bitIndicesAux w (x / 2) (pos + 1)

/-- Ascending indices of set bits of a width-w mask (BitIter as a list). -/
def bitIndices (w x : Nat) : List Nat := bitIndicesAux w x 0

/-- The single-bit-mask iterator (MaskIter) of a width-w mask, materialised
as the ascending list of isolated-bit masks that it yields. -/
def maskIndices (w x : Nat) : List Nat := (bitIndices w x).map (1 <<< ·)

/-- Bitmask::from_iter (src/bitmask.rs lines 29-31): fold bit indices into
a mask by repeated OR of shifted ones. -/
def maskFromIndices (l : List Nat) : Nat := l.foldl (fun acc x => acc ||| (1 <<< x)) 0

/-- Bitmask::set (src/bitmask.rs): turn on one bit. -/
def maskSet (m bit : Nat) : Nat := m ||| (1 <<< bit)

/-- Bitmask::unset at width w (src/bitmask.rs): turn off one bit via AND
with the complement of the isolated bit. -/
def maskUnset (w m bit : Nat) : Nat := m &&& notW w (1 <<< bit)

/-- Bitmask::contains (src/bitmask.rs): test one bit. -/
def maskContains (m bit : Nat) : Bool := m &&& (1 <<< bit) != 0

/-! ### Template parser (src/template.rs) -/

/-- A per-cell template directive (TemplateDigit in src/template.rs). -/
inductive TemplateDigit : Type where
  | Empty : TemplateDigit
  | Given : Nat → TemplateDigit
  | Wildcard : List Nat → TemplateDigit
deriving DecidableEq, Repr

/-- Character class of the Given directives: the characters '1' to '9'. -/
def isSudokuDigitChar (c : Char) : Bool := '1' ≤ c && c ≤ '9'

/-- Character class of the wildcard openers. -/
def isWildcardOpenChar (c : Char) : Bool := c == '[' || c == '(' || c == '{' || c == '<'

/-- Numeric value of a digit character. -/
def charDigitVal (c : Char) : Nat := c.toNat - '0'.toNat

/-- Template::from_str's directive loop (src/template.rs lines 12-33),
consuming the character stream left to right.  The optional accumulator
carries the digits of a wildcard that has been opened and not yet closed;
a non-digit character closes it (that character is consumed by the
wildcard's inner loop and produces no directive of its own), as does the
end of input.  Every other non-digit, non-opener character, including
whitespace, produces an Empty directive. -/
def templateDigitsGo : Option (List Nat) → List Char → List TemplateDigit
  | none, [] => []
  | some ds, [] => [.Wildcard ds]
  | none, c :: rest =>
    if isSudokuDigitChar c then .Given (charDigitVal c) :: templateDigitsGo none rest
    else if isWildcardOpenChar c then templateDigitsGo (some []) rest
    else .Empty :: templateDigitsGo none rest
  | some ds, c :: rest =>
    if isSudokuDigitChar c then templateDigitsGo (some (ds ++ [charDigitVal c])) rest
    else .Wildcard ds :: templateDigitsGo none rest

/-- The list of directives Template::from_str collects from a string. -/
def templateDigits (s : List Char) : List TemplateDigit := templateDigitsGo none s

/-- A parsed template: exactly 81 directives (Template in src/template.rs). -/
def Template : Type := { l : List TemplateDigit // l.length = 81 }

instance : DecidableEq Template := by unfold Template; infer_instance

/-- Template::from_str (src/template.rs lines 12-17).  The Rust code
converts the collected directives into a fixed 81-element array with
try_into().unwrap(), which panics unless exactly 81 directives were
collected; the panic is modelled as none. -/
def templateFromStr (s : List Char) : Option Template :=
  if h : (templateDigits s).length = 81 then some ⟨templateDigits s, h⟩ else none

/-! ### Region-masked grid (src/pipeline.rs) -/

/-- The digit-availability mask with bits 1 to 9 set (src/pipeline.rs line 120). -/
def ALL_DIGITS : Nat := 0b1111111110

/-- Row index of each cell (src/pipeline.rs lines 122-132). -/
def ROW_INDICES : List Nat := [
  0, 0, 0, 0, 0, 0, 0, 0, 0,
  1, 1, 1, 1, 1, 1, 1, 1, 1,
  2, 2, 2, 2, 2, 2, 2, 2, 2,
  3, 3, 3, 3, 3, 3, 3, 3, 3,
  4, 4, 4, 4, 4, 4, 4, 4, 4,
  5, 5, 5, 5, 5, 5, 5, 5, 5,
  6, 6, 6, 6, 6, 6, 6, 6, 6,
  7, 7, 7, 7, 7, 7, 7, 7, 7,
  8, 8, 8, 8, 8, 8, 8, 8, 8]

/-- Column index of each cell (src/pipeline.rs lines 134-144). -/
def COL_INDICES : List Nat := [
  0, 1, 2, 3, 4, 5, 6, 7, 8,
  0, 1, 2, 3, 4, 5, 6, 7, 8,
  0, 1, 2, 3, 4, 5, 6, 7, 8,
  0, 1, 2, 3, 4, 5, 6, 7, 8,
  0, 1, 2, 3, 4, 5, 6, 7, 8,
  0, 1, 2, 3, 4, 5, 6, 7, 8,
  0, 1, 2, 3, 4, 5, 6, 7, 8,
  0, 1, 2, 3, 4, 5, 6, 7, 8,
  0, 1, 2, 3, 4, 5, 6, 7, 8]

/-- Box index of each cell (src/pipeline.rs lines 146-156). -/
def BOX_INDICES : List Nat := [
  0, 0, 0, 1, 1, 1, 2, 2, 2,
  0, 0, 0, 1, 1, 1, 2, 2, 2,
  0, 0, 0, 1, 1, 1, 2, 2, 2,
  3, 3, 3, 4, 4, 4, 5, 5, 5,
  3, 3, 3, 4, 4, 4, 5, 5, 5,
  3, 3, 3, 4, 4, 4, 5, 5, 5,
  6, 6, 6, 7, 7, 7, 8, 8, 8,
  6, 6, 6, 7, 7, 7, 8, 8, 8,
  6, 6, 6, 7, 7, 7, 8, 8, 8]

/-- A grid of 81 digit values (0 for unknown) together with the three
9-element arrays of digit-availability masks, one mask per row, column and
box (RegionMaskedSudoku in src/pipeline.rs lines 12-17). -/
structure RegionMaskedSudoku : Type where
  sudoku : List Nat
  rows : List Nat
  cols : List Nat
  boxes : List Nat
deriving DecidableEq, Repr

namespace RegionMaskedSudoku

/-- RegionMaskedSudoku::empty (src/pipeline.rs lines 57-65). -/
def empty : RegionMaskedSudoku :=
  { sudoku := List.replicate 81 0
    rows := List.replicate 9 ALL_DIGITS
    cols := List.replicate 9 ALL_DIGITS
    boxes := List.replicate 9 ALL_DIGITS }

/-- RegionMaskedSudoku::place (src/pipeline.rs lines 92-98). -/
def place (s : RegionMaskedSudoku) (idx digit : Nat) : RegionMaskedSudoku :=
  { sudoku := s.sudoku.set idx digit
    rows := s.rows.set (ROW_INDICES.getD idx 0)
      (maskUnset 16 (s.rows.getD (ROW_INDICES.getD idx 0) 0) digit)
    cols := s.cols.set (COL_INDICES.getD idx 0)
      (maskUnset 16 (s.cols.getD (COL_INDICES.getD idx 0) 0) digit)
    boxes := s.boxes.set (BOX_INDICES.getD idx 0)
      (maskUnset 16 (s.boxes.getD (BOX_INDICES.getD idx 0) 0) digit) }

/-- RegionMaskedSudoku::unplace (src/pipeline.rs lines 100-106). -/
def unplace (s : RegionMaskedSudoku) (idx digit : Nat) : RegionMaskedSudoku :=
  { sudoku := s.sudoku.set idx 0
    rows := s.rows.set (ROW_INDICES.getD idx 0)
      (maskSet (s.rows.getD (ROW_INDICES.getD idx 0) 0) digit)
    cols := s.cols.set (COL_INDICES.getD idx 0)
      (maskSet (s.cols.getD (COL_INDICES.getD idx 0) 0) digit)
    boxes := s.boxes.set (BOX_INDICES.getD idx 0)
      (maskSet (s.boxes.getD (BOX_INDICES.getD idx 0) 0) digit) }

/-- RegionMaskedSudoku::is_empty (src/pipeline.rs lines 108-111). -/
def is_empty (s : RegionMaskedSudoku) (idx : Nat) : Bool :=
  s.sudoku.getD idx 0 == 0

/-- RegionMaskedSudoku::candidates (src/pipeline.rs lines 113-117). -/
def candidates (s : RegionMaskedSudoku) (idx : Nat) : Nat :=
  if s.sudoku.getD idx 0 ≠ 0 then 1 <<< s.sudoku.getD idx 0
  else s.rows.getD (ROW_INDICES.getD idx 0) 0
    &&& s.cols.getD (COL_INDICES.getD idx 0) 0
    &&& s.boxes.getD (BOX_INDICES.getD idx 0) 0

end RegionMaskedSudoku

/-! ### Depth-first search with progress (src/dfs_with_progress.rs)

The DepthFirstTraversable trait becomes a record of pure functions; the
boxed step iterators of each stack level become the list of steps not yet
consumed; the f64 progress accumulator is embedded as an exact rational,
so floating-point rounding is the only source-level effect not modelled. -/

/-- The DepthFirstTraversable trait (src/dfs_with_progress.rs lines 1-10). -/
structure DepthFirstTraversable (σ α ω : Type) : Type where
  next_steps : σ → List α
  apply_step : σ → α → σ
  revert_step : σ → α → σ
  should_prune : σ → Bool
  output : σ → Option ω

/-- A stack level: remaining steps, last applied step, progress increment
(one entry of the levels vector, src/dfs_with_progress.rs line 14).  The
top of the Rust Vec is the head of the list here. -/
def DfsLevel (α : Type) : Type := List α × Option α × ℚ

/-- DepthFirstSearcherWithProgress (src/dfs_with_progress.rs lines 12-16). -/
structure DfsSearcher (σ α : Type) : Type where
  state : σ
  levels : List (DfsLevel α)
  progress : ℚ

/-- DepthFirstSearcherWithProgress::new (src/dfs_with_progress.rs lines 21-27). -/
def dfsNew {σ α : Type} (start_state : σ) : DfsSearcher σ α :=
  { state := start_state, levels := [], progress := 0 }

/-- The progress increment of the current level, 1 at the root
(src/dfs_with_progress.rs lines 71-73). -/
def progressIncrement {α : Type} (levels : List (DfsLevel α)) : ℚ :=
  match levels with
  | [] => 1
  | (_, _, inc) :: _ => inc

/-- The pop loop at the top of step (src/dfs_with_progress.rs lines 34-42):
pop every level whose step iterator is exhausted, reverting its last
applied step; the Bool is true when the stack was emptied by popping, in
which case the search is over. -/
def dfsPopLoop {σ α ω : Type} (T : DepthFirstTraversable σ α ω) :
    σ → List (DfsLevel α) → σ × List (DfsLevel α) × Bool
  | st, [] => (st, [], false)
  | st, (steps, prev, w) :: rest =>
    if steps.isEmpty then
      let st' := match prev with
        | some s => T.revert_step st s
        | none => st
      if rest.isEmpty then (st', [], true)
      else dfsPopLoop T st' rest
    else (st, (steps, prev, w) :: rest, false)

/-- The advance phase of step (src/dfs_with_progress.rs lines 45-50):
revert the top level's last applied step, take its next step, apply it and
record it.  The empty-steps case is unreachable after the pop loop (the
Rust code would panic on unwrap there). -/
def dfsAdvance {σ α ω : Type} (T : DepthFirstTraversable σ α ω) :
    σ → List (DfsLevel α) → σ × List (DfsLevel α)
  | st, [] => (st, [])
  | st, (steps, prev, w) :: rest =>
    match steps with
    | [] => (st, (steps, prev, w) :: rest)
    | next :: more =>
      let st1 := match prev with
        | some s => T.revert_step st s
        | none => st
      (T.apply_step st1 next, (more, some next, w) :: rest)

/-- DepthFirstSearcherWithProgress::step (src/dfs_with_progress.rs lines
30-68): pop exhausted levels, advance the deepest level, check pruning,
then either deepen or accumulate progress; returns whether the search is
still alive. -/
def dfsStep {σ α ω : Type} (T : DepthFirstTraversable σ α ω)
    (s : DfsSearcher σ α) : Bool × DfsSearcher σ α :=
  match dfsPopLoop T s.state s.levels with
  | (st, lv, true) => (false, { state := st, levels := lv, progress := s.progress })
  | (st, lv, false) =>
    let adv := dfsAdvance T st lv
    let st2 := adv.1
    let lv2 := adv.2
    if T.should_prune st2 then
      (true, { state := st2, levels := lv2, progress := s.progress + progressIncrement lv2 })
    else
      let ns := T.next_steps st2
      if ns.length > 0 then
        (true, { state := st2,
                 levels := (ns, none, progressIncrement lv2 / (ns.length : ℚ)) :: lv2,
                 progress := s.progress })
      else
        (true, { state := st2, levels := lv2, progress := s.progress + progressIncrement lv2 })

/-- Iterator::next for the searcher (src/dfs_with_progress.rs lines 76-87):
loop step until an output is produced or the search dies.  The extra fuel
argument bounds the number of step iterations; none means the bound was
hit before the Rust loop would have returned. -/
def dfsNext {σ α ω : Type} (T : DepthFirstTraversable σ α ω) :
    Nat → DfsSearcher σ α → Option (Option (ℚ × ℚ × ω) × DfsSearcher σ α)
  | 0, _ => none
  | fuel + 1, s =>
    match dfsStep T s with
    | (false, s') => some (none, s')
    | (true, s') =>
      match T.output s'.state with
      | some out => some (some (s'.progress, progressIncrement s'.levels, out), s')
      | none => dfsNext T fuel s'

/-! ### Template generator (src/generate.rs) -/

/-- The iterator min_by_key combinator as Rust computes it: the first
element whose key is minimal, none for an empty list. -/
def minByKeyFirst {β : Type} (key : β → Nat) : List β → Option β
  | [] => none
  | x :: xs => some (xs.foldl (fun acc y => if key y < key acc then y else acc) x)

/-- TemplateGeneratorState (src/generate.rs lines 24-28). -/
structure TemplateGeneratorState : Type where
  sudoku : RegionMaskedSudoku
  wildcards : List (Nat × Nat)
  placement_count : Nat
deriving DecidableEq, Repr

namespace TemplateGeneratorState

/-- TemplateGeneratorState::for_template (src/generate.rs lines 31-45). -/
def for_template (t : Template) : TemplateGeneratorState :=
  { wildcards := t.val.enum.filterMap fun p =>
      match p.2 with
      | .Empty => none
      | .Given d => some (p.1, 1 <<< d)
      | .Wildcard ds => some (p.1, maskFromIndices ds)
    placement_count := 0
    sudoku := .empty }

/-- TemplateGeneratorState::best_branch_digit (src/generate.rs lines
48-53): among wildcards whose cell is still empty, the one whose live
candidate set is smallest (first such on a tie, as Rust's min_by_key). -/
def best_branch_digit (s : TemplateGeneratorState) : Option (Nat × List Nat) :=
  minByKeyFirst (fun p => p.2.length)
    ((s.wildcards.filter fun p => s.sudoku.is_empty p.1).map
      fun p => (p.1, bitIndices 16 (p.2 &&& s.sudoku.candidates p.1)))

end TemplateGeneratorState

/-- The DepthFirstTraversable implementation of TemplateGeneratorState
(src/generate.rs lines 56-85). -/
def templateGenTrav :
    DepthFirstTraversable TemplateGeneratorState (Nat × Nat) RegionMaskedSudoku :=
  { next_steps := fun s =>
      match s.best_branch_digit with
      | some (idx, digits) => digits.map fun d => (idx, d)
      | none => []
    apply_step := fun s step =>
      { s with sudoku := s.sudoku.place step.1 step.2
               placement_count := s.placement_count + 1 }
    revert_step := fun s step =>
      { s with sudoku := s.sudoku.unplace step.1 step.2
               placement_count := s.placement_count - 1 }
    should_prune := fun _ => false
    output := fun s =>
      if s.placement_count == s.wildcards.length then some s.sudoku else none }

/-! ### Dihedral symmetry (crate::symmetry, source file absent from src/)

Modelled from the spec: src/expansion.rs imports
crate::symmetry::DihedralSubgroup and calls its orbits() method, but the
file src/symmetry.rs is not part of the provided sources.  Following the
spec (sections 3 and 4.5), a dihedral subgroup is a subset of the eight
symmetries of the square that contains the identity and is closed under
composition, and its orbit table maps each of the 81 cells to the set of
cells reachable from it under the group's geometric action. -/

/-- The eight symmetries of the square. -/
inductive D4 : Type where
  | e : D4
  | r90 : D4
  | r180 : D4
  | r270 : D4
  | flipRows : D4
  | flipCols : D4
  | diag : D4
  | antidiag : D4
deriving DecidableEq, Repr, Fintype

namespace D4

/-- Modelled from the spec: the geometric action of a square symmetry on
(row, column) coordinates of the 9 by 9 board. -/
def actRC : D4 → Nat × Nat → Nat × Nat
  | .e, (r, c) => (r, c)
  | .r90, (r, c) => (c, 8 - r)
  | .r180, (r, c) => (8 - r, 8 - c)
  | .r270, (r, c) => (8 - c, r)
  | .flipRows, (r, c) => (8 - r, c)
  | .flipCols, (r, c) => (r, 8 - c)
  | .diag, (r, c) => (c, r)
  | .antidiag, (r, c) => (8 - c, 8 - r)

/-- The action on cell indices in row-major order. -/
def act (g : D4) (cell : Nat) : Nat :=
  let rc := g.actRC (cell / 9, cell % 9)
  9 * rc.1 + rc.2

/-- Composition: comp g h acts as h followed by g. -/
def comp : D4 → D4 → D4
  | .e, h => h
  | g, .e => g
  | .r90, .r90 => .r180
  | .r90, .r180 => .r270
  | .r90, .r270 => .e
  | .r90, .flipRows => .diag
  | .r90, .flipCols => .antidiag
  | .r90, .diag => .flipCols
  | .r90, .antidiag => .flipRows
  | .r180, .r90 => .r270
  | .r180, .r180 => .e
  | .r180, .r270 => .r90
  | .r180, .flipRows => .flipCols
  | .r180, .flipCols => .flipRows
  | .r180, .diag => .antidiag
  | .r180, .antidiag => .diag
  | .r270, .r90 => .e
  | .r270, .r180 => .r90
  | .r270, .r270 => .r180
  | .r270, .flipRows => .antidiag
  | .r270, .flipCols => .diag
  | .r270, .diag => .flipRows
  | .r270, .antidiag => .flipCols
  | .flipRows, .r90 => .antidiag
  | .flipRows, .r180 => .flipCols
  | .flipRows, .r270 => .diag
  | .flipRows, .flipRows => .e
  | .flipRows, .flipCols => .r180
  | .flipRows, .diag => .r270
  | .flipRows, .antidiag => .r90
  | .flipCols, .r90 => .diag
  | .flipCols, .r180 => .flipRows
  | .flipCols, .r270 => .antidiag
  | .flipCols, .flipRows => .r180
  | .flipCols, .flipCols => .e
  | .flipCols, .diag => .r90
  | .flipCols, .antidiag => .r270
  | .diag, .r90 => .flipRows
  | .diag, .r180 => .antidiag
  | .diag, .r270 => .flipCols
  | .diag, .flipRows => .r90
  | .diag, .flipCols => .r270
  | .diag, .diag => .e
  | .diag, .antidiag => .r180
  | .antidiag, .r90 => .flipCols
  | .antidiag, .r180 => .diag
  | .antidiag, .r270 => .flipRows
  | .antidiag, .flipRows => .r270
  | .antidiag, .flipCols => .r90
  | .antidiag, .diag => .r180
  | .antidiag, .antidiag => .e

/-- The inverse of each square symmetry. -/
def inv : D4 → D4
  | .r90 => .r270
  | .r270 => .r90
  | g => g

end D4

/-- Modelled from the spec: a dihedral subgroup of the square, the set of
its elements with the subgroup laws. -/
structure DihedralSubgroup : Type where
  elems : List D4
  e_mem : D4.e ∈ elems
  comp_mem : ∀ g ∈ elems, ∀ h ∈ elems, D4.comp g h ∈ elems

/-- Modelled from the spec: the orbit of a cell under a dihedral subgroup,
as the list of images of the cell under the group's elements. -/
def orbitCells (G : DihedralSubgroup) (cell : Nat) : List Nat :=
  G.elems.map (fun g => g.act cell)

/-- The orbit bitmask of one cell, as built in
PlusNSearchState::for_sudoku_and_symmetry (src/expansion.rs line 48). -/
def orbitMask (G : DihedralSubgroup) (cell : Nat) : Nat :=
  maskFromIndices (orbitCells G cell)

/-- The 81-entry orbit bitmask table (src/expansion.rs line 48). -/
def orbitMasks (G : DihedralSubgroup) : List Nat :=
  (List.range 81).map (orbitMask G)

/-- The subgroup generated by the main-diagonal reflection. -/
def diagSubgroup : DihedralSubgroup :=
  { elems := [.e, .diag]
    e_mem := by decide
    comp_mem := by decide }

/-! ### Symmetric expansion (src/expansion.rs) -/

/-- PlusNSearchState (src/expansion.rs lines 36-44).  The shared
Rc RefCell handle on the grid has a single logical owner throughout the
search, so it is embedded as an owned field. -/
structure PlusNSearchState : Type where
  sudoku : RegionMaskedSudoku
  orbits : List Nat
  allowed_cells : Nat
  placed_cells : Nat
  required_cells : Nat
  pending_placement : Option Nat
  placements_remaining : Nat
deriving DecidableEq, Repr

/-- PlusNSearchState::for_sudoku_and_symmetry (src/expansion.rs lines 47-60). -/
def PlusNSearchState.for_sudoku_and_symmetry (n : Nat) (sudoku : RegionMaskedSudoku)
    (symmetry : DihedralSubgroup) (excluded_cells : List (Nat × Nat)) : PlusNSearchState :=
  let orbits := orbitMasks symmetry
  let clue_cells := maskFromIndices
    ((List.range 81).filter fun idx => !sudoku.is_empty idx)
  let required_cells :=
    ((bitIndices 128 clue_cells).map fun cell => orbits.getD cell 0).foldl (· ||| ·) 0
      &&& notW 128 clue_cells
  let allowed0 := maskFromIndices
    ((List.range 81).filter fun idx => (bitIndices 128 (orbits.getD idx 0)).head? == some idx)
  let allowed_cells :=
    ((excluded_cells.map fun (p : Nat × Nat) => 9 * p.1 + p.2) ++ bitIndices 128 clue_cells).foldl
      (fun acc idx => acc &&& notW 128 (orbits.getD idx 0)) allowed0
  { sudoku, orbits, allowed_cells, required_cells
    pending_placement := none, placed_cells := 0, placements_remaining := n }

/-- PlusNSearchStep (src/expansion.rs lines 63-66). -/
inductive PlusNSearchStep : Type where
  | AddCell : Nat → PlusNSearchStep
  | PlaceDigit : Nat → Nat → PlusNSearchStep
deriving DecidableEq, Repr

/-- The DepthFirstTraversable implementation of PlusNSearchState
(src/expansion.rs lines 68-126). -/
def plusNTrav :
    DepthFirstTraversable PlusNSearchState PlusNSearchStep RegionMaskedSudoku :=
  { next_steps := fun s =>
      match s.pending_placement with
      | some idx => (bitIndices 16 (s.sudoku.candidates idx)).map (.PlaceDigit idx ·)
      | none =>
        if s.required_cells ≠ 0 then
          [.AddCell (trailingZeros 128 s.required_cells)]
        else
          let start := ((bitmaskMax 128 s.placed_cells).map (· + 1)).getD 0
          if start < 81 then
            let candidate_cells := (lowBits (81 - start) <<< start) &&& s.allowed_cells
            (bitIndices 128 candidate_cells).map .AddCell
          else []
    apply_step := fun s step =>
      match step with
      | .AddCell cell =>
        let s1 :=
          if s.required_cells = 0 then
            { s with required_cells := s.orbits.getD cell 0
                     placed_cells := maskSet s.placed_cells cell }
          else s
        { s1 with required_cells := maskUnset 128 s1.required_cells cell
                  pending_placement := some cell
                  placements_remaining := s1.placements_remaining - 1 }
      | .PlaceDigit cell d =>
        { s with sudoku := s.sudoku.place cell d, pending_placement := none }
    revert_step := fun s step =>
      match step with
      | .PlaceDigit cell d =>
        { s with sudoku := s.sudoku.unplace cell d, pending_placement := some cell }
      | .AddCell cell =>
        let s1 := { s with placed_cells := maskUnset 128 s.placed_cells cell
                           required_cells := maskSet s.required_cells cell }
        let s2 :=
          if s1.required_cells = s1.orbits.getD cell 0 then
            { s1 with required_cells := 0 }
          else s1
        { s2 with pending_placement := none
                  placements_remaining := s2.placements_remaining + 1 }
    should_prune := fun s =>
      decide (countOnes 128 s.required_cells > s.placements_remaining) ||
        (s.pending_placement.isNone && s.placements_remaining == 0)
    output := fun s =>
      if s.required_cells = 0 && s.pending_placement.isNone then some s.sudoku
      else none }

/-! ### Region index tables (crate::sudoku, partially absent from src/)

Modelled from the spec: src/logic.rs imports ROWS, COLS, BOXES, PEERS and
Sukaku from crate::sudoku, but the provided src/sudoku.rs does not contain
them.  The spec (section 3) defines them: region r contains the nine cells
whose region index is r, and the peers of a cell are the twenty other
cells sharing its row, column or box. -/

/-- Modelled from the spec: the nine cell-index lists of the rows. -/
def ROWS : List (List Nat) :=
  (List.range 9).map fun r => (List.range 81).filter fun i => i / 9 == r

/-- Modelled from the spec: the nine cell-index lists of the columns. -/
def COLS : List (List Nat) :=
  (List.range 9).map fun c => (List.range 81).filter fun i => i % 9 == c

/-- Modelled from the spec: the nine cell-index lists of the boxes. -/
def BOXES : List (List Nat) :=
  (List.range 9).map fun b => (List.range 81).filter fun i => (i / 9 / 3) * 3 + (i % 9) / 3 == b

/-- Whether two distinct cells share a row, column or box. -/
def isPeer (i j : Nat) : Bool :=
  j != i && (j / 9 == i / 9 || j % 9 == i % 9 ||
    (j / 9 / 3) * 3 + (j % 9) / 3 == (i / 9 / 3) * 3 + (i % 9) / 3)

/-- Modelled from the spec: the twenty peer indices of each cell. -/
def PEERS : List (List Nat) :=
  (List.range 81).map fun i => (List.range 81).filter fun j => isPeer i j

/-! ### Basic logical solver (src/logic.rs)

A Sukaku (referenced by src/logic.rs but with its definition absent from
the provided src/sudoku.rs) is, per the spec's glossary, a per-cell
candidate-mask representation of a Sudoku: here a list of 81 candidate
bitmasks. -/

/-- BasicSolver (src/logic.rs lines 10-17). -/
structure BasicSolver : Type where
  sukaku : List Nat
  placed : List Bool
  placed_count : Nat
  missing_from_rows : List Nat
  missing_from_cols : List Nat
  missing_from_boxes : List Nat
deriving DecidableEq, Repr

namespace BasicSolver

/-- BasicSolver::for_sukaku (src/logic.rs lines 28-33). -/
def for_sukaku (sukaku : List Nat) : BasicSolver :=
  { sukaku
    placed := List.replicate 81 false
    placed_count := 0
    missing_from_rows := List.replicate 9 ALL_DIGITS
    missing_from_cols := List.replicate 9 ALL_DIGITS
    missing_from_boxes := List.replicate 9 ALL_DIGITS }

/-- BasicSolver::place (src/logic.rs lines 60-68): install a single-digit
mask at a cell, clear it from the twenty peers, flip it in the three
region missing-digit masks. -/
def place (s : BasicSolver) (idx mask : Nat) : BasicSolver :=
  { s with
    sukaku := (PEERS.getD idx []).foldl
      (fun sk jdx => sk.set jdx (sk.getD jdx 0 &&& notW 16 mask))
      (s.sukaku.set idx mask)
    placed := s.placed.set idx true
    placed_count := s.placed_count + 1
    missing_from_rows := s.missing_from_rows.set (ROW_INDICES.getD idx 0)
      (s.missing_from_rows.getD (ROW_INDICES.getD idx 0) 0 ^^^ mask)
    missing_from_cols := s.missing_from_cols.set (COL_INDICES.getD idx 0)
      (s.missing_from_cols.getD (COL_INDICES.getD idx 0) 0 ^^^ mask)
    missing_from_boxes := s.missing_from_boxes.set (BOX_INDICES.getD idx 0)
      (s.missing_from_boxes.getD (BOX_INDICES.getD idx 0) 0 ^^^ mask) }

/-- BasicSolver::eliminate (src/logic.rs lines 72-79): remove the digits
of the mask from one cell, reporting whether that changed the cell. -/
def eliminate (s : BasicSolver) (idx mask : Nat) : Bool × BasicSolver :=
  if s.sukaku.getD idx 0 &&& mask ≠ 0 then
    (true, { s with sukaku := s.sukaku.set idx (s.sukaku.getD idx 0 &&& notW 16 mask) })
  else (false, s)

end BasicSolver

/-- The cell loop of do_naked_singles (src/logic.rs lines 82-97); the
first component is none when a zero-candidate cell was found, and the
state mutated so far is kept either way, as the Rust early return keeps
the mutations already applied to self. -/
def doNakedSinglesGo : List Nat → Bool → BasicSolver → Option Bool × BasicSolver
  | [], progress, s => (some progress, s)
  | idx :: rest, progress, s =>
    if s.placed.getD idx false then doNakedSinglesGo rest progress s
    else
      match countOnes 16 (s.sukaku.getD idx 0) with
      | 0 => (none, s)
      | 1 => doNakedSinglesGo rest true (s.place idx (s.sukaku.getD idx 0))
      | _ + 2 => doNakedSinglesGo rest progress s

/-- BasicSolver::do_naked_singles (src/logic.rs lines 82-97). -/
def BasicSolver.do_naked_singles (s : BasicSolver) : Option Bool × BasicSolver :=
  doNakedSinglesGo (List.range 81) false s

/-- The placement loop of do_hidden_singles over one region's cells
(src/logic.rs lines 115-124). -/
def hiddenSinglesCells (exactly_once : Nat) :
    List Nat → Bool → BasicSolver → Option Bool × BasicSolver
  | [], progress, s => (some progress, s)
  | idx :: rest, progress, s =>
    match countOnes 16 (s.sukaku.getD idx 0 &&& exactly_once) with
    | 0 => hiddenSinglesCells exactly_once rest progress s
    | 1 => hiddenSinglesCells exactly_once rest true
        (s.place idx (s.sukaku.getD idx 0 &&& exactly_once))
    | _ + 2 => (none, s)

/-- One region of do_hidden_singles (src/logic.rs lines 105-126): scan the
unplaced cells accumulating the at-least-once and more-than-once masks,
check them against the region's missing mask, then place the cells that
hold a uniquely-placeable digit. -/
def hiddenSinglesRegion (region : List Nat) (missing : Nat) (progress : Bool)
    (s : BasicSolver) : Option Bool × BasicSolver :=
  let acc := (region.filter fun idx => !(s.placed.getD idx false)).foldl
    (fun (p : Nat × Nat) idx =>
      let mask := s.sukaku.getD idx 0
      (p.1 ||| mask, p.2 ||| (p.1 &&& mask))) (0, 0)
  if acc.1 ≠ missing then (none, s)
  else
    let exactly_once := acc.1 &&& notW 16 acc.2
    if exactly_once ≠ 0 then hiddenSinglesCells exactly_once region progress s
    else (some progress, s)

/-- One do_hidden_singles pass over a family of regions, reading each
region's missing mask from the current solver state. -/
def hiddenSinglesPass (missingOf : BasicSolver → List Nat) :
    List (Nat × List Nat) → Bool → BasicSolver → Option Bool × BasicSolver
  | [], progress, s => (some progress, s)
  | (region_idx, region) :: rest, progress, s =>
    match hiddenSinglesRegion region ((missingOf s).getD region_idx 0) progress s with
    | (none, s') => (none, s')
    | (some p, s') => hiddenSinglesPass missingOf rest p s'

/-- BasicSolver::do_hidden_singles (src/logic.rs lines 100-135): the rows,
columns and boxes passes in order, with early exit on contradiction. -/
def BasicSolver.do_hidden_singles (s : BasicSolver) : Option Bool × BasicSolver :=
  match hiddenSinglesPass (·.missing_from_rows) ROWS.enum false s with
  | (none, s1) => (none, s1)
  | (some p1, s1) =>
    match hiddenSinglesPass (·.missing_from_cols) COLS.enum p1 s1 with
    | (none, s2) => (none, s2)
    | (some p2, s2) => hiddenSinglesPass (·.missing_from_boxes) BOXES.enum p2 s2

/-- Itertools::all_equal_value on a list: the common value when the list
is nonempty and all of its elements are equal. -/
def allEqualValue : List Nat → Option Nat
  | [] => none
  | x :: xs => if xs.all (· == x) then some x else none

/-- The digit-mask loop of one do_intersections region (src/logic.rs lines
143-153): for each missing digit of the left region, if every cell of the
left region that can hold it lies in a single right region, eliminate it
from the right region's other cells. -/
def intersectionsMasks (left : List Nat) (left_idx : Nat) (left_indices : List Nat)
    (right : List (List Nat)) (right_indices : List Nat) :
    List Nat → Bool → BasicSolver → Bool × BasicSolver
  | [], progress, s => (progress, s)
  | mask :: masks, progress, s =>
    let hits := (left.filter fun idx => s.sukaku.getD idx 0 &&& mask ≠ 0).map
      fun idx => right_indices.getD idx 0
    match allEqualValue hits with
    | some right_idx =>
      let acc := ((right.getD right_idx []).foldl
        (fun (acc : Bool × BasicSolver) idx =>
          if left_indices.getD idx 0 ≠ left_idx then
            let r := acc.2.eliminate idx mask
            (acc.1 || r.1, r.2)
          else acc) (progress, s))
      intersectionsMasks left left_idx left_indices right right_indices masks acc.1 acc.2
    | none => intersectionsMasks left left_idx left_indices right right_indices masks progress s

/-- One left-family pass of do_intersections (src/logic.rs lines 141-155). -/
def intersectionsPass (left : List (List Nat)) (left_indices : List Nat)
    (right : List (List Nat)) (right_indices : List Nat)
    (missingOf : BasicSolver → List Nat) (start : Bool × BasicSolver) : Bool × BasicSolver :=
  left.enum.foldl
    (fun acc (p : Nat × List Nat) =>
      intersectionsMasks p.2 p.1 left_indices right right_indices
        (maskIndices 16 ((missingOf acc.2).getD p.1 0)) acc.1 acc.2)
    start

/-- BasicSolver::do_intersections (src/logic.rs lines 138-163): the four
pointing and claiming configurations in source order. -/
def BasicSolver.do_intersections (s : BasicSolver) : Bool × BasicSolver :=
  let a := intersectionsPass ROWS ROW_INDICES BOXES BOX_INDICES (·.missing_from_rows) (false, s)
  let b := intersectionsPass COLS COL_INDICES BOXES BOX_INDICES (·.missing_from_cols) a
  let c := intersectionsPass BOXES BOX_INDICES ROWS ROW_INDICES (·.missing_from_boxes) b
  intersectionsPass BOXES BOX_INDICES COLS COL_INDICES (·.missing_from_boxes) c

/-- The initial combination fill of do_subsets (src/logic.rs lines
183-187).  The index and mask stacks grow at the Rust Vec's end; here the
head of each list is the top of the stack. -/
def subsetsInitMasks (s : BasicSolver) (unsolved : List Nat) (sz : Nat) :
    List Nat × List Nat :=
  (List.range sz).foldl
    (fun (acc : List Nat × List Nat) jdx =>
      (jdx :: acc.1, (acc.2.headD 0 ||| s.sukaku.getD (unsolved.getD jdx 0) 0) :: acc.2))
    ([], [])

/-- The elimination sweep of do_subsets when a combination's candidate
union has exactly the combination's size (src/logic.rs lines 190-196). -/
def subsetsElim (unsolved : List Nat) (mask : Nat) (acc : Bool × BasicSolver) :
    Bool × BasicSolver :=
  unsolved.foldl
    (fun (acc : Bool × BasicSolver) idx =>
      if acc.2.sukaku.getD idx 0 &&& notW 16 mask ≠ 0 then
        let r := acc.2.eliminate idx mask
        (acc.1 || r.1, r.2)
      else acc)
    acc

/-- The combination pop loop of do_subsets (src/logic.rs lines 197-200):
pop every trailing index that has reached its maximal value. -/
def subsetsPop (n sz : Nat) : List Nat → List Nat → List Nat × List Nat
  | [], ms => ([], ms)
  | i :: is, ms =>
    if i == n - (sz + 1 - (is.length + 1)) then subsetsPop n sz is ms.tail
    else (i :: is, ms)

/-- The combination refill loop of do_subsets (src/logic.rs lines
203-206): push successor indices until the combination has sz entries
again, extending the mask stack from its current (possibly stale) top. -/
def subsetsRefill (s : BasicSolver) (unsolved : List Nat) (sz : Nat) :
    Nat → List Nat × List Nat → List Nat × List Nat
  | 0, p => p
  | f + 1, (is, ms) =>
    if is.length < sz then
      let newIdx := is.headD 0 + 1
      subsetsRefill s unsolved sz f
        (newIdx :: is, (ms.headD 0 ||| s.sukaku.getD (unsolved.getD newIdx 0) 0) :: ms)
    else (is, ms)

/-- The main combination loop of do_subsets (src/logic.rs lines 188-210),
with fuel bounding the number of iterations.  As in the source, advancing
a combination does not recompute the mask for the incremented position, so
the top mask can be stale; the embedding reproduces this. -/
def subsetsLoop (unsolved : List Nat) (sz : Nat) :
    Nat → List Nat × List Nat → Bool × BasicSolver → Bool × BasicSolver
  | 0, _, acc => acc
  | f + 1, (is, ms), acc =>
    let mask := ms.headD 0
    let acc1 := if countOnes 16 mask == sz then subsetsElim unsolved mask acc else acc
    match subsetsPop unsolved.length sz is ms with
    | ([], _) => acc1
    | (i :: is', ms') =>
      subsetsLoop unsolved sz f
        (subsetsRefill acc1.2 unsolved sz sz ((i + 1) :: is', ms')) acc1

/-- One region of do_subsets (src/logic.rs lines 179-211): skip regions
with fewer than twice sz missing digits, then run the combination loop for
the sizes sz and (number of unsolved cells minus sz). -/
def subsetsRegion (region : List Nat) (region_idx : Nat) (sz : Nat)
    (missingOf : BasicSolver → List Nat) (acc : Bool × BasicSolver) : Bool × BasicSolver :=
  if countOnes 16 ((missingOf acc.2).getD region_idx 0) < 2 * sz then acc
  else
    let unsolved := region.filter fun idx => !(acc.2.placed.getD idx false)
    [sz, unsolved.length - sz].foldl
      (fun acc sz' => subsetsLoop unsolved sz' 4096 (subsetsInitMasks acc.2 unsolved sz') acc)
      acc

/-- One region-family pass of do_subsets (src/logic.rs lines 177-214). -/
def subsetsPass (regions : List (List Nat)) (missingOf : BasicSolver → List Nat)
    (sz : Nat) (acc : Bool × BasicSolver) : Bool × BasicSolver :=
  regions.enum.foldl (fun acc (p : Nat × List Nat) => subsetsRegion p.2 p.1 sz missingOf acc) acc

/-- BasicSolver::do_subsets (src/logic.rs lines 174-221). -/
def BasicSolver.do_subsets (s : BasicSolver) (sz : Nat) : Bool × BasicSolver :=
  subsetsPass BOXES (·.missing_from_boxes) sz
    (subsetsPass COLS (·.missing_from_cols) sz
      (subsetsPass ROWS (·.missing_from_rows) sz (false, s)))

/-- BasicSolver::do_all_subsets (src/logic.rs lines 166-172): sizes 2, 3
and 4, each pass always run (made_progress is |=-accumulated). -/
def BasicSolver.do_all_subsets (s : BasicSolver) : Bool × BasicSolver :=
  let a := s.do_subsets 2
  let b := a.2.do_subsets 3
  let c := b.2.do_subsets 4
  (a.1 || b.1 || c.1, c.2)

/-- BasicSolver::step_basics (src/logic.rs lines 37-41).  Rust's lazy ||
skips do_all_subsets when do_intersections already made progress. -/
def BasicSolver.step_basics (s : BasicSolver) : Option Bool × BasicSolver :=
  match s.do_naked_singles with
  | (none, s') => (none, s')
  | (some true, s') => (some true, s')
  | (some false, s') =>
    match s'.do_hidden_singles with
    | (none, s'') => (none, s'')
    | (some true, s'') => (some true, s'')
    | (some false, s'') =>
      let a := s''.do_intersections
      if a.1 then (some true, a.2)
      else
        let b := a.2.do_all_subsets
        (some b.1, b.2)

/-- BasicSolver::solve_basics (src/logic.rs lines 44-46): loop step_basics
while it reports progress.  The fuel bounds the number of iterations; none
means the bound was hit before the Rust loop would have stopped. -/
def solveBasicsF : Nat → BasicSolver → Option BasicSolver
  | 0, _ => none
  | f + 1, s =>
    match s.step_basics with
    | (some true, s') => solveBasicsF f s'
    | (some false, s') => some s'
    | (none, s') => some s'

/-! ### Brute-force band solver (src/fast_solver.rs)

Machine u32 values are Nat below 2 to the 32; the lookup tables are copied
verbatim from the source.  The Unsolvable error is Except's error case.
The mutable Solutions counter is threaded as an explicit Nat; only the
counting mode is embedded, as every public query uses it. -/

def NONCONFLICTING_SAME_BAND : List Nat := [
  0o770770001, 0o770770002, 0o770770004, 0o707707010, 0o707707020, 0o707707040, 0o077077100, 0o077077200, 0o077077400,
  0o770001770, 0o770002770, 0o770004770, 0o707010707, 0o707020707, 0o707040707, 0o077100077, 0o077200077, 0o077400077,
  0o001770770, 0o002770770, 0o004770770, 0o010707707, 0o020707707, 0o040707707, 0o100077077, 0o200077077, 0o400077077,
  0o770770001, 0o770770002, 0o770770004, 0o707707010, 0o707707020, 0o707707040, 0o077077100, 0o077077200, 0o077077400,
  0o770001770, 0o770002770, 0o770004770, 0o707010707, 0o707020707, 0o707040707, 0o077100077, 0o077200077, 0o077400077,
  0o001770770, 0o002770770, 0o004770770, 0o010707707, 0o020707707, 0o040707707, 0o100077077, 0o200077077, 0o400077077,
  0o770770001, 0o770770002, 0o770770004, 0o707707010, 0o707707020, 0o707707040, 0o077077100, 0o077077200, 0o077077400,
  0o770001770, 0o770002770, 0o770004770, 0o707010707, 0o707020707, 0o707040707, 0o077100077, 0o077200077, 0o077400077,
  0o001770770, 0o002770770, 0o004770770, 0o010707707, 0o020707707, 0o040707707, 0o100077077, 0o200077077, 0o400077077]

def NONCONFLICTING_NEIGHBOUR_BANDS : List Nat := [
  0o776776776, 0o775775775, 0o773773773, 0o767767767, 0o757757757, 0o737737737, 0o677677677, 0o577577577, 0o377377377,
  0o776776776, 0o775775775, 0o773773773, 0o767767767, 0o757757757, 0o737737737, 0o677677677, 0o577577577, 0o377377377,
  0o776776776, 0o775775775, 0o773773773, 0o767767767, 0o757757757, 0o737737737, 0o677677677, 0o577577577, 0o377377377,
  0o776776776, 0o775775775, 0o773773773, 0o767767767, 0o757757757, 0o737737737, 0o677677677, 0o577577577, 0o377377377,
  0o776776776, 0o775775775, 0o773773773, 0o767767767, 0o757757757, 0o737737737, 0o677677677, 0o577577577, 0o377377377,
  0o776776776, 0o775775775, 0o773773773, 0o767767767, 0o757757757, 0o737737737, 0o677677677, 0o577577577, 0o377377377,
  0o776776776, 0o775775775, 0o773773773, 0o767767767, 0o757757757, 0o737737737, 0o677677677, 0o577577577, 0o377377377,
  0o776776776, 0o775775775, 0o773773773, 0o767767767, 0o757757757, 0o737737737, 0o677677677, 0o577577577, 0o377377377,
  0o776776776, 0o775775775, 0o773773773, 0o767767767, 0o757757757, 0o737737737, 0o677677677, 0o577577577, 0o377377377]

def NONCONFLICTING_SAME_BAND_LOCKED : List Nat := [
  0o000000000, 0o000000000, 0o000000000, 0o000000000, 0o000000000, 0o000000000, 0o000000000, 0o000000000,
  0o000000000, 0o000000000, 0o000000000, 0o000000000, 0o000000000, 0o000000000, 0o000000000, 0o000000000,
  0o000000000, 0o000000000, 0o000000000, 0o000000000, 0o000000000, 0o000000000, 0o000000000, 0o000000000,
  0o000000000, 0o000000000, 0o000000000, 0o000000000, 0o000000000, 0o000000000, 0o000000000, 0o000000000,
  0o000000000, 0o000000000, 0o000000000, 0o000000000, 0o000000000, 0o000000000, 0o000000000, 0o000000000,
  0o000000000, 0o000000000, 0o000000000, 0o000000000, 0o000000000, 0o000000000, 0o000000000, 0o000000000,
  0o000000000, 0o000000000, 0o000000000, 0o000000000, 0o000000000, 0o000000000, 0o000000000, 0o000000000,
  0o000000000, 0o000000000, 0o000000000, 0o000000000, 0o000000000, 0o000000000, 0o000000000, 0o000000000,
  0o000000000, 0o000000000, 0o000000000, 0o000000000, 0o000000000, 0o000000000, 0o000000000, 0o000000000,
  0o000000000, 0o000000000, 0o000000000, 0o000000000, 0o000000000, 0o000000000, 0o000000000, 0o000000000,
  0o000000000, 0o000000000, 0o000000000, 0o000000000, 0o007070700, 0o707070700, 0o007770700, 0o707770700,
  0o000000000, 0o000000000, 0o000000000, 0o000000000, 0o077070700, 0o777070700, 0o777770700, 0o777770700,
  0o000000000, 0o000000000, 0o007700070, 0o077700070, 0o000000000, 0o000000000, 0o007770070, 0o077770070,
  0o000000000, 0o000000000, 0o707700070, 0o777700070, 0o000000000, 0o000000000, 0o777770070, 0o777770070,
  0o000000000, 0o000000000, 0o007700770, 0o777700770, 0o007070770, 0o777070770, 0o007770770, 0o777770770,
  0o000000000, 0o000000000, 0o707700770, 0o777700770, 0o077070770, 0o777070770, 0o777770770, 0o777770770,
  0o000000000, 0o000000000, 0o000000000, 0o000000000, 0o000000000, 0o000000000, 0o000000000, 0o000000000,
  0o000000000, 0o000000000, 0o000000000, 0o000000000, 0o070007700, 0o070707700, 0o770007700, 0o770707700,
  0o000000000, 0o000000000, 0o000000000, 0o000000000, 0o000000000, 0o000000000, 0o000000000, 0o000000000,
  0o000000000, 0o000000000, 0o000000000, 0o000000000, 0o077007700, 0o777707700, 0o777007700, 0o777707700,
  0o000000000, 0o070700007, 0o000000000, 0o077700007, 0o000000000, 0o070707007, 0o000000000, 0o077707007,
  0o000000000, 0o070700707, 0o000000000, 0o777700707, 0o070007707, 0o070707707, 0o777007707, 0o777707707,
  0o000000000, 0o770700007, 0o000000000, 0o777700007, 0o000000000, 0o777707007, 0o000000000, 0o777707007,
  0o000000000, 0o770700707, 0o000000000, 0o777700707, 0o077007707, 0o777707707, 0o777007707, 0o777707707,
  0o000000000, 0o000000000, 0o000000000, 0o000000000, 0o000000000, 0o000000000, 0o000000000, 0o000000000,
  0o000000000, 0o000000000, 0o000000000, 0o000000000, 0o070077700, 0o070777700, 0o770777700, 0o770777700,
  0o000000000, 0o000000000, 0o000000000, 0o000000000, 0o007077700, 0o707777700, 0o007777700, 0o707777700,
  0o000000000, 0o000000000, 0o000000000, 0o000000000, 0o077077700, 0o777777700, 0o777777700, 0o777777700,
  0o000000000, 0o070700077, 0o007700077, 0o077700077, 0o000000000, 0o070777077, 0o007777077, 0o077777077,
  0o000000000, 0o070700777, 0o707700777, 0o777700777, 0o070077777, 0o070777777, 0o777777777, 0o777777777,
  0o000000000, 0o770700777, 0o007700777, 0o777700777, 0o007077777, 0o777777777, 0o007777777, 0o777777777,
  0o000000000, 0o770700777, 0o707700777, 0o777700777, 0o077077777, 0o777777777, 0o777777777, 0o777777777,
  0o000000000, 0o000000000, 0o000000000, 0o000000000, 0o000000000, 0o000000000, 0o000000000, 0o000000000,
  0o000000000, 0o000000000, 0o700007070, 0o700077070, 0o000000000, 0o000000000, 0o770007070, 0o770077070,
  0o000000000, 0o700070007, 0o000000000, 0o700077007, 0o000000000, 0o707070007, 0o000000000, 0o707077007,
  0o000000000, 0o700070077, 0o700007077, 0o700077077, 0o000000000, 0o777070077, 0o777007077, 0o777077077,
  0o000000000, 0o000000000, 0o000000000, 0o000000000, 0o000000000, 0o000000000, 0o000000000, 0o000000000,
  0o000000000, 0o000000000, 0o707007070, 0o777077070, 0o000000000, 0o000000000, 0o777007070, 0o777077070,
  0o000000000, 0o770070007, 0o000000000, 0o777077007, 0o000000000, 0o777070007, 0o000000000, 0o777077007,
  0o000000000, 0o770070077, 0o707007077, 0o777077077, 0o000000000, 0o777070077, 0o777007077, 0o777077077,
  0o000000000, 0o000000000, 0o000000000, 0o000000000, 0o000000000, 0o000000000, 0o000000000, 0o000000000,
  0o000000000, 0o000000000, 0o700707070, 0o700777070, 0o000000000, 0o000000000, 0o770777070, 0o770777070,
  0o000000000, 0o700070707, 0o000000000, 0o700777707, 0o007070707, 0o707070707, 0o007777707, 0o707777707,
  0o000000000, 0o700070777, 0o700707777, 0o700777777, 0o077070777, 0o777070777, 0o777777777, 0o777777777,
  0o000000000, 0o000000000, 0o007707070, 0o077777070, 0o000000000, 0o000000000, 0o007777070, 0o077777070,
  0o000000000, 0o000000000, 0o707707070, 0o777777070, 0o000000000, 0o000000000, 0o777777070, 0o777777070,
  0o000000000, 0o770070777, 0o007707777, 0o777777777, 0o007070777, 0o777070777, 0o007777777, 0o777777777,
  0o000000000, 0o770070777, 0o707707777, 0o777777777, 0o077070777, 0o777070777, 0o777777777, 0o777777777,
  0o000000000, 0o000000000, 0o000000000, 0o000000000, 0o000000000, 0o000000000, 0o000000000, 0o000000000,
  0o000000000, 0o000000000, 0o700007770, 0o700777770, 0o070007770, 0o070777770, 0o770007770, 0o770777770,
  0o000000000, 0o700770007, 0o000000000, 0o700777007, 0o000000000, 0o707777007, 0o000000000, 0o707777007,
  0o000000000, 0o700770777, 0o700007777, 0o700777777, 0o077007777, 0o777777777, 0o777007777, 0o777777777,
  0o000000000, 0o070770007, 0o000000000, 0o077777007, 0o000000000, 0o070777007, 0o000000000, 0o077777007,
  0o000000000, 0o070770777, 0o707007777, 0o777777777, 0o070007777, 0o070777777, 0o777007777, 0o777777777,
  0o000000000, 0o770770007, 0o000000000, 0o777777007, 0o000000000, 0o777777007, 0o000000000, 0o777777007,
  0o000000000, 0o770770777, 0o707007777, 0o777777777, 0o077007777, 0o777777777, 0o777007777, 0o777777777,
  0o000000000, 0o000000000, 0o000000000, 0o000000000, 0o000000000, 0o000000000, 0o000000000, 0o000000000,
  0o000000000, 0o000000000, 0o700707770, 0o700777770, 0o070077770, 0o070777770, 0o770777770, 0o770777770,
  0o000000000, 0o700770707, 0o000000000, 0o700777707, 0o007077707, 0o707777707, 0o007777707, 0o707777707,
  0o000000000, 0o700770777, 0o700707777, 0o700777777, 0o077077777, 0o777777777, 0o777777777, 0o777777777,
  0o000000000, 0o070770077, 0o007707077, 0o077777077, 0o000000000, 0o070777077, 0o007777077, 0o077777077,
  0o000000000, 0o070770777, 0o707707777, 0o777777777, 0o070077777, 0o070777777, 0o777777777, 0o777777777,
  0o000000000, 0o770770777, 0o007707777, 0o777777777, 0o007077777, 0o777777777, 0o007777777, 0o777777777,
  0o000000000, 0o770770777, 0o707707777, 0o777777777, 0o077077777, 0o777777777, 0o777777777, 0o777777777]

def NONCONFLICTING_NEIGHBOUR_BANDS_LOCKED : List Nat := [
  0o777777777, 0o776776776, 0o775775775, 0o777777777, 0o773773773, 0o777777777, 0o777777777, 0o777777777,
  0o767767767, 0o766766766, 0o765765765, 0o767767767, 0o763763763, 0o767767767, 0o767767767, 0o767767767,
  0o757757757, 0o756756756, 0o755755755, 0o757757757, 0o753753753, 0o757757757, 0o757757757, 0o757757757,
  0o777777777, 0o776776776, 0o775775775, 0o777777777, 0o773773773, 0o777777777, 0o777777777, 0o777777777,
  0o737737737, 0o736736736, 0o735735735, 0o737737737, 0o733733733, 0o737737737, 0o737737737, 0o737737737,
  0o777777777, 0o776776776, 0o775775775, 0o777777777, 0o773773773, 0o777777777, 0o777777777, 0o777777777,
  0o777777777, 0o776776776, 0o775775775, 0o777777777, 0o773773773, 0o777777777, 0o777777777, 0o777777777,
  0o777777777, 0o776776776, 0o775775775, 0o777777777, 0o773773773, 0o777777777, 0o777777777, 0o777777777,
  0o677677677, 0o676676676, 0o675675675, 0o677677677, 0o673673673, 0o677677677, 0o677677677, 0o677677677,
  0o667667667, 0o666666666, 0o665665665, 0o667667667, 0o663663663, 0o667667667, 0o667667667, 0o667667667,
  0o657657657, 0o656656656, 0o655655655, 0o657657657, 0o653653653, 0o657657657, 0o657657657, 0o657657657,
  0o677677677, 0o676676676, 0o675675675, 0o677677677, 0o673673673, 0o677677677, 0o677677677, 0o677677677,
  0o637637637, 0o636636636, 0o635635635, 0o637637637, 0o633633633, 0o637637637, 0o637637637, 0o637637637,
  0o677677677, 0o676676676, 0o675675675, 0o677677677, 0o673673673, 0o677677677, 0o677677677, 0o677677677,
  0o677677677, 0o676676676, 0o675675675, 0o677677677, 0o673673673, 0o677677677, 0o677677677, 0o677677677,
  0o677677677, 0o676676676, 0o675675675, 0o677677677, 0o673673673, 0o677677677, 0o677677677, 0o677677677,
  0o577577577, 0o576576576, 0o575575575, 0o577577577, 0o573573573, 0o577577577, 0o577577577, 0o577577577,
  0o567567567, 0o566566566, 0o565565565, 0o567567567, 0o563563563, 0o567567567, 0o567567567, 0o567567567,
  0o557557557, 0o556556556, 0o555555555, 0o557557557, 0o553553553, 0o557557557, 0o557557557, 0o557557557,
  0o577577577, 0o576576576, 0o575575575, 0o577577577, 0o573573573, 0o577577577, 0o577577577, 0o577577577,
  0o537537537, 0o536536536, 0o535535535, 0o537537537, 0o533533533, 0o537537537, 0o537537537, 0o537537537,
  0o577577577, 0o576576576, 0o575575575, 0o577577577, 0o573573573, 0o577577577, 0o577577577, 0o577577577,
  0o577577577, 0o576576576, 0o575575575, 0o577577577, 0o573573573, 0o577577577, 0o577577577, 0o577577577,
  0o577577577, 0o576576576, 0o575575575, 0o577577577, 0o573573573, 0o577577577, 0o577577577, 0o577577577,
  0o777777777, 0o776776776, 0o775775775, 0o777777777, 0o773773773, 0o777777777, 0o777777777, 0o777777777,
  0o767767767, 0o766766766, 0o765765765, 0o767767767, 0o763763763, 0o767767767, 0o767767767, 0o767767767,
  0o757757757, 0o756756756, 0o755755755, 0o757757757, 0o753753753, 0o757757757, 0o757757757, 0o757757757,
  0o777777777, 0o776776776, 0o775775775, 0o777777777, 0o773773773, 0o777777777, 0o777777777, 0o777777777,
  0o737737737, 0o736736736, 0o735735735, 0o737737737, 0o733733733, 0o737737737, 0o737737737, 0o737737737,
  0o777777777, 0o776776776, 0o775775775, 0o777777777, 0o773773773, 0o777777777, 0o777777777, 0o777777777,
  0o777777777, 0o776776776, 0o775775775, 0o777777777, 0o773773773, 0o777777777, 0o777777777, 0o777777777,
  0o777777777, 0o776776776, 0o775775775, 0o777777777, 0o773773773, 0o777777777, 0o777777777, 0o777777777,
  0o377377377, 0o376376376, 0o375375375, 0o377377377, 0o373373373, 0o377377377, 0o377377377, 0o377377377,
  0o367367367, 0o366366366, 0o365365365, 0o367367367, 0o363363363, 0o367367367, 0o367367367, 0o367367367,
  0o357357357, 0o356356356, 0o355355355, 0o357357357, 0o353353353, 0o357357357, 0o357357357, 0o357357357,
  0o377377377, 0o376376376, 0o375375375, 0o377377377, 0o373373373, 0o377377377, 0o377377377, 0o377377377,
  0o337337337, 0o336336336, 0o335335335, 0o337337337, 0o333333333, 0o337337337, 0o337337337, 0o337337337,
  0o377377377, 0o376376376, 0o375375375, 0o377377377, 0o373373373, 0o377377377, 0o377377377, 0o377377377,
  0o377377377, 0o376376376, 0o375375375, 0o377377377, 0o373373373, 0o377377377, 0o377377377, 0o377377377,
  0o377377377, 0o376376376, 0o375375375, 0o377377377, 0o373373373, 0o377377377, 0o377377377, 0o377377377,
  0o777777777, 0o776776776, 0o775775775, 0o777777777, 0o773773773, 0o777777777, 0o777777777, 0o777777777,
  0o767767767, 0o766766766, 0o765765765, 0o767767767, 0o763763763, 0o767767767, 0o767767767, 0o767767767,
  0o757757757, 0o756756756, 0o755755755, 0o757757757, 0o753753753, 0o757757757, 0o757757757, 0o757757757,
  0o777777777, 0o776776776, 0o775775775, 0o777777777, 0o773773773, 0o777777777, 0o777777777, 0o777777777,
  0o737737737, 0o736736736, 0o735735735, 0o737737737, 0o733733733, 0o737737737, 0o737737737, 0o737737737,
  0o777777777, 0o776776776, 0o775775775, 0o777777777, 0o773773773, 0o777777777, 0o777777777, 0o777777777,
  0o777777777, 0o776776776, 0o775775775, 0o777777777, 0o773773773, 0o777777777, 0o777777777, 0o777777777,
  0o777777777, 0o776776776, 0o775775775, 0o777777777, 0o773773773, 0o777777777, 0o777777777, 0o777777777,
  0o777777777, 0o776776776, 0o775775775, 0o777777777, 0o773773773, 0o777777777, 0o777777777, 0o777777777,
  0o767767767, 0o766766766, 0o765765765, 0o767767767, 0o763763763, 0o767767767, 0o767767767, 0o767767767,
  0o757757757, 0o756756756, 0o755755755, 0o757757757, 0o753753753, 0o757757757, 0o757757757, 0o757757757,
  0o777777777, 0o776776776, 0o775775775, 0o777777777, 0o773773773, 0o777777777, 0o777777777, 0o777777777,
  0o737737737, 0o736736736, 0o735735735, 0o737737737, 0o733733733, 0o737737737, 0o737737737, 0o737737737,
  0o777777777, 0o776776776, 0o775775775, 0o777777777, 0o773773773, 0o777777777, 0o777777777, 0o777777777,
  0o777777777, 0o776776776, 0o775775775, 0o777777777, 0o773773773, 0o777777777, 0o777777777, 0o777777777,
  0o777777777, 0o776776776, 0o775775775, 0o777777777, 0o773773773, 0o777777777, 0o777777777, 0o777777777,
  0o777777777, 0o776776776, 0o775775775, 0o777777777, 0o773773773, 0o777777777, 0o777777777, 0o777777777,
  0o767767767, 0o766766766, 0o765765765, 0o767767767, 0o763763763, 0o767767767, 0o767767767, 0o767767767,
  0o757757757, 0o756756756, 0o755755755, 0o757757757, 0o753753753, 0o757757757, 0o757757757, 0o757757757,
  0o777777777, 0o776776776, 0o775775775, 0o777777777, 0o773773773, 0o777777777, 0o777777777, 0o777777777,
  0o737737737, 0o736736736, 0o735735735, 0o737737737, 0o733733733, 0o737737737, 0o737737737, 0o737737737,
  0o777777777, 0o776776776, 0o775775775, 0o777777777, 0o773773773, 0o777777777, 0o777777777, 0o777777777,
  0o777777777, 0o776776776, 0o775775775, 0o777777777, 0o773773773, 0o777777777, 0o777777777, 0o777777777,
  0o777777777, 0o776776776, 0o775775775, 0o777777777, 0o773773773, 0o777777777, 0o777777777, 0o777777777]

def LOCKED_MINIROWS : List Nat := [
  0o000, 0o000, 0o000, 0o000, 0o000, 0o000, 0o000, 0o000, 0o000, 0o000, 0o000, 0o000, 0o000, 0o000, 0o000, 0o000,
  0o000, 0o000, 0o000, 0o000, 0o000, 0o000, 0o000, 0o000, 0o000, 0o000, 0o000, 0o000, 0o000, 0o000, 0o000, 0o000,
  0o000, 0o000, 0o000, 0o000, 0o000, 0o000, 0o000, 0o000, 0o000, 0o000, 0o000, 0o000, 0o000, 0o000, 0o000, 0o000,
  0o000, 0o000, 0o000, 0o000, 0o000, 0o000, 0o000, 0o000, 0o000, 0o000, 0o000, 0o000, 0o000, 0o000, 0o000, 0o000,
  0o000, 0o000, 0o000, 0o000, 0o000, 0o000, 0o000, 0o000, 0o000, 0o000, 0o000, 0o000, 0o000, 0o000, 0o000, 0o000,
  0o000, 0o000, 0o000, 0o000, 0o124, 0o124, 0o124, 0o124, 0o000, 0o000, 0o000, 0o000, 0o124, 0o124, 0o124, 0o124,
  0o000, 0o000, 0o142, 0o142, 0o000, 0o000, 0o142, 0o142, 0o000, 0o000, 0o142, 0o142, 0o000, 0o000, 0o142, 0o142,
  0o000, 0o000, 0o142, 0o142, 0o124, 0o124, 0o100, 0o100, 0o000, 0o000, 0o142, 0o142, 0o124, 0o124, 0o100, 0o100,
  0o000, 0o000, 0o000, 0o000, 0o000, 0o000, 0o000, 0o000, 0o000, 0o000, 0o000, 0o000, 0o214, 0o214, 0o214, 0o214,
  0o000, 0o000, 0o000, 0o000, 0o000, 0o000, 0o000, 0o000, 0o000, 0o000, 0o000, 0o000, 0o214, 0o214, 0o214, 0o214,
  0o000, 0o241, 0o000, 0o241, 0o000, 0o241, 0o000, 0o241, 0o000, 0o241, 0o000, 0o241, 0o214, 0o200, 0o214, 0o200,
  0o000, 0o241, 0o000, 0o241, 0o000, 0o241, 0o000, 0o241, 0o000, 0o241, 0o000, 0o241, 0o214, 0o200, 0o214, 0o200,
  0o000, 0o000, 0o000, 0o000, 0o000, 0o000, 0o000, 0o000, 0o000, 0o000, 0o000, 0o000, 0o214, 0o214, 0o214, 0o214,
  0o000, 0o000, 0o000, 0o000, 0o124, 0o124, 0o124, 0o124, 0o000, 0o000, 0o000, 0o000, 0o004, 0o004, 0o004, 0o004,
  0o000, 0o241, 0o142, 0o040, 0o000, 0o241, 0o142, 0o040, 0o000, 0o241, 0o142, 0o040, 0o214, 0o200, 0o000, 0o000,
  0o000, 0o241, 0o142, 0o040, 0o124, 0o000, 0o100, 0o000, 0o000, 0o241, 0o142, 0o040, 0o004, 0o000, 0o000, 0o000,
  0o000, 0o000, 0o000, 0o000, 0o000, 0o000, 0o000, 0o000, 0o000, 0o000, 0o412, 0o412, 0o000, 0o000, 0o412, 0o412,
  0o000, 0o421, 0o000, 0o421, 0o000, 0o421, 0o000, 0o421, 0o000, 0o421, 0o412, 0o400, 0o000, 0o421, 0o412, 0o400,
  0o000, 0o000, 0o000, 0o000, 0o000, 0o000, 0o000, 0o000, 0o000, 0o000, 0o412, 0o412, 0o000, 0o000, 0o412, 0o412,
  0o000, 0o421, 0o000, 0o421, 0o000, 0o421, 0o000, 0o421, 0o000, 0o421, 0o412, 0o400, 0o000, 0o421, 0o412, 0o400,
  0o000, 0o000, 0o000, 0o000, 0o000, 0o000, 0o000, 0o000, 0o000, 0o000, 0o412, 0o412, 0o000, 0o000, 0o412, 0o412,
  0o000, 0o421, 0o000, 0o421, 0o124, 0o020, 0o124, 0o020, 0o000, 0o421, 0o412, 0o400, 0o124, 0o020, 0o000, 0o000,
  0o000, 0o000, 0o142, 0o142, 0o000, 0o000, 0o142, 0o142, 0o000, 0o000, 0o002, 0o002, 0o000, 0o000, 0o002, 0o002,
  0o000, 0o421, 0o142, 0o000, 0o124, 0o020, 0o100, 0o000, 0o000, 0o421, 0o002, 0o000, 0o124, 0o020, 0o000, 0o000,
  0o000, 0o000, 0o000, 0o000, 0o000, 0o000, 0o000, 0o000, 0o000, 0o000, 0o412, 0o412, 0o214, 0o214, 0o010, 0o010,
  0o000, 0o421, 0o000, 0o421, 0o000, 0o421, 0o000, 0o421, 0o000, 0o421, 0o412, 0o400, 0o214, 0o000, 0o010, 0o000,
  0o000, 0o241, 0o000, 0o241, 0o000, 0o241, 0o000, 0o241, 0o000, 0o241, 0o412, 0o000, 0o214, 0o200, 0o010, 0o000,
  0o000, 0o001, 0o000, 0o001, 0o000, 0o001, 0o000, 0o001, 0o000, 0o001, 0o412, 0o000, 0o214, 0o000, 0o010, 0o000,
  0o000, 0o000, 0o000, 0o000, 0o000, 0o000, 0o000, 0o000, 0o000, 0o000, 0o412, 0o412, 0o214, 0o214, 0o010, 0o010,
  0o000, 0o421, 0o000, 0o421, 0o124, 0o020, 0o124, 0o020, 0o000, 0o421, 0o412, 0o400, 0o004, 0o000, 0o000, 0o000,
  0o000, 0o241, 0o142, 0o040, 0o000, 0o241, 0o142, 0o040, 0o000, 0o241, 0o002, 0o000, 0o214, 0o200, 0o000, 0o000,
  0o000, 0o001, 0o142, 0o000, 0o124, 0o000, 0o100, 0o000, 0o000, 0o001, 0o002, 0o000, 0o004, 0o000, 0o000, 0o000]

def COLUMN_SINGLE : List Nat := [
  0o000, 0o000, 0o000, 0o000, 0o000, 0o000, 0o000, 0o000, 0o000, 0o000, 0o000, 0o000, 0o000, 0o000, 0o000, 0o000,
  0o000, 0o000, 0o000, 0o000, 0o000, 0o000, 0o000, 0o000, 0o000, 0o000, 0o000, 0o000, 0o000, 0o000, 0o000, 0o000,
  0o000, 0o000, 0o000, 0o000, 0o000, 0o000, 0o000, 0o000, 0o000, 0o000, 0o000, 0o000, 0o000, 0o000, 0o000, 0o000,
  0o000, 0o000, 0o000, 0o000, 0o000, 0o000, 0o000, 0o000, 0o000, 0o000, 0o000, 0o000, 0o000, 0o000, 0o000, 0o000,
  0o000, 0o000, 0o000, 0o000, 0o000, 0o000, 0o000, 0o000, 0o000, 0o777, 0o777, 0o666, 0o777, 0o666, 0o666, 0o666,
  0o000, 0o777, 0o777, 0o666, 0o777, 0o666, 0o666, 0o666, 0o000, 0o555, 0o555, 0o444, 0o555, 0o444, 0o444, 0o444,
  0o000, 0o777, 0o777, 0o666, 0o777, 0o666, 0o666, 0o666, 0o000, 0o555, 0o555, 0o444, 0o555, 0o444, 0o444, 0o444,
  0o000, 0o555, 0o555, 0o444, 0o555, 0o444, 0o444, 0o444, 0o000, 0o555, 0o555, 0o444, 0o555, 0o444, 0o444, 0o444,
  0o000, 0o000, 0o000, 0o000, 0o000, 0o000, 0o000, 0o000, 0o000, 0o777, 0o777, 0o666, 0o777, 0o666, 0o666, 0o666,
  0o000, 0o777, 0o777, 0o666, 0o777, 0o666, 0o666, 0o666, 0o000, 0o555, 0o555, 0o444, 0o555, 0o444, 0o444, 0o444,
  0o000, 0o777, 0o777, 0o666, 0o777, 0o666, 0o666, 0o666, 0o000, 0o555, 0o555, 0o444, 0o555, 0o444, 0o444, 0o444,
  0o000, 0o555, 0o555, 0o444, 0o555, 0o444, 0o444, 0o444, 0o000, 0o555, 0o555, 0o444, 0o555, 0o444, 0o444, 0o444,
  0o000, 0o000, 0o000, 0o000, 0o000, 0o000, 0o000, 0o000, 0o000, 0o333, 0o333, 0o222, 0o333, 0o222, 0o222, 0o222,
  0o000, 0o333, 0o333, 0o222, 0o333, 0o222, 0o222, 0o222, 0o000, 0o111, 0o111, 0o000, 0o111, 0o000, 0o000, 0o000,
  0o000, 0o333, 0o333, 0o222, 0o333, 0o222, 0o222, 0o222, 0o000, 0o111, 0o111, 0o000, 0o111, 0o000, 0o000, 0o000,
  0o000, 0o111, 0o111, 0o000, 0o111, 0o000, 0o000, 0o000, 0o000, 0o111, 0o111, 0o000, 0o111, 0o000, 0o000, 0o000,
  0o000, 0o000, 0o000, 0o000, 0o000, 0o000, 0o000, 0o000, 0o000, 0o777, 0o777, 0o666, 0o777, 0o666, 0o666, 0o666,
  0o000, 0o777, 0o777, 0o666, 0o777, 0o666, 0o666, 0o666, 0o000, 0o555, 0o555, 0o444, 0o555, 0o444, 0o444, 0o444,
  0o000, 0o777, 0o777, 0o666, 0o777, 0o666, 0o666, 0o666, 0o000, 0o555, 0o555, 0o444, 0o555, 0o444, 0o444, 0o444,
  0o000, 0o555, 0o555, 0o444, 0o555, 0o444, 0o444, 0o444, 0o000, 0o555, 0o555, 0o444, 0o555, 0o444, 0o444, 0o444,
  0o000, 0o000, 0o000, 0o000, 0o000, 0o000, 0o000, 0o000, 0o000, 0o333, 0o333, 0o222, 0o333, 0o222, 0o222, 0o222,
  0o000, 0o333, 0o333, 0o222, 0o333, 0o222, 0o222, 0o222, 0o000, 0o111, 0o111, 0o000, 0o111, 0o000, 0o000, 0o000,
  0o000, 0o333, 0o333, 0o222, 0o333, 0o222, 0o222, 0o222, 0o000, 0o111, 0o111, 0o000, 0o111, 0o000, 0o000, 0o000,
  0o000, 0o111, 0o111, 0o000, 0o111, 0o000, 0o000, 0o000, 0o000, 0o111, 0o111, 0o000, 0o111, 0o000, 0o000, 0o000,
  0o000, 0o000, 0o000, 0o000, 0o000, 0o000, 0o000, 0o000, 0o000, 0o333, 0o333, 0o222, 0o333, 0o222, 0o222, 0o222,
  0o000, 0o333, 0o333, 0o222, 0o333, 0o222, 0o222, 0o222, 0o000, 0o111, 0o111, 0o000, 0o111, 0o000, 0o000, 0o000,
  0o000, 0o333, 0o333, 0o222, 0o333, 0o222, 0o222, 0o222, 0o000, 0o111, 0o111, 0o000, 0o111, 0o000, 0o000, 0o000,
  0o000, 0o111, 0o111, 0o000, 0o111, 0o000, 0o000, 0o000, 0o000, 0o111, 0o111, 0o000, 0o111, 0o000, 0o000, 0o000,
  0o000, 0o000, 0o000, 0o000, 0o000, 0o000, 0o000, 0o000, 0o000, 0o333, 0o333, 0o222, 0o333, 0o222, 0o222, 0o222,
  0o000, 0o333, 0o333, 0o222, 0o333, 0o222, 0o222, 0o222, 0o000, 0o111, 0o111, 0o000, 0o111, 0o000, 0o000, 0o000,
  0o000, 0o333, 0o333, 0o222, 0o333, 0o222, 0o222, 0o222, 0o000, 0o111, 0o111, 0o000, 0o111, 0o000, 0o000, 0o000,
  0o000, 0o111, 0o111, 0o000, 0o111, 0o000, 0o000, 0o000, 0o000, 0o111, 0o111, 0o000, 0o111, 0o000, 0o000, 0o000]

def ROW_MASK : List Nat := [
  0o000000000, 0o000000777, 0o000777000, 0o000777777, 0o777000000, 0o777000777, 0o777777000, 0o777777777]

def SHRINK_MASK : List Nat := [
  0, 1, 1, 1, 1, 1, 1, 1, 2, 3, 3, 3, 3, 3, 3, 3, 2, 3, 3, 3, 3, 3, 3, 3, 2, 3, 3, 3, 3, 3, 3, 3,
  2, 3, 3, 3, 3, 3, 3, 3, 2, 3, 3, 3, 3, 3, 3, 3, 2, 3, 3, 3, 3, 3, 3, 3, 2, 3, 3, 3, 3, 3, 3, 3,
  4, 5, 5, 5, 5, 5, 5, 5, 6, 7, 7, 7, 7, 7, 7, 7, 6, 7, 7, 7, 7, 7, 7, 7, 6, 7, 7, 7, 7, 7, 7, 7,
  6, 7, 7, 7, 7, 7, 7, 7, 6, 7, 7, 7, 7, 7, 7, 7, 6, 7, 7, 7, 7, 7, 7, 7, 6, 7, 7, 7, 7, 7, 7, 7,
  4, 5, 5, 5, 5, 5, 5, 5, 6, 7, 7, 7, 7, 7, 7, 7, 6, 7, 7, 7, 7, 7, 7, 7, 6, 7, 7, 7, 7, 7, 7, 7,
  6, 7, 7, 7, 7, 7, 7, 7, 6, 7, 7, 7, 7, 7, 7, 7, 6, 7, 7, 7, 7, 7, 7, 7, 6, 7, 7, 7, 7, 7, 7, 7,
  4, 5, 5, 5, 5, 5, 5, 5, 6, 7, 7, 7, 7, 7, 7, 7, 6, 7, 7, 7, 7, 7, 7, 7, 6, 7, 7, 7, 7, 7, 7, 7,
  6, 7, 7, 7, 7, 7, 7, 7, 6, 7, 7, 7, 7, 7, 7, 7, 6, 7, 7, 7, 7, 7, 7, 7, 6, 7, 7, 7, 7, 7, 7, 7,
  4, 5, 5, 5, 5, 5, 5, 5, 6, 7, 7, 7, 7, 7, 7, 7, 6, 7, 7, 7, 7, 7, 7, 7, 6, 7, 7, 7, 7, 7, 7, 7,
  6, 7, 7, 7, 7, 7, 7, 7, 6, 7, 7, 7, 7, 7, 7, 7, 6, 7, 7, 7, 7, 7, 7, 7, 6, 7, 7, 7, 7, 7, 7, 7,
  4, 5, 5, 5, 5, 5, 5, 5, 6, 7, 7, 7, 7, 7, 7, 7, 6, 7, 7, 7, 7, 7, 7, 7, 6, 7, 7, 7, 7, 7, 7, 7,
  6, 7, 7, 7, 7, 7, 7, 7, 6, 7, 7, 7, 7, 7, 7, 7, 6, 7, 7, 7, 7, 7, 7, 7, 6, 7, 7, 7, 7, 7, 7, 7,
  4, 5, 5, 5, 5, 5, 5, 5, 6, 7, 7, 7, 7, 7, 7, 7, 6, 7, 7, 7, 7, 7, 7, 7, 6, 7, 7, 7, 7, 7, 7, 7,
  6, 7, 7, 7, 7, 7, 7, 7, 6, 7, 7, 7, 7, 7, 7, 7, 6, 7, 7, 7, 7, 7, 7, 7, 6, 7, 7, 7, 7, 7, 7, 7,
  4, 5, 5, 5, 5, 5, 5, 5, 6, 7, 7, 7, 7, 7, 7, 7, 6, 7, 7, 7, 7, 7, 7, 7, 6, 7, 7, 7, 7, 7, 7, 7,
  6, 7, 7, 7, 7, 7, 7, 7, 6, 7, 7, 7, 7, 7, 7, 7, 6, 7, 7, 7, 7, 7, 7, 7, 6, 7, 7, 7, 7, 7, 7, 7]

def NEIGHBOUR_SUBBANDS : List (Nat × Nat) := [
  (1, 2), (2, 0), (0, 1),
  (4, 5), (5, 3), (3, 4),
  (7, 8), (8, 6), (6, 7),
  (10, 11), (11, 9), (9, 10),
  (13, 14), (14, 12), (12, 13),
  (16, 17), (17, 15), (15, 16),
  (19, 20), (20, 18), (18, 19),
  (22, 23), (23, 21), (21, 22),
  (25, 26), (26, 24), (24, 25)]

/-- Lookup nonconflicting_cells_same_band (src/fast_solver.rs lines 435-449). -/
def nonconflicting_cells_same_band (cell : Nat) : Nat :=
  NONCONFLICTING_SAME_BAND.getD cell 0

/-- Lookup nonconflicting_cells_neighbour_bands (src/fast_solver.rs lines 451-465). -/
def nonconflicting_cells_neighbour_bands (cell : Nat) : Nat :=
  NONCONFLICTING_NEIGHBOUR_BANDS.getD cell 0

/-- Lookup nonconflicting_cells_same_band_by_locked_candidates
(src/fast_solver.rs lines 467-536). -/
def nonconflicting_cells_same_band_by_locked_candidates (shrink : Nat) : Nat :=
  NONCONFLICTING_SAME_BAND_LOCKED.getD shrink 0

/-- Lookup nonconflicting_cells_neighbour_bands_by_locked_candidates
(src/fast_solver.rs lines 538-607). -/
def nonconflicting_cells_neighbour_bands_by_locked_candidates (columns : Nat) : Nat :=
  NONCONFLICTING_NEIGHBOUR_BANDS_LOCKED.getD columns 0

/-- Lookup locked_minirows (src/fast_solver.rs lines 609-646). -/
def locked_minirows (shrink : Nat) : Nat :=
  LOCKED_MINIROWS.getD shrink 0

/-- Lookup column_single (src/fast_solver.rs lines 648-685). -/
def column_single (shrink : Nat) : Nat :=
  COLUMN_SINGLE.getD shrink 0

/-- Lookup neighbour_subbands (src/fast_solver.rs lines 687-701). -/
def neighbour_subbands (subband : Nat) : Nat × Nat :=
  NEIGHBOUR_SUBBANDS.getD subband (0, 0)

/-- Lookup row_mask (src/fast_solver.rs lines 703-710). -/
def row_mask (shrink_bits : Nat) : Nat :=
  ROW_MASK.getD shrink_bits 0

/-- Lookup shrink_mask (src/fast_solver.rs lines 712-733). -/
def shrink_mask (cell_mask : Nat) : Nat :=
  SHRINK_MASK.getD cell_mask 0

/-- The ALL constant: all 27 cells of a band (src/fast_solver.rs line 9). -/
def BAND_ALL : Nat := 0o777777777

/-- The LOW9 constant (src/fast_solver.rs line 10). -/
def LOW9 : Nat := 0o777

/-- The usize::MAX limit used by count_solutions. -/
def USIZE_MAX : Nat := 2 ^ 64 - 1

/-- FastBruteForceSolver (src/fast_solver.rs lines 56-61): 27 possible-cell
masks (one per digit and band), their previous values, and per-band
unsolved and bivalue masks. -/
structure FastBruteForceSolver : Type where
  possible_cells : List Nat
  prev_possible_cells : List Nat
  unsolved_cells : List Nat
  bivalue_cells : List Nat
deriving DecidableEq, Repr

/-- The freshly-initialised solver of from_sudoku (src/fast_solver.rs
lines 78-83). -/
def initFastSolver : FastBruteForceSolver :=
  { possible_cells := List.replicate 27 BAND_ALL
    prev_possible_cells := List.replicate 27 0
    unsolved_cells := List.replicate 3 BAND_ALL
    bivalue_cells := List.replicate 3 0 }

/-- FastBruteForceSolver::insert_value (src/fast_solver.rs lines 405-432):
install an initial clue, checking it against the current possibilities. -/
def insertValue (s : FastBruteForceSolver) (cell value : Nat) :
    Except Unit FastBruteForceSolver :=
  let band := cell / 27
  let subband := (value - 1) * 3 + band
  let cell_mask := 1 <<< (cell % 27)
  if s.possible_cells.getD subband 0 &&& cell_mask == 0 then .error ()
  else
    let unsolved := s.unsolved_cells.set band (s.unsolved_cells.getD band 0 &&& notW 32 cell_mask)
    let pc1 := s.possible_cells.set subband
      (s.possible_cells.getD subband 0 &&& nonconflicting_cells_same_band cell)
    let nn := nonconflicting_cells_neighbour_bands cell
    let nb := neighbour_subbands subband
    let pc2 := pc1.set nb.1 (pc1.getD nb.1 0 &&& nn)
    let pc3 := pc2.set nb.2 (pc2.getD nb.2 0 &&& nn)
    let pc4 := (List.range 9).foldl
      (fun pc d => pc.set (band + 3 * d) (pc.getD (band + 3 * d) 0 &&& notW 32 cell_mask)) pc3
    let pc5 := pc4.set subband (pc4.getD subband 0 ||| cell_mask)
    .ok { s with possible_cells := pc5, unsolved_cells := unsolved }

/-- The per-clue action folded by from_sudoku (src/fast_solver.rs lines
86-90): a non-zero digit is inserted, a zero is skipped. -/
def insertStep (s : FastBruteForceSolver) (p : Nat × Nat) :
    Except Unit FastBruteForceSolver :=
  if p.2 != 0 then insertValue s p.1 p.2 else .ok s

/-- FastBruteForceSolver::from_sudoku (src/fast_solver.rs lines 77-92). -/
def fromSudoku (sudoku : List Nat) : Except Unit FastBruteForceSolver :=
  sudoku.enum.foldlM insertStep initFastSolver

/-- FastBruteForceSolver::insert_value_by_mask (src/fast_solver.rs lines
398-401): clear row and box conflicts within the band; column propagation
is deferred to the locked-candidates pass. -/
def insertValueByMask (s : FastBruteForceSolver) (subband mask : Nat) :
    FastBruteForceSolver :=
  let cell := trailingZeros 32 mask
  { s with possible_cells := (s.possible_cells.set subband
      (s.possible_cells.getD subband 0 &&& nonconflicting_cells_same_band cell)) }

/-- FastBruteForceSolver::is_solved (src/fast_solver.rs lines 114-116). -/
def isSolved (s : FastBruteForceSolver) : Bool :=
  s.unsolved_cells == List.replicate 3 0

/-- The per-band single-insertion loop of find_naked_singles
(src/fast_solver.rs lines 272-287): for each new single, find its digit by
scanning the nine subbands and insert it; a single with no digit left is a
forced empty cell. -/
def insertSingles (band : Nat) :
    List Nat → Bool → FastBruteForceSolver → Except Unit (Bool × FastBruteForceSolver)
  | [], applied, s => .ok (applied, s)
  | cm :: rest, _, s =>
    match (List.range 9).find? (fun d => s.possible_cells.getD (d * 3 + band) 0 &&& cm != 0) with
    | some d => insertSingles band rest true (insertValueByMask s (d * 3 + band) cm)
    | none => .error ()

/-- FastBruteForceSolver::find_naked_singles (src/fast_solver.rs lines
247-291): per band, build the at-least-1, at-least-2 and at-least-3
cumulative masks, detect unsolvability, store bivalue cells and insert the
new naked singles. -/
def findNakedSingles (s : FastBruteForceSolver) :
    Except Unit (Bool × FastBruteForceSolver) :=
  (List.range 3).foldlM
    (fun (acc : Bool × FastBruteForceSolver) band =>
      let s := acc.2
      let c := (List.range 9).foldl
        (fun (a : Nat × Nat × Nat) d =>
          let band_mask := s.possible_cells.getD (band + 3 * d) 0
          (a.1 ||| band_mask, a.2.1 ||| (a.1 &&& band_mask), a.2.2 ||| (a.2.1 &&& band_mask)))
        (0, 0, 0)
      if c.1 != BAND_ALL then .error ()
      else
        let s := { s with bivalue_cells := s.bivalue_cells.set band (c.2.1 ^^^ c.2.2) }
        let singles := (c.1 ^^^ c.2.1) &&& s.unsolved_cells.getD band 0
        insertSingles band (maskIndices 32 singles) acc.1 s)
    (false, s)

/-- FastBruteForceSolver::find_locked_candidates_and_update_subband
(src/fast_solver.rs lines 341-390). -/
def flcSubband (s : FastBruteForceSolver) (subband : Nat) :
    Except Unit FastBruteForceSolver :=
  let old := s.possible_cells.getD subband 0
  let shrink := shrink_mask (old &&& LOW9)
    ||| shrink_mask (old >>> 9 &&& LOW9) <<< 3
    ||| shrink_mask (old >>> 18) <<< 6
  let possible := old &&& nonconflicting_cells_same_band_by_locked_candidates shrink
  if possible == 0 then .error ()
  else
    let s := { s with
      prev_possible_cells := s.prev_possible_cells.set subband possible
      possible_cells := s.possible_cells.set subband possible }
    let possible_columns := (possible ||| possible >>> 9 ||| possible >>> 18) &&& LOW9
    let nn := nonconflicting_cells_neighbour_bands_by_locked_candidates possible_columns
    let nb := neighbour_subbands subband
    let pc1 := s.possible_cells.set nb.1 (s.possible_cells.getD nb.1 0 &&& nn)
    let pc2 := pc1.set nb.2 (pc1.getD nb.2 0 &&& nn)
    let s := { s with possible_cells := pc2 }
    let lci := locked_minirows shrink &&& column_single possible_columns
    let solved_rows := shrink_mask lci
    let solved_cells := row_mask solved_rows &&& possible
    let band := subband % 3
    let nonconflicting := notW 32 solved_cells
    let s := { s with unsolved_cells := (s.unsolved_cells.set band
      (s.unsolved_cells.getD band 0 &&& nonconflicting)) }
    let others := (((List.range 9).map fun d => band + 3 * d).filter (· != subband))
    .ok { s with possible_cells := (others.foldl
      (fun pc o => pc.set o (pc.getD o 0 &&& nonconflicting)) s.possible_cells) }

/-- One pass of the unrolled subband loop of
find_locked_candidates_and_update (src/fast_solver.rs lines 304-333):
update each of the 27 subbands whose possible mask changed; the Bool is
the found_nothing flag. -/
def flcPass (s : FastBruteForceSolver) : Except Unit (Bool × FastBruteForceSolver) :=
  (List.range 27).foldlM
    (fun (acc : Bool × FastBruteForceSolver) i =>
      if acc.2.possible_cells.getD i 0 != acc.2.prev_possible_cells.getD i 0 then
        (flcSubband acc.2 i).map fun s' => (false, s')
      else .ok acc)
    (true, s)

/-- FastBruteForceSolver::find_locked_candidates_and_update
(src/fast_solver.rs lines 299-337): repeat the pass until a full pass
changes nothing.  Fuel bounds the repeats; none means fuel ran out. -/
def findLockedF : Nat → FastBruteForceSolver → Option (Except Unit FastBruteForceSolver)
  | 0, _ => none
  | f + 1, s =>
    match flcPass s with
    | .error e => some (.error e)
    | .ok (true, s') => some (.ok s')
    | .ok (false, s') => findLockedF f s'

/-- The deduction loop of FastBruteForceSolver::solve (src/fast_solver.rs
lines 127-132): locked candidates, then naked singles, until solved or
stuck. -/
def solveLoopF : Nat → FastBruteForceSolver → Option (Except Unit FastBruteForceSolver)
  | 0, _ => none
  | f + 1, s =>
    match findLockedF (f + 1) s with
    | none => none
    | some (.error _) => some (.error ())
    | some (.ok s1) =>
      if isSolved s1 then some (.ok s1)
      else
        match findNakedSingles s1 with
        | .error _ => some (.error ())
        | .ok (true, s2) => solveLoopF f s2
        | .ok (false, s2) => some (.ok s2)

/-- FastBruteForceSolver::solve (src/fast_solver.rs lines 120-133): an
unsolvable marker forces a recursion stop once the solution count has
reached the limit; otherwise run the deduction loop. -/
def solveF (f limit count : Nat) (s : FastBruteForceSolver) :
    Option (Except Unit FastBruteForceSolver) :=
  if count ≥ limit then some (.error ()) else solveLoopF f s

/-- First minimal element of a list of lexicographically ordered triples,
as Rust's Iterator::min computes it. -/
def minTripleFirst : List (Nat × Nat × Nat) → Option (Nat × Nat × Nat)
  | [] => none
  | x :: xs => some (xs.foldl
      (fun acc y =>
        if y.1 < acc.1 ∨ (y.1 = acc.1 ∧ (y.2.1 < acc.2.1 ∨ (y.2.1 = acc.2.1 ∧ y.2.2 < acc.2.2)))
        then y else acc) x)

mutual

/-- FastBruteForceSolver::guess (src/fast_solver.rs lines 136-142): store
a solution when solved, else branch on a bivalue cell or failing that on
some cell with few candidates.  Takes and returns the running solution
count; fuel bounds the recursion depth (none when it runs out). -/
def guessF : Nat → Nat → Nat → FastBruteForceSolver → Option Nat
  | 0, _, _, _ => none
  | f + 1, limit, count, s =>
    if isSolved s then some (count + 1)
    else
      match guessBivalueF f limit count s with
      | none => none
      | some (.error c) => some c
      | some (.ok c) => guessSomeCellF f limit c s

/-- FastBruteForceSolver::guess_bivalue (src/fast_solver.rs lines
146-177).  In the result, error carries the solution count when the
current state was consumed by the second branch (the Rust Err return); ok
carries the count when no band had a bivalue cell. -/
def guessBivalueF : Nat → Nat → Nat → FastBruteForceSolver → Option (Except Nat Nat)
  | 0, _, _, _ => none
  | f + 1, limit, count, s => guessBivalueGoF f limit [0, 1, 2] count s

/-- The band loop of guess_bivalue (src/fast_solver.rs lines 147-174). -/
def guessBivalueGoF : Nat → Nat → List Nat → Nat → FastBruteForceSolver → Option (Except Nat Nat)
  | 0, _, _, _, _ => none
  | f + 1, limit, bands, count, s =>
    match bands with
    | [] => some (.ok count)
    | band :: rest =>
      match (maskIndices 32 (s.bivalue_cells.getD band 0)).head? with
      | none => guessBivalueGoF f limit rest count s
      | some cm =>
        guessBivalueSubF f limit rest band cm ((List.range 9).map (band + 3 * ·)) true count s

/-- The digit loop of guess_bivalue (src/fast_solver.rs lines 156-173):
the first candidate is explored on a cloned state, the second reuses the
current state and returns the consumed marker.  The Rust iterator over
subbands is unbounded and exits through the second candidate; it is
embedded as the nine subbands of the band, which agrees whenever the
bivalue mask is accurate. -/
def guessBivalueSubF : Nat → Nat → List Nat → Nat → Nat → List Nat → Bool → Nat →
    FastBruteForceSolver → Option (Except Nat Nat)
  | 0, _, _, _, _, _, _, _, _ => none
  | f + 1, limit, rest, band, cm, sbs, first, count, s =>
    match sbs with
    | [] => guessBivalueGoF f limit rest count s
    | sb :: sbs' =>
      if s.possible_cells.getD sb 0 &&& cm != 0 then
        if first then
          let branch := insertValueByMask s sb cm
          match solveF f limit count branch with
          | none => none
          | some (.error _) => guessBivalueSubF f limit rest band cm sbs' false count s
          | some (.ok branch') =>
            match guessF f limit count branch' with
            | none => none
            | some count' => guessBivalueSubF f limit rest band cm sbs' false count' s
        else
          let s' := insertValueByMask s sb cm
          match solveF f limit count s' with
          | none => none
          | some (.error _) => some (.error count)
          | some (.ok s'') =>
            match guessF f limit count s'' with
            | none => none
            | some count' => some (.error count')
      else guessBivalueSubF f limit rest band cm sbs' first count s

/-- FastBruteForceSolver::guess_some_cell (src/fast_solver.rs lines
186-220): take the first unsolved cell of each band, count its candidates,
branch on the minimum. -/
def guessSomeCellF : Nat → Nat → Nat → FastBruteForceSolver → Option Nat
  | 0, _, _, _ => none
  | f + 1, limit, count, s =>
    let cands := (List.range 3).filterMap fun band =>
      ((maskIndices 32 (s.unsolved_cells.getD band 0)).head?).map fun one =>
        ((((List.range 9).map (band + 3 * ·)).filter
          fun sb => s.possible_cells.getD sb 0 &&& one != 0).length, band, one)
    match minTripleFirst cands with
    | none => some count
    | some (n, band, one) =>
      guessSomeCellSubF f limit n one ((List.range 9).map (band + 3 * ·)) 0 count s

/-- The digit loop of guess_some_cell (src/fast_solver.rs lines 201-219):
all but the last candidate are explored on cloned states; the last reuses
the current state and returns. -/
def guessSomeCellSubF : Nat → Nat → Nat → Nat → List Nat → Nat → Nat →
    FastBruteForceSolver → Option Nat
  | 0, _, _, _, _, _, _, _ => none
  | f + 1, limit, n, one, sbs, checked, count, s =>
    match sbs with
    | [] => some count
    | sb :: sbs' =>
      if s.possible_cells.getD sb 0 &&& one != 0 then
        if checked < n - 1 then
          let branch := insertValueByMask s sb one
          match solveF f limit count branch with
          | none => none
          | some (.error _) => guessSomeCellSubF f limit n one sbs' (checked + 1) count s
          | some (.ok branch') =>
            match guessF f limit count branch' with
            | none => none
            | some count' => guessSomeCellSubF f limit n one sbs' (checked + 1) count' s
        else
          let s' := insertValueByMask s sb one
          match solveF f limit count s' with
          | none => none
          | some (.error _) => some count
          | some (.ok s'') => guessF f limit count s''
      else guessSomeCellSubF f limit n one sbs' checked count s

end

/-- FastBruteForceSolver::solutions_up_to together with
count_solutions_up_to in counting mode (src/fast_solver.rs lines 100-112):
the resulting solution count, none when fuel ran out. -/
def countSolutionsUpToF (f limit : Nat) (s : FastBruteForceSolver) : Option Nat :=
  match findNakedSingles s with
  | .error _ => some 0
  | .ok p =>
    match solveF f limit 0 p.2 with
    | none => none
    | some (.error _) => some 0
    | some (.ok s2) => guessF f limit 0 s2

/-- FastBruteForceSolver::has_solution (src/fast_solver.rs lines 65-67). -/
def hasSolutionF (f : Nat) (sudoku : List Nat) : Option Bool :=
  match fromSudoku sudoku with
  | .error _ => some false
  | .ok s => (countSolutionsUpToF f 1 s).map (· == 1)

/-- FastBruteForceSolver::has_unique_solution (src/fast_solver.rs lines 69-71). -/
def hasUniqueSolutionF (f : Nat) (sudoku : List Nat) : Option Bool :=
  match fromSudoku sudoku with
  | .error _ => some false
  | .ok s => (countSolutionsUpToF f 2 s).map (· == 1)

/-- FastBruteForceSolver::count_solutions (src/fast_solver.rs lines 73-75). -/
def countSolutionsF (f : Nat) (sudoku : List Nat) : Option Nat :=
  match fromSudoku sudoku with
  | .error _ => some 0
  | .ok s => countSolutionsUpToF f USIZE_MAX s

/-! ### Standalone template generator (src/generator.rs)

This generator drives its own depth-first placement search and consults
FastBruteForceSolver::has_solution before deepening and before emitting.
Its imports ALL_DIGITS, ROW_INDICES, COL_INDICES and BOX_INDICES from
crate::sudoku are absent from the provided src/sudoku.rs; per the spec
(section 3) they are the same region tables defined above. -/

/-- Generator (src/generator.rs lines 8-19).  The placements stack holds,
per level, the branching cell and the remaining digit mask of its BitIter;
the top of each Rust Vec is the head of the list here. -/
structure Generator : Type where
  puzzle : List Nat
  wildcards : List (Nat × Nat)
  placements : List (Nat × Nat)
  used_placements : List Bool
  placement_count : Nat
  progress : ℚ
  progress_increments : List ℚ
  rows : List Nat
  cols : List Nat
  boxes : List Nat
deriving DecidableEq, Repr

/-- Generator::for_template (src/generator.rs lines 22-48). -/
def Generator.for_template (t : Template) : Generator :=
  let base : Generator :=
    { puzzle := List.replicate 81 0
      wildcards := []
      placements := []
      used_placements := List.replicate 81 false
      placement_count := 0
      progress := 0
      progress_increments := []
      rows := List.replicate 9 ALL_DIGITS
      cols := List.replicate 9 ALL_DIGITS
      boxes := List.replicate 9 ALL_DIGITS }
  t.val.enum.foldl
    (fun g p =>
      match p.2 with
      | .Empty => g
      | .Given d =>
        { g with puzzle := g.puzzle.set p.1 d
                 rows := (g.rows.set (ROW_INDICES.getD p.1 0)
                   (g.rows.getD (ROW_INDICES.getD p.1 0) 0 ^^^ (1 <<< d)))
                 cols := (g.cols.set (COL_INDICES.getD p.1 0)
                   (g.cols.getD (COL_INDICES.getD p.1 0) 0 ^^^ (1 <<< d)))
                 boxes := (g.boxes.set (BOX_INDICES.getD p.1 0)
                   (g.boxes.getD (BOX_INDICES.getD p.1 0) 0 ^^^ (1 <<< d))) }
      | .Wildcard ds =>
        { g with wildcards := g.wildcards ++ [(p.1, (ds.map (1 <<< ·)).foldl (· ||| ·) 0)] })
    base

/-- Generator::place (src/generator.rs lines 60-67). -/
def genPlace (g : Generator) (idx d : Nat) : Generator :=
  { g with puzzle := g.puzzle.set idx d
           rows := (g.rows.set (ROW_INDICES.getD idx 0)
             (g.rows.getD (ROW_INDICES.getD idx 0) 0 ^^^ (1 <<< d)))
           cols := (g.cols.set (COL_INDICES.getD idx 0)
             (g.cols.getD (COL_INDICES.getD idx 0) 0 ^^^ (1 <<< d)))
           boxes := (g.boxes.set (BOX_INDICES.getD idx 0)
             (g.boxes.getD (BOX_INDICES.getD idx 0) 0 ^^^ (1 <<< d)))
           used_placements := g.used_placements.set idx true
           placement_count := g.placement_count + 1 }

/-- Generator::unplace (src/generator.rs lines 70-80). -/
def genUnplace (g : Generator) (idx : Nat) : Generator :=
  let d := g.puzzle.getD idx 0
  if d != 0 then
    { g with rows := (g.rows.set (ROW_INDICES.getD idx 0)
               (g.rows.getD (ROW_INDICES.getD idx 0) 0 ^^^ (1 <<< d)))
             cols := (g.cols.set (COL_INDICES.getD idx 0)
               (g.cols.getD (COL_INDICES.getD idx 0) 0 ^^^ (1 <<< d)))
             boxes := (g.boxes.set (BOX_INDICES.getD idx 0)
               (g.boxes.getD (BOX_INDICES.getD idx 0) 0 ^^^ (1 <<< d)))
             puzzle := g.puzzle.set idx 0
             used_placements := g.used_placements.set idx false
             placement_count := g.placement_count - 1 }
  else g

/-- Generator::best_branch_digit (src/generator.rs lines 51-57): among
wildcards not yet used, the cell with the fewest live candidates (the Rust
unwrap of the empty case is modelled by a default). -/
def genBestBranchDigit (g : Generator) : Nat × Nat :=
  (minByKeyFirst (fun (p : Nat × Nat) => countOnes 16 p.2)
    ((g.wildcards.filter fun p => !(g.used_placements.getD p.1 false)).map
      fun p => (p.1, p.2 &&& g.rows.getD (ROW_INDICES.getD p.1 0) 0
        &&& g.cols.getD (COL_INDICES.getD p.1 0) 0
        &&& g.boxes.getD (BOX_INDICES.getD p.1 0) 0))).getD (0, 0)

/-- The pop loop of Generator::step (src/generator.rs lines 87-95): pop
every fully-explored placement, unplacing its digit; the Bool is false
when popping emptied the stack, ending the search. -/
def genPopGo : List (Nat × Nat) → List ℚ → Generator → Generator × Bool
  | [], incs, g => ({ g with placements := [], progress_increments := incs }, true)
  | (idx, mask) :: rest, incs, g =>
    if mask == 0 then
      let g' := genUnplace g idx
      if rest.isEmpty then ({ g' with placements := [], progress_increments := incs.tail }, false)
      else genPopGo rest incs.tail g'
    else ({ g with placements := (idx, mask) :: rest, progress_increments := incs }, true)

/-- The advance phase of Generator::step (src/generator.rs lines 98-102):
take the next digit from the deepest placement's BitIter, replace the
previous digit at that cell, and on completing all wildcards add the
current progress increment. -/
def genAdvance (g : Generator) : Generator :=
  match g.placements with
  | [] => g
  | (idx, mask) :: rest =>
    if mask == 0 then g
    else
      let bit := trailingZeros 16 mask
      let g := { g with placements := (idx, mask &&& (mask - 1)) :: rest }
      let g := genPlace (genUnplace g idx) idx bit
      if g.placement_count == g.wildcards.length then
        { g with progress := g.progress + g.progress_increments.headD 0 }
      else g

/-- Generator::step (src/generator.rs lines 83-115): pop, advance, then
deepen with the best branching cell, but only if the current partial
puzzle still has a brute-force solution; otherwise accumulate the pruned
subtree's progress.  The solver fuel f feeds has_solution; none means that
fuel ran out. -/
def genStep (f : Nat) (g : Generator) : Option (Bool × Generator) :=
  match genPopGo g.placements g.progress_increments g with
  | (g1, false) => some (false, g1)
  | (g1, true) =>
    let g2 := genAdvance g1
    if g2.placements.length < g2.wildcards.length then
      match hasSolutionF f g2.puzzle with
      | none => none
      | some true =>
        let bb := genBestBranchDigit g2
        let inc := g2.progress_increments.headD 1 / (countOnes 16 bb.2 : ℚ)
        some (true, { g2 with placements := bb :: g2.placements
                              progress_increments := inc :: g2.progress_increments })
      | some false =>
        some (true, { g2 with progress := g2.progress + g2.progress_increments.headD 0 })
    else some (true, g2)

/-- Iterator::next for Generator (src/generator.rs lines 118-129): loop
step, emitting the puzzle whenever every wildcard is placed and the
brute-force solver confirms it has a solution. -/
def genNext (f : Nat) : Nat → Generator → Option (Option (ℚ × ℚ × List Nat) × Generator)
  | 0, _ => none
  | fuel + 1, g =>
    match genStep f g with
    | none => none
    | some (false, g') => some (none, g')
    | some (true, g') =>
      if g'.placement_count == g'.wildcards.length then
        match hasSolutionF f g'.puzzle with
        | none => none
        | some true =>
          some (some (g'.progress, g'.progress_increments.headD 1, g'.puzzle), g')
        | some false => genNext f fuel g'
      else genNext f fuel g'

/-! ### Well-formedness predicates used by the verification -/

/-- Well-formedness of a region-masked grid: list shapes as allocated by
RegionMaskedSudoku::empty, and region masks that are 16-bit values with
bit zero clear (digit masks use bits 1 to 9). -/
def GridWF (g : RegionMaskedSudoku) : Prop :=
  g.sudoku.length = 81 ∧ g.rows.length = 9 ∧ g.cols.length = 9 ∧ g.boxes.length = 9 ∧
  (∀ m ∈ g.rows, m < 2 ^ 16 ∧ m % 2 = 0) ∧
  (∀ m ∈ g.cols, m < 2 ^ 16 ∧ m % 2 = 0) ∧
  (∀ m ∈ g.boxes, m < 2 ^ 16 ∧ m % 2 = 0)

/-- The bitmask of clue cells of a grid, as built by
PlusNSearchState::for_sudoku_and_symmetry. -/
def clueMask (g : RegionMaskedSudoku) : Nat :=
  maskFromIndices ((List.range 81).filter fun idx => !(g.is_empty idx))

/-- The number of filled cells of a grid outside a given clue mask. -/
def numNewClues (C : Nat) (g : RegionMaskedSudoku) : Nat :=
  (List.range 81).countP fun i => decide (g.sudoku.getD i 0 ≠ 0) && !(C.testBit i)

/-- One when a placement is pending, zero otherwise. -/
def pendCount (s : PlusNSearchState) : Nat :=
  match s.pending_placement with
  | some _ => 1
  | none => 0

/-- The search invariant of the PlusN expansion, relative to the symmetry
subgroup G, the input grid's clue mask C and the requested clue count n:
the orbit table belongs to G, the grid is well-formed, the bookkeeping
masks are 81-bit values, required cells are empty non-placed cells that
have an orbit-mate anchor outside the required set, the pending cell is an
empty anchored cell, placed cells are minimal in their orbits, every
filled cell is anchored to a clue or placed cell, every clue cell is
filled, the orbit of each placed cell is covered by filled, required and
pending cells, and the clue count balances placements_remaining. -/
def PlusNInv (G : DihedralSubgroup) (C n : Nat) (s : PlusNSearchState) : Prop :=
  s.orbits = orbitMasks G ∧
  GridWF s.sudoku ∧
  s.placed_cells < 2 ^ 81 ∧
  s.required_cells < 2 ^ 81 ∧
  (∀ c, s.allowed_cells.testBit c = true → c < 81 ∧
    (∀ q, (orbitMask G c).testBit q = true → c ≤ q) ∧
    (∀ j, C.testBit j = true → (orbitMask G j).testBit c = false)) ∧
  (∀ i, s.required_cells.testBit i = true → s.placed_cells.testBit i = false) ∧
  (∀ i, s.required_cells.testBit i = true → ∃ r, (orbitMask G i).testBit r = true ∧
    s.required_cells.testBit r = false ∧
    (C.testBit r = true ∨ s.placed_cells.testBit r = true)) ∧
  (∀ i, s.required_cells.testBit i = true → s.sudoku.sudoku.getD i 0 = 0) ∧
  (∀ idx, s.pending_placement = some idx → idx < 81 ∧ s.sudoku.sudoku.getD idx 0 = 0 ∧
    s.required_cells.testBit idx = false ∧
    ∃ p, (C.testBit p = true ∨ s.placed_cells.testBit p = true) ∧
      (orbitMask G p).testBit idx = true) ∧
  (∀ p, s.placed_cells.testBit p = true →
    ∀ q, (orbitMask G p).testBit q = true → p ≤ q) ∧
  (∀ i, i < 81 → s.sudoku.sudoku.getD i 0 ≠ 0 → ∃ p,
    (C.testBit p = true ∨ s.placed_cells.testBit p = true) ∧
    (orbitMask G p).testBit i = true) ∧
  (∀ i, C.testBit i = true → i < 81 ∧ s.sudoku.sudoku.getD i 0 ≠ 0) ∧
  (∀ p, s.placed_cells.testBit p = true →
    ∀ j, (orbitMask G p).testBit j = true →
      (s.sudoku.sudoku.getD j 0 ≠ 0 ∨ s.required_cells.testBit j = true ∨
        s.pending_placement = some j)) ∧
  (numNewClues C s.sudoku + pendCount s + s.placements_remaining = n)

/-- The orbits of the input grid's clue cells stay covered by filled,
required and pending cells throughout the PlusN search. -/
def ClueOrbitCovered (G : DihedralSubgroup) (C : Nat) (s : PlusNSearchState) : Prop :=
  ∀ p, C.testBit p = true → ∀ j, (orbitMask G p).testBit j = true →
    s.sudoku.sudoku.getD j 0 ≠ 0 ∨ s.required_cells.testBit j = true ∨
      s.pending_placement = some j


/-- A fully solved grid as claimed for the fast solver round-trip: 81
digits 1 to 9 with distinct digits at peer cells (all row, column and box
constraints hold). -/
def SolvedGrid (S : List Nat) : Prop :=
  S.length = 81 ∧ (∀ i, i < 81 → 1 ≤ S.getD i 0 ∧ S.getD i 0 ≤ 9) ∧
  (∀ i j, i < 81 → j < 81 → isPeer i j = true → S.getD i 0 ≠ S.getD j 0)

/-- The 27-bit mask of the cells of a band that hold a given digit
(digit index d stands for the digit d + 1). -/
def digitMask (S : List Nat) (d b : Nat) : Nat :=
  maskFromIndices ((List.range 27).filter fun x => S.getD (27 * b + x) 0 == d + 1)

/-- The solver state that from_sudoku reaches on a fully solved grid:
each digit-band possible mask holds exactly the digit's cells of the
band, and no cell is unsolved. -/
def solvedSolver (S : List Nat) : FastBruteForceSolver :=
  { possible_cells := (List.range 27).map fun sb => digitMask S (sb / 3) (sb % 3)
    prev_possible_cells := List.replicate 27 0
    unsolved_cells := List.replicate 3 0
    bivalue_cells := List.replicate 3 0 }

/-! ### Concrete instances used by the claims -/

/-- The template of 81 Empty directives (the all-empty template). -/
def emptyTemplate : Template := ⟨List.replicate 81 .Empty, by simp⟩

/-- A template whose first cell is the given digit 1 and whose other 80
cells are empty. -/
def given1Template : Template := ⟨.Given 1 :: List.replicate 80 .Empty, by simp⟩

/-- A fully solved grid (the cyclic pattern grid). -/
def cyclicSolvedGrid : List Nat :=
  [1, 2, 3, 4, 5, 6, 7, 8, 9,
   4, 5, 6, 7, 8, 9, 1, 2, 3,
   7, 8, 9, 1, 2, 3, 4, 5, 6,
   2, 3, 4, 5, 6, 7, 8, 9, 1,
   5, 6, 7, 8, 9, 1, 2, 3, 4,
   8, 9, 1, 2, 3, 4, 5, 6, 7,
   3, 4, 5, 6, 7, 8, 9, 1, 2,
   6, 7, 8, 9, 1, 2, 3, 4, 5,
   9, 1, 2, 3, 4, 5, 6, 7, 8]


/-- The template of 81 given digits spelling the cyclic solved grid. -/
def cyclicTemplate : Template := ⟨cyclicSolvedGrid.map (.Given ·), by rfl⟩

/-- A grid whose first two cells, peers in row 0, both hold the digit 5. -/
def conflictGrid : List Nat := ((List.replicate 81 0).set 0 5).set 1 5

/-- A contradictory sukaku: cell 0 has candidates 1 and 2, cell 1 has the
single candidate 2, cell 2 has no candidates, all other cells are free. -/
def contradictorySukaku : List Nat :=
  (1 <<< 1 ||| 1 <<< 2) :: (1 <<< 2) :: 0 :: List.replicate 78 ALL_DIGITS

/-- The sukaku of singletons of the cyclic solved grid. -/
def solvedSukaku : List Nat := cyclicSolvedGrid.map (1 <<< ·)

/-- The stable solver state for the solved sukaku: everything placed and no
digit missing from any region. -/
def solvedFixpoint : BasicSolver :=
  { sukaku := solvedSukaku
    placed := List.replicate 81 true
    placed_count := 81
    missing_from_rows := List.replicate 9 0
    missing_from_cols := List.replicate 9 0
    missing_from_boxes := List.replicate 9 0 }

/-- Iterate the searcher's internal step n times or until it reports the
search over; the Bool records whether all n steps were still alive.  This
is the sequence of step calls that any series of next() calls performs. -/
def dfsRun {σ α ω : Type} (T : DepthFirstTraversable σ α ω) :
    Nat → DfsSearcher σ α → DfsSearcher σ α × Bool
  | 0, s => (s, true)
  | n + 1, s =>
    match dfsStep T s with
    | (true, s') => dfsRun T n s'
    | (false, s') => (s', false)

/-- The total weight still to be consumed on the level stack: for each
level, its increment times its remaining step count. -/
def levelsWeight {α : Type} : List (DfsLevel α) → ℚ
  | [] => 0
  | (steps, _, w) :: rest => w * steps.length + levelsWeight rest

/-- The searcher's arithmetic invariant: a nonempty level stack whose
increments are nonnegative and whose outstanding weight, added to the
progress already banked, accounts for the whole unit of search. -/
def DfsInv {σ α : Type} (s : DfsSearcher σ α) : Prop :=
  s.levels ≠ [] ∧ (∀ l ∈ s.levels, 0 ≤ l.2.2) ∧ s.progress + levelsWeight s.levels = 1

/-- The searcher state after the very first step from a fresh searcher
whose root is not pruned and has steps: the root's steps pushed as the
single level, with increment one over their count. -/
def dfsRootSearcher {σ α ω : Type} (T : DepthFirstTraversable σ α ω) (root : σ) :
    DfsSearcher σ α :=
  { state := root
    levels := [(T.next_steps root, none, 1 / ((T.next_steps root).length : ℚ))]
    progress := 0 }

/-- The states a depth-first traversal can reach from a root: the root
itself, and any state obtained by applying one of the next steps of a
reachable state on which the searcher does not prune (the searcher asks
for next steps, and later applies them, only at un-pruned states). -/
inductive TravReachable {σ α ω : Type} (T : DepthFirstTraversable σ α ω) (root : σ) : σ → Prop where
  | base : TravReachable T root root
  | step {s : σ} {a : α} : TravReachable T root s → T.should_prune s = false →
      a ∈ T.next_steps s → TravReachable T root (T.apply_step s a)

/-!
## Theorems

Helper lemmas first, then for each claim of the specification its
counterexample, amended statement or direct proof, and witnesses.
-/

section Helpers

/-- Setting an index back to the value it already holds is the identity. -/
theorem list_set_getD_self {l : List Nat} {i v : Nat} (h : l.getD i 0 = v) :
    l.set i v = l := by
  subst h
  apply List.ext_getElem (by simp)
  intro n h1 h2
  rcases eq_or_ne n i with rfl | hne
  · simp [List.getElem_set, List.getD_eq_getElem?_getD, List.getElem?_eq_getElem h2]
  · simp [List.getElem_set, Ne.symm hne]

/-- Two consecutive sets at the same index collapse to the second. -/
theorem list_set_set (l : List Nat) (i a b : Nat) :
    (l.set i a).set i b = l.set i b := List.set_set a b l i

/-- One plus w ones shifted is two to the w. -/
theorem lowBits_eq (w : Nat) : lowBits w = 2 ^ w - 1 := by
  simp [lowBits, Nat.shiftLeft_eq]

/-- Bit i of the all-ones mask of width w. -/
theorem testBit_lowBits (w i : Nat) : (lowBits w).testBit i = decide (i < w) := by
  simp [lowBits_eq, Nat.testBit_two_pow_sub_one]

/-- Bit i of the width-w complement. -/
theorem testBit_notW (w x i : Nat) :
    (notW w x).testBit i = (decide (i < w)).xor (x.testBit i) := by
  simp [notW, Nat.testBit_xor, testBit_lowBits]

/-- Bit j of a single-bit mask. -/
theorem testBit_shiftLeft_one (d j : Nat) : (1 <<< d).testBit j = decide (j = d) := by
  have h1 : (1 : Nat) <<< d = 2 ^ d := by simp [Nat.shiftLeft_eq]
  rw [h1, Nat.testBit_two_pow]
  simp [eq_comm]

/-- Membership in the bit-index list: only indices below the width with
their bit set occur. -/
theorem mem_bitIndicesAux {w x pos i : Nat} (h : i ∈ bitIndicesAux w x pos) :
    ∃ j, i = pos + j ∧ j < w ∧ x.testBit j = true := by
  induction w generalizing x pos i with
  | zero => simp [bitIndicesAux] at h
  | succ w ih =>
    unfold bitIndicesAux at h
    by_cases hx : x = 0
    · simp [hx] at h
    · simp only [if_neg hx] at h
      by_cases hb : x % 2 == 1
      · simp only [if_pos hb, List.mem_cons] at h
        rcases h with rfl | h
        · refine ⟨0, by simp, Nat.succ_pos w, ?_⟩
          have hx1 : x % 2 = 1 := by simpa using hb
          simp [Nat.testBit_zero, hx1]
        · obtain ⟨j, rfl, hj, hbit⟩ := ih h
          exact ⟨j + 1, by omega, by omega, by simpa [Nat.testBit_succ] using hbit⟩
      · simp only [if_neg hb] at h
        obtain ⟨j, rfl, hj, hbit⟩ := ih h
        exact ⟨j + 1, by omega, by omega, by simpa [Nat.testBit_succ] using hbit⟩

/-- A member of bitIndices is a set bit below the width. -/
theorem mem_bitIndices {w x i : Nat} (h : i ∈ bitIndices w x) :
    i < w ∧ x.testBit i = true := by
  obtain ⟨j, rfl, hj, hbit⟩ := @mem_bitIndicesAux w x 0 i h
  simpa using ⟨hj, hbit⟩

/-- Clearing then re-setting a bit that was set restores the mask, for
masks within the width. -/
theorem maskSet_maskUnset {w m d : Nat} (hm : m < 2 ^ w) (hd : d < w)
    (hbit : m.testBit d = true) : maskSet (maskUnset w m d) d = m := by
  apply Nat.eq_of_testBit_eq
  intro i
  simp only [maskSet, maskUnset, Nat.testBit_or, Nat.testBit_and, testBit_notW,
    testBit_shiftLeft_one]
  rcases eq_or_ne i d with rfl | hne
  · simp [hbit]
  · by_cases hiw : i < w
    · simp [hiw, hne]
    · have hfalse : m.testBit i = false :=
        Nat.testBit_lt_two_pow (lt_of_lt_of_le hm (Nat.pow_le_pow_right (by norm_num) (by omega)))
      simp [hiw, hne, hfalse]

/-- Setting then clearing a bit that was clear restores the mask, for
masks within the width. -/
theorem maskUnset_maskSet {w m d : Nat} (hm : m < 2 ^ w) (hd : d < w)
    (hbit : m.testBit d = false) : maskUnset w (maskSet m d) d = m := by
  apply Nat.eq_of_testBit_eq
  intro i
  simp only [maskSet, maskUnset, Nat.testBit_or, Nat.testBit_and, testBit_notW,
    testBit_shiftLeft_one]
  rcases eq_or_ne i d with rfl | hne
  · simp [hbit, hd]
  · by_cases hiw : i < w
    · simp [hiw, hne]
    · have hfalse : m.testBit i = false :=
        Nat.testBit_lt_two_pow (lt_of_lt_of_le hm (Nat.pow_le_pow_right (by norm_num) (by omega)))
      simp [hiw, hne, hfalse]

end Helpers

section TemplateClaims

/-- Claim C8, counterexample: inserting a whitespace character between
cell directives does not preserve the parsed template; the 81-dot string
parses to a template while the same string with one interior space
inserted yields 82 directives and the conversion fails. -/
theorem c8_counterexample :
    templateFromStr (List.replicate 81 '.') ≠
      templateFromStr ('.' :: ' ' :: List.replicate 80 '.') := by
  decide

/-- Claim C8 (amended): the template parser reads cells left to right, but
whitespace is not ignored: at a directive boundary a whitespace character
produces an Empty cell directive, so inserting whitespace between cell
directives inserts Empty cells and changes the parsed template. -/
theorem c8_whitespace_empty_cell (c : Char) (rest : List Char)
    (h : c = ' ' ∨ c = '\t' ∨ c = '\n' ∨ c = '\r') :
    templateDigits (c :: rest) = .Empty :: templateDigits rest := by
  rcases h with rfl | rfl | rfl | rfl <;> rfl

/-- Witness for c8_whitespace_empty_cell at the space character. -/
theorem c8_whitespace_empty_cell_witness :
    templateDigits (' ' :: "12".data) = .Empty :: templateDigits "12".data :=
  c8_whitespace_empty_cell ' ' "12".data (Or.inl rfl)

/-- Claim C10: Template::from_str produces a template exactly when the
input yields exactly 81 cell directives; with fewer or more directives the
conversion to the 81-element array fails (the Rust unwrap panics, the
embedding returns none), and on success the template holds exactly the
parsed directives. -/
theorem c10_from_str_iff_81 (s : List Char) :
    ((templateFromStr s).isSome = true ↔ (templateDigits s).length = 81) ∧
    (∀ t : Template, templateFromStr s = some t → t.val = templateDigits s) := by
  constructor
  · unfold templateFromStr
    split <;> simp_all
  · intro t ht
    unfold templateFromStr at ht
    split at ht
    · cases ht; rfl
    · cases ht

/-- Witness for c10_from_str_iff_81 at the 81-dot string, whose parse is
the all-empty template. -/
theorem c10_from_str_iff_81_witness :
    (templateFromStr (List.replicate 81 '.')).isSome = true ∧
      emptyTemplate.val = templateDigits (List.replicate 81 '.') :=
  ⟨(c10_from_str_iff_81 (List.replicate 81 '.')).1.mpr (by decide),
   (c10_from_str_iff_81 (List.replicate 81 '.')).2 emptyTemplate (by decide)⟩

end TemplateClaims

section DfsClaims

/-- Claim C3: the template generator for the all-empty template does not
stop after its single grid; its second call to next again emits the
all-zero grid instead of yielding None, and the progress accumulator
passes 1 and reaches 2.  With no wildcards the searcher's level stack
stays empty, so its step function never reaches the only return of false,
which sits inside the stack-popping loop. -/
theorem c3_empty_template_never_terminates :
    ((dfsNext templateGenTrav 3
        (dfsNew (TemplateGeneratorState.for_template emptyTemplate))).bind
      fun r => (dfsNext templateGenTrav 3 r.2).map
        fun r2 => (r.1.map fun e => e.2.2, r2.1.map fun e => e.2.2, r2.2.progress)) =
    some (some RegionMaskedSudoku.empty, some RegionMaskedSudoku.empty, 2) := by
  with_unfolding_all rfl

/-- Claim C4, counterexample: for the traversable built from the all-empty
template, after two calls to next the searcher's progress is not at
most 1 (it reaches 2), refuting the claim for every traversable state. -/
theorem c4_counterexample :
    ((dfsNext templateGenTrav 3
        (dfsNew (TemplateGeneratorState.for_template emptyTemplate))).bind
      fun r => dfsNext templateGenTrav 3 r.2).map
        (fun r => decide (r.2.progress ≤ 1)) = some false := by
  with_unfolding_all rfl

/-- The first step from a fresh searcher whose root is not pruned and has
at least one step: push the root's steps with increment one over their
count. -/
theorem dfsStep_new {σ α ω : Type} (T : DepthFirstTraversable σ α ω) (root : σ)
    (hprune : T.should_prune root = false) (hsteps : T.next_steps root ≠ []) :
    dfsStep T (dfsNew (α := α) root) = (true, dfsRootSearcher T root) := by
  have hlen : 0 < (T.next_steps root).length := List.length_pos.mpr hsteps
  simp [dfsStep, dfsNew, dfsPopLoop, dfsAdvance, dfsRootSearcher, hprune, hlen,
    progressIncrement]

/-- The pop loop preserves the outstanding weight and the progress-free
fields it touches; when it reports completion all weight was zero, and
when it does not, a nonempty stack keeps a top level with a step left.
Its resulting levels are levels that were already on the stack. -/
theorem dfsPopLoop_spec {σ α ω : Type} (T : DepthFirstTraversable σ α ω) :
    ∀ (lv : List (DfsLevel α)) (st : σ),
      levelsWeight (dfsPopLoop T st lv).2.1 = levelsWeight lv ∧
      ((dfsPopLoop T st lv).2.2 = true → (dfsPopLoop T st lv).2.1 = [] ∧ levelsWeight lv = 0) ∧
      ((dfsPopLoop T st lv).2.2 = false → lv ≠ [] →
        ∃ a more prev w rest, (dfsPopLoop T st lv).2.1 = (a :: more, prev, w) :: rest) ∧
      (∀ l ∈ (dfsPopLoop T st lv).2.1, l ∈ lv)
  | [], st => by simp [dfsPopLoop]
  | (steps, prev, w) :: rest, st => by
    by_cases hempty : steps.isEmpty
    · have hsteps : steps = [] := List.isEmpty_iff.mp hempty
      subst hsteps
      by_cases hrest : rest.isEmpty
      · have : rest = [] := List.isEmpty_iff.mp hrest
        subst this
        simp [dfsPopLoop, levelsWeight]
      · have hrest' : rest ≠ [] := fun h => by simp [h] at hrest
        have ih := dfsPopLoop_spec T rest
          (match prev with | some s => T.revert_step st s | none => st)
        simp only [dfsPopLoop, List.isEmpty_nil, if_true, if_neg hrest, levelsWeight]
        obtain ⟨ihw, iht, ihf, ihm⟩ := ih
        refine ⟨by simpa using ihw, ?_, ?_, fun l hl => List.mem_cons_of_mem _ (ihm l hl)⟩
        · intro h
          obtain ⟨h1, h2⟩ := iht h
          exact ⟨h1, by simpa using h2⟩
        · intro h _
          exact ihf h hrest'
    · have hsteps : steps ≠ [] := fun h => by simp [h] at hempty
      obtain ⟨a, more, rfl⟩ := List.exists_cons_of_ne_nil hsteps
      simp only [dfsPopLoop, List.isEmpty_cons, Bool.false_eq_true, if_false]
      exact ⟨trivial, by simp, fun _ _ => ⟨a, more, prev, w, rest, rfl⟩, fun l hl => hl⟩

/-- A stack of nonnegative increments has nonnegative outstanding weight. -/
theorem levelsWeight_nonneg {α : Type} (lv : List (DfsLevel α))
    (h : ∀ l ∈ lv, 0 ≤ l.2.2) : 0 ≤ levelsWeight lv := by
  induction lv with
  | nil => simp [levelsWeight]
  | cons l rest ih =>
    obtain ⟨steps, prev, w⟩ := l
    have hw : 0 ≤ w := h _ (List.mem_cons_self _ _)
    have hr : 0 ≤ levelsWeight rest := ih fun l hl => h l (List.mem_cons_of_mem _ hl)
    have : 0 ≤ w * (steps.length : ℚ) := mul_nonneg hw (by positivity)
    simpa [levelsWeight] using add_nonneg this hr

/-- The invariant facts for the post-advance part of a searcher step,
stated over the explicit branch result so that both shapes of the
reverted state can reuse it: progress does not decrease, an alive result
keeps the invariant, and a dead result is impossible here. -/
theorem dfsBranchInv {σ α ω : Type} (T : DepthFirstTraversable σ α ω) (st2 : σ)
    (prog w : ℚ) (a : α) (more : List α) (rest : List (DfsLevel α))
    (hwmem : 0 ≤ w) (hrest : ∀ l ∈ rest, 0 ≤ l.2.2)
    (hsum2 : prog + (levelsWeight ((more, some a, w) :: rest) + w) = 1)
    (res : Bool × DfsSearcher σ α)
    (hres : res = if T.should_prune st2 = true then
        (true, { state := st2, levels := (more, some a, w) :: rest,
                 progress := prog + progressIncrement ((more, some a, w) :: rest) })
      else if (T.next_steps st2).length > 0 then
        (true, { state := st2,
                 levels := (T.next_steps st2, none,
                     progressIncrement ((more, some a, w) :: rest) / ((T.next_steps st2).length : ℚ)) ::
                   (more, some a, w) :: rest,
                 progress := prog })
      else
        (true, { state := st2, levels := (more, some a, w) :: rest,
                 progress := prog + progressIncrement ((more, some a, w) :: rest) })) :
    prog ≤ res.2.progress ∧ (res.1 = true → DfsInv res.2) ∧
      (res.1 = false → res.2.progress = 1) := by
  have hinc : progressIncrement ((more, some a, w) :: rest) = w := rfl
  subst hres
  by_cases hpr : T.should_prune st2 = true
  · rw [if_pos hpr]
    refine ⟨by simp [hinc]; linarith, fun _ => ⟨by simp, ?_, ?_⟩, by simp⟩
    · intro l hl
      rcases List.mem_cons.mp hl with rfl | hl
      exacts [hwmem, hrest l hl]
    · simp only [hinc]
      linarith
  · rw [if_neg hpr]
    by_cases hlen : (T.next_steps st2).length > 0
    · rw [if_pos hlen]
      have hcast : ((T.next_steps st2).length : ℚ) ≠ 0 := by
        exact_mod_cast Nat.pos_iff_ne_zero.mp hlen
      refine ⟨le_refl _, fun _ => ⟨by simp, ?_, ?_⟩, by simp⟩
      · intro l hl
        rcases List.mem_cons.mp hl with rfl | hl
        · simp only [hinc]
          exact div_nonneg hwmem (by positivity)
        · rcases List.mem_cons.mp hl with rfl | hl
          exacts [hwmem, hrest l hl]
      · show prog + levelsWeight _ = 1
        simp only [levelsWeight, hinc]
        rw [div_mul_cancel₀ _ hcast]
        simp only [levelsWeight] at hsum2
        linarith
    · rw [if_neg hlen]
      refine ⟨by simp [hinc]; linarith, fun _ => ⟨by simp, ?_, ?_⟩, by simp⟩
      · intro l hl
        rcases List.mem_cons.mp hl with rfl | hl
        exacts [hwmem, hrest l hl]
      · simp only [hinc]
        linarith

/-- One searcher step from an invariant state: progress never decreases,
an alive step re-establishes the invariant, and a step that reports the
search over leaves progress at exactly 1. -/
theorem dfsStep_inv {σ α ω : Type} (T : DepthFirstTraversable σ α ω)
    (s : DfsSearcher σ α) (h : DfsInv s) :
    s.progress ≤ (dfsStep T s).2.progress ∧
    ((dfsStep T s).1 = true → DfsInv (dfsStep T s).2) ∧
    ((dfsStep T s).1 = false → (dfsStep T s).2.progress = 1) := by
  obtain ⟨hne, hnn, hsum⟩ := h
  obtain ⟨hw, hfin, halive, hmem⟩ := dfsPopLoop_spec T s.levels s.state
  rcases hp : dfsPopLoop T s.state s.levels with ⟨st, plv, fin⟩
  rw [hp] at hw hfin halive hmem
  cases fin with
  | false =>
    obtain ⟨a, more, prev, w, rest, hshape⟩ := halive rfl hne
    subst hshape
    have hwmem : 0 ≤ w := hnn _ (hmem _ (List.mem_cons_self _ _))
    have hrest : ∀ l ∈ rest, 0 ≤ l.2.2 := fun l hl =>
      hnn _ (hmem _ (List.mem_cons_of_mem _ hl))
    have hsum2 : s.progress + (levelsWeight ((more, some a, w) :: rest) + w) = 1 := by
      have hstep : levelsWeight ((a :: more, prev, w) :: rest) =
          levelsWeight ((more, some a, w) :: rest) + w := by
        simp only [levelsWeight, List.length_cons]
        push_cast
        ring
      rw [← hw] at hsum
      rw [hstep] at hsum
      linarith
    unfold dfsStep
    rw [hp]
    dsimp only [dfsAdvance]
    cases prev with
    | none =>
      generalize T.apply_step st a = st2
      exact dfsBranchInv T st2 s.progress w a more rest hwmem hrest hsum2 _ rfl
    | some pstep =>
      generalize T.apply_step (T.revert_step st pstep) a = st2
      exact dfsBranchInv T st2 s.progress w a more rest hwmem hrest hsum2 _ rfl
  | true =>
    obtain ⟨hlv, hzero⟩ := hfin rfl
    unfold dfsStep
    rw [hp]
    refine ⟨le_refl _, fun h2 => by simp at h2, fun _ => ?_⟩
    dsimp only
    rw [hzero] at hsum
    linarith

/-- Death is stable across further steps, and a run extended by one step
from an alive run performs exactly one more searcher step at its end. -/
theorem dfsRun_succ_end {σ α ω : Type} (T : DepthFirstTraversable σ α ω) :
    ∀ (n : Nat) (s : DfsSearcher σ α),
      ((dfsRun T n s).2 = false → dfsRun T (n + 1) s = dfsRun T n s) ∧
      ((dfsRun T n s).2 = true → dfsRun T (n + 1) s =
        ((dfsStep T (dfsRun T n s).1).2, (dfsStep T (dfsRun T n s).1).1)) := by
  intro n
  induction n with
  | zero =>
    intro s
    refine ⟨fun h => by simp [dfsRun] at h, fun _ => ?_⟩
    show dfsRun T 1 s = _
    unfold dfsRun
    rcases hst : dfsStep T s with ⟨b, s'⟩
    cases b <;> simp [dfsRun, hst]
  | succ n ih =>
    intro s
    have hunf : ∀ (m : Nat), dfsRun T (m + 1) s =
        (match dfsStep T s with
         | (true, s') => dfsRun T m s'
         | (false, s') => (s', false)) := fun m => rfl
    rcases hst : dfsStep T s with ⟨b, s'⟩
    cases b
    · rw [hunf (n + 1), hunf n, hst]
      exact ⟨fun _ => rfl, fun h => by simp at h⟩
    · rw [hunf (n + 1), hunf n, hst]
      simpa using ih s'

/-- Along a run from an invariant state, alive states keep the invariant
and the dying step leaves progress at exactly 1. -/
theorem dfsRun_inv {σ α ω : Type} (T : DepthFirstTraversable σ α ω) :
    ∀ (n : Nat) (s : DfsSearcher σ α), DfsInv s →
      ((dfsRun T n s).2 = true → DfsInv (dfsRun T n s).1) ∧
      ((dfsRun T n s).2 = false → (dfsRun T n s).1.progress = 1) := by
  intro n
  induction n with
  | zero =>
    intro s hs
    exact ⟨fun _ => hs, fun h => by simp [dfsRun] at h⟩
  | succ n ih =>
    intro s hs
    obtain ⟨hmono, halive, hdead⟩ := dfsStep_inv T s hs
    have hunf : dfsRun T (n + 1) s =
        (match dfsStep T s with
         | (true, s') => dfsRun T n s'
         | (false, s') => (s', false)) := rfl
    rcases hst : dfsStep T s with ⟨b, s'⟩
    rw [hst] at halive hdead
    cases b
    · rw [hunf, hst]
      exact ⟨fun h => by simp at h, fun _ => hdead rfl⟩
    · rw [hunf, hst]
      exact ih s' (halive rfl)

/-- Claim C4 (amended): along the sequence of internal searcher steps that
any series of next() calls performs, progress is non-decreasing; provided
the root state is not pruned and offers at least one step, progress stays
at most 1 and equals exactly 1, in the exact-rational model of the f64
accumulator, at the moment the search reports completion.  Without that
proviso (a root with no steps never reaches the completion return and
accumulates 1 per step), or for steps taken after exhaustion, progress
exceeds 1, as the counterexample shows. -/
theorem c4_progress_monotone_bounded {σ α ω : Type} (T : DepthFirstTraversable σ α ω)
    (root : σ) (hprune : T.should_prune root = false) (hsteps : T.next_steps root ≠ []) :
    (∀ n : Nat, (dfsRun T n (dfsNew root)).1.progress ≤
      (dfsRun T (n + 1) (dfsNew root)).1.progress) ∧
    (∀ n : Nat, (dfsRun T n (dfsNew root)).1.progress ≤ 1) ∧
    (∀ n : Nat, (dfsRun T n (dfsNew root)).2 = false →
      (dfsRun T n (dfsNew root)).1.progress = 1) := by
  have hlen : 0 < (T.next_steps root).length := List.length_pos.mpr hsteps
  have hcast : ((T.next_steps root).length : ℚ) ≠ 0 := by
    exact_mod_cast Nat.pos_iff_ne_zero.mp hlen
  have hstep0 := dfsStep_new T root hprune hsteps
  have hinv1 : DfsInv (dfsRootSearcher T root) := by
    refine ⟨by simp [dfsRootSearcher], ?_, ?_⟩
    · intro l hl
      simp only [dfsRootSearcher, List.mem_singleton] at hl
      subst hl
      positivity
    · show (0 : ℚ) + levelsWeight _ = 1
      simp only [dfsRootSearcher, levelsWeight]
      rw [div_mul_cancel₀ _ hcast]
      ring
  have hrun : ∀ n : Nat, dfsRun T (n + 1) (dfsNew (α := α) root) =
      dfsRun T n (dfsRootSearcher T root) := by
    intro n
    have hunf : dfsRun T (n + 1) (dfsNew (α := α) root) =
        (match dfsStep T (dfsNew (α := α) root) with
         | (true, s') => dfsRun T n s'
         | (false, s') => (s', false)) := rfl
    rw [hunf, hstep0]
  refine ⟨?_, ?_, ?_⟩
  · intro n
    cases n with
    | zero =>
      rw [hrun 0]
      norm_num [dfsRun, dfsNew, dfsRootSearcher]
    | succ n =>
      rw [hrun n, hrun (n + 1)]
      rcases h2 : (dfsRun T n (dfsRootSearcher T root)).2 with _ | _
      · rw [(dfsRun_succ_end T n _).1 h2]
      · rw [(dfsRun_succ_end T n _).2 h2]
        exact (dfsStep_inv T _ ((dfsRun_inv T n _ hinv1).1 h2)).1
  · intro n
    cases n with
    | zero => norm_num [dfsRun, dfsNew]
    | succ n =>
      rw [hrun n]
      rcases h2 : (dfsRun T n (dfsRootSearcher T root)).2 with _ | _
      · exact le_of_eq ((dfsRun_inv T n _ hinv1).2 h2)
      · obtain ⟨_, hnn, hsum⟩ := (dfsRun_inv T n _ hinv1).1 h2
        have := levelsWeight_nonneg _ hnn
        linarith
  · intro n
    cases n with
    | zero =>
      intro h
      simp [dfsRun] at h
    | succ n =>
      rw [hrun n]
      exact (dfsRun_inv T n _ hinv1).2

/-- Witness for c4_progress_monotone_bounded: the template generator for
the one-given template is not pruned at its root and has a step there, so
its progress after two steps is at most 1. -/
theorem c4_progress_monotone_bounded_witness :
    (dfsRun templateGenTrav 2
      (dfsNew (TemplateGeneratorState.for_template given1Template))).1.progress ≤ 1 :=
  (c4_progress_monotone_bounded templateGenTrav
    (TemplateGeneratorState.for_template given1Template) rfl (by decide)).2.1 2

end DfsClaims

section FastSolverClaims

set_option maxRecDepth 4000

/-- Reading after setting: the set takes effect exactly at an in-range
equal index. -/
theorem list_getD_set (l : List Nat) (j t v : Nat) :
    (l.set j v).getD t 0 = if t = j ∧ j < l.length then v else l.getD t 0 := by
  rcases eq_or_ne t j with rfl | hne
  · by_cases hj : t < l.length
    · simp [List.getD_eq_getElem?_getD, List.getElem?_set_self hj, hj]
    · simp only [List.getD_eq_getElem?_getD]
      rw [List.set_eq_of_length_le (by omega)]
      simp [hj]
  · simp [List.getD_eq_getElem?_getD, List.getElem?_set_ne (Ne.symm hne), hne]

/-- A conjunct false on the left keeps an AND bit clear. -/
theorem testBit_and_false_left {x : Nat} (y : Nat) {i : Nat} (h : x.testBit i = false) :
    (x &&& y).testBit i = false := by simp [Nat.testBit_and, h]

/-- A conjunct false on the right keeps an AND bit clear. -/
theorem testBit_and_false_right (x : Nat) {y i : Nat} (h : y.testBit i = false) :
    (x &&& y).testBit i = false := by simp [Nat.testBit_and, h]

/-- ANDing a mask at a set index cannot set a clear bit, whatever index is
updated. -/
theorem getD_set_and_preserves_false {l : List Nat} {t x : Nat} (j m : Nat)
    (h : (l.getD t 0).testBit x = false) :
    ((l.set j (l.getD j 0 &&& m)).getD t 0).testBit x = false := by
  rw [list_getD_set]
  split
  · rename_i hcond
    rw [← hcond.1]
    exact testBit_and_false_left m h
  · exact h

/-- A fold of AND-updates cannot set a clear bit. -/
theorem foldl_and_preserves_false {β : Type} (f : β → Nat) (ms : β → Nat) {x t : Nat} :
    ∀ (L : List β) (pc : List Nat), (pc.getD t 0).testBit x = false →
      ((L.foldl (fun pc i => pc.set (f i) (pc.getD (f i) 0 &&& ms i)) pc).getD t 0).testBit x =
        false := by
  intro L
  induction L with
  | nil => intro pc h; exact h
  | cons i L ih =>
    intro pc h
    exact ih _ (getD_set_and_preserves_false (f i) (ms i) h)

/-- An AND with a single-bit mask vanishes when that bit is clear. -/
theorem and_single_bit_eq_zero {x k : Nat} (h : x.testBit k = false) :
    x &&& (1 <<< k) = 0 := by
  apply Nat.eq_of_testBit_eq
  intro i
  simp only [Nat.testBit_and, testBit_shiftLeft_one, Nat.zero_testBit]
  rcases eq_or_ne i k with rfl | hne
  · simp [h]
  · simp [hne]

/-- The nonconflicting_cells_same_band table clears the band-positions of
all row and box peers of the inserted cell. -/
theorem nonconflicting_same_band_clears :
    ∀ i : Fin 81, ∀ j : Fin 81, i.val / 27 = j.val / 27 → i.val ≠ j.val →
      isPeer i.val j.val = true →
      (nonconflicting_cells_same_band i.val).testBit (j.val % 27) = false := by decide

/-- The nonconflicting_cells_neighbour_bands table clears the
band-positions of the whole column of the inserted cell. -/
theorem nonconflicting_neighbour_bands_clears :
    ∀ i : Fin 81, ∀ j : Fin 81, i.val % 9 = j.val % 9 →
      (nonconflicting_cells_neighbour_bands i.val).testBit (j.val % 27) = false := by decide

/-- The neighbour_subbands table sends each subband to the two subbands of
the same digit in the other two bands. -/
theorem neighbour_subbands_spec :
    ∀ sb : Fin 27,
      (neighbour_subbands sb.val).1 = 3 * (sb.val / 3) + (sb.val % 3 + 1) % 3 ∧
      (neighbour_subbands sb.val).2 = 3 * (sb.val / 3) + (sb.val % 3 + 2) % 3 := by decide

/-- Two distinct cells that are peers across different bands share their
column. -/
theorem peer_diff_band_same_col :
    ∀ i : Fin 81, ∀ j : Fin 81, isPeer i.val j.val = true → i.val / 27 ≠ j.val / 27 →
      i.val % 9 = j.val % 9 := by decide

/-- The peer relation is symmetric. -/
theorem isPeer_symm :
    ∀ i : Fin 81, ∀ j : Fin 81, isPeer i.val j.val = isPeer j.val i.val := by decide

/-- Nat-level form of nonconflicting_same_band_clears. -/
theorem nonconflicting_same_band_clears' {i j : Nat} (hi : i < 81) (hj : j < 81)
    (hband : i / 27 = j / 27) (hne : i ≠ j) (hpeer : isPeer i j = true) :
    (nonconflicting_cells_same_band i).testBit (j % 27) = false :=
  nonconflicting_same_band_clears ⟨i, hi⟩ ⟨j, hj⟩ hband hne hpeer

/-- Nat-level form of nonconflicting_neighbour_bands_clears. -/
theorem nonconflicting_neighbour_bands_clears' {i j : Nat} (hi : i < 81) (hj : j < 81)
    (hcol : i % 9 = j % 9) :
    (nonconflicting_cells_neighbour_bands i).testBit (j % 27) = false :=
  nonconflicting_neighbour_bands_clears ⟨i, hi⟩ ⟨j, hj⟩ hcol

/-- Nat-level form of neighbour_subbands_spec. -/
theorem neighbour_subbands_spec' (sb : Nat) (h : sb < 27) :
    (neighbour_subbands sb).1 = 3 * (sb / 3) + (sb % 3 + 1) % 3 ∧
    (neighbour_subbands sb).2 = 3 * (sb / 3) + (sb % 3 + 2) % 3 :=
  neighbour_subbands_spec ⟨sb, h⟩

/-- Nat-level form of peer_diff_band_same_col. -/
theorem peer_diff_band_same_col' {i j : Nat} (hi : i < 81) (hj : j < 81)
    (hpeer : isPeer i j = true) (hband : i / 27 ≠ j / 27) : i % 9 = j % 9 :=
  peer_diff_band_same_col ⟨i, hi⟩ ⟨j, hj⟩ hpeer hband

/-- Nat-level form of isPeer_symm. -/
theorem isPeer_symm' {i j : Nat} (hi : i < 81) (hj : j < 81) :
    isPeer i j = isPeer j i :=
  isPeer_symm ⟨i, hi⟩ ⟨j, hj⟩

/-- Binding an error in Except propagates the error. -/
theorem except_bind_error {α β : Type} (e : Unit) (f : α → Except Unit β) :
    ((Except.error e : Except Unit α) >>= f) = Except.error e := rfl

/-- Binding a success in Except applies the continuation. -/
theorem except_bind_ok {α β : Type} (a : α) (f : α → Except Unit β) :
    ((Except.ok a : Except Unit α) >>= f) = f a := rfl

/-- The within-band clearing fold of insert_value preserves the length of
the subband list. -/
theorem foldl_clear_length (c : Nat) :
    ∀ (L : List Nat) (pc : List Nat),
      (L.foldl (fun pc d => pc.set (c / 27 + 3 * d)
        (pc.getD (c / 27 + 3 * d) 0 &&& notW 32 (1 <<< (c % 27)))) pc).length = pc.length := by
  intro L
  induction L with
  | nil => intro pc; rfl
  | cons i L ih =>
    intro pc
    rw [List.foldl_cons, ih, List.length_set]

/-- The within-band clearing fold of insert_value cannot set a clear bit. -/
theorem foldl_clear_preserves {c t x : Nat} (L : List Nat) (pc : List Nat)
    (h : ((pc.getD t 0).testBit x) = false) :
    (((L.foldl (fun pc d => pc.set (c / 27 + 3 * d)
      (pc.getD (c / 27 + 3 * d) 0 &&& notW 32 (1 <<< (c % 27)))) pc).getD t 0).testBit x) =
      false :=
  foldl_and_preserves_false (fun d => c / 27 + 3 * d) (fun _ => notW 32 (1 <<< (c % 27))) L pc h

/-- A successful insert_value leaves the subband list's length unchanged. -/
theorem insertValue_length {s s' : FastBruteForceSolver} {c v : Nat}
    (h : insertValue s c v = .ok s') :
    s'.possible_cells.length = s.possible_cells.length := by
  simp only [insertValue] at h
  split at h
  · exact Except.noConfusion h
  · simp only [Except.ok.injEq] at h
    subst h
    dsimp only
    rw [List.length_set, foldl_clear_length]
    simp only [List.length_set]

/-- Lemma A: a successful insert at a cell other than b never revives digit
d's possibility bit at cell b. -/
theorem insertValue_preserves_clear {s s' : FastBruteForceSolver} {c v b d : Nat}
    (hins : insertValue s c v = .ok s') (hc : c < 81) (hb : b < 81) (hcb : c ≠ b)
    (hclear : ((s.possible_cells.getD ((d - 1) * 3 + b / 27) 0).testBit (b % 27)) = false) :
    ((s'.possible_cells.getD ((d - 1) * 3 + b / 27) 0).testBit (b % 27)) = false := by
  simp only [insertValue] at hins
  split at hins
  · exact Except.noConfusion hins
  · simp only [Except.ok.injEq] at hins
    subst hins
    dsimp only
    rw [list_getD_set]
    split
    · rename_i hcond
      have hsub : (d - 1) * 3 + b / 27 = (v - 1) * 3 + c / 27 := hcond.1
      have hbc : b % 27 ≠ c % 27 := by omega
      rw [hsub] at hclear
      rw [Nat.testBit_or]
      refine Bool.or_eq_false_iff.mpr ⟨?_, ?_⟩
      · exact foldl_clear_preserves _ _
          (getD_set_and_preserves_false _ _
            (getD_set_and_preserves_false _ _
              (getD_set_and_preserves_false _ _ hclear)))
      · rw [testBit_shiftLeft_one]
        simp only [decide_eq_false_iff_not]
        exact hbc
    · exact foldl_clear_preserves _ _
        (getD_set_and_preserves_false _ _
          (getD_set_and_preserves_false _ _
            (getD_set_and_preserves_false _ _ hclear)))

/-- Lemma B: a successful insert of digit d at cell a clears digit d's
possibility bit at every peer cell b of a. -/
theorem insertValue_clears_peer {s s' : FastBruteForceSolver} {a b d : Nat}
    (hins : insertValue s a d = .ok s') (hlen : s.possible_cells.length = 27)
    (ha : a < 81) (hb : b < 81) (hab : a ≠ b) (hpeer : isPeer a b = true)
    (hd1 : 1 ≤ d) (hd9 : d ≤ 9) :
    ((s'.possible_cells.getD ((d - 1) * 3 + b / 27) 0).testBit (b % 27)) = false := by
  simp only [insertValue] at hins
  split at hins
  · exact Except.noConfusion hins
  · simp only [Except.ok.injEq] at hins
    subst hins
    dsimp only
    by_cases hband : a / 27 = b / 27
    · -- same band: the target subband is the inserted one, cleared by the
      -- same-band table and not revived by the final OR
      have htsb : (d - 1) * 3 + b / 27 = (d - 1) * 3 + a / 27 := by omega
      have hibc : b % 27 ≠ a % 27 := by omega
      have h1 : (((s.possible_cells.set ((d - 1) * 3 + a / 27)
          (s.possible_cells.getD ((d - 1) * 3 + a / 27) 0 &&&
            nonconflicting_cells_same_band a)).getD ((d - 1) * 3 + a / 27) 0).testBit
          (b % 27)) = false := by
        rw [list_getD_set, if_pos ⟨rfl, by omega⟩]
        exact testBit_and_false_right _
          (nonconflicting_same_band_clears' ha hb hband hab hpeer)
      rw [htsb, list_getD_set]
      split
      · rw [Nat.testBit_or]
        refine Bool.or_eq_false_iff.mpr ⟨?_, ?_⟩
        · exact foldl_clear_preserves _ _
            (getD_set_and_preserves_false _ _ (getD_set_and_preserves_false _ _ h1))
        · rw [testBit_shiftLeft_one]
          simp only [decide_eq_false_iff_not]
          exact hibc
      · exact foldl_clear_preserves _ _
          (getD_set_and_preserves_false _ _ (getD_set_and_preserves_false _ _ h1))
    · -- different bands: b lies in a's column, and its subband is one of
      -- the two neighbour subbands ANDed with the neighbour-bands table
      have hcol : a % 9 = b % 9 := peer_diff_band_same_col' ha hb hpeer hband
      have hsb27 : (d - 1) * 3 + a / 27 < 27 := by omega
      have hnb1 : (neighbour_subbands ((d - 1) * 3 + a / 27)).1 =
          3 * (d - 1) + (a / 27 + 1) % 3 := by
        rw [(neighbour_subbands_spec' _ hsb27).1]; omega
      have hnb2 : (neighbour_subbands ((d - 1) * 3 + a / 27)).2 =
          3 * (d - 1) + (a / 27 + 2) % 3 := by
        rw [(neighbour_subbands_spec' _ hsb27).2]; omega
      have htsb_ne : (d - 1) * 3 + b / 27 ≠ (d - 1) * 3 + a / 27 := by omega
      have hcase : (d - 1) * 3 + b / 27 = (neighbour_subbands ((d - 1) * 3 + a / 27)).1 ∨
          (d - 1) * 3 + b / 27 = (neighbour_subbands ((d - 1) * 3 + a / 27)).2 := by
        rw [hnb1, hnb2]; omega
      rw [list_getD_set, if_neg (fun h => htsb_ne h.1)]
      refine foldl_clear_preserves _ _ ?_
      rcases hcase with hcase | hcase
      · refine getD_set_and_preserves_false _ _ ?_
        rw [list_getD_set,
          if_pos ⟨hcase, by simp only [List.length_set]; rw [hnb1]; omega⟩]
        exact testBit_and_false_right _
          (nonconflicting_neighbour_bands_clears' ha hb hcol)
      · rw [list_getD_set,
          if_pos ⟨hcase, by simp only [List.length_set]; rw [hnb2]; omega⟩]
        exact testBit_and_false_right _
          (nonconflicting_neighbour_bands_clears' ha hb hcol)

/-- The clue-insertion fold of from_sudoku leaves the subband list's length
unchanged. -/
theorem foldInsert_length :
    ∀ (L : List (Nat × Nat)) (s s' : FastBruteForceSolver),
      L.foldlM insertStep s = .ok s' →
      s'.possible_cells.length = s.possible_cells.length := by
  intro L
  induction L with
  | nil =>
    intro s s' h
    have h' : Except.ok s = Except.ok s' := h
    simp only [Except.ok.injEq] at h'
    rw [← h']
  | cons p L ih =>
    intro s s' h
    rw [List.foldlM_cons] at h
    rcases hstep : insertStep s p with e | s1
    · rw [hstep, except_bind_error] at h
      exact Except.noConfusion h
    · rw [hstep, except_bind_ok] at h
      have h1 : s1.possible_cells.length = s.possible_cells.length := by
        simp only [insertStep] at hstep
        split at hstep
        · exact insertValue_length hstep
        · simp only [Except.ok.injEq] at hstep
          rw [← hstep]
      rw [ih s1 s' h, h1]

/-- Once digit d's possibility bit at cell b is clear, inserting clues at
cells other than b keeps it clear. -/
theorem foldInsert_preserves_clear {b d : Nat} (hb : b < 81) :
    ∀ (L : List (Nat × Nat)) (s s' : FastBruteForceSolver),
      (∀ p ∈ L, p.1 < 81 ∧ p.1 ≠ b) →
      ((s.possible_cells.getD ((d - 1) * 3 + b / 27) 0).testBit (b % 27)) = false →
      L.foldlM insertStep s = .ok s' →
      ((s'.possible_cells.getD ((d - 1) * 3 + b / 27) 0).testBit (b % 27)) = false := by
  intro L
  induction L with
  | nil =>
    intro s s' _ hcl h
    have h' : Except.ok s = Except.ok s' := h
    simp only [Except.ok.injEq] at h'
    rw [← h']
    exact hcl
  | cons p L ih =>
    intro s s' hmem hcl h
    rw [List.foldlM_cons] at h
    rcases hstep : insertStep s p with e | s1
    · rw [hstep, except_bind_error] at h
      exact Except.noConfusion h
    · rw [hstep, except_bind_ok] at h
      have hcl1 :
          ((s1.possible_cells.getD ((d - 1) * 3 + b / 27) 0).testBit (b % 27)) = false := by
        simp only [insertStep] at hstep
        split at hstep
        · exact insertValue_preserves_clear hstep (hmem p (List.mem_cons_self p L)).1 hb
            (hmem p (List.mem_cons_self p L)).2 hcl
        · simp only [Except.ok.injEq] at hstep
          rw [← hstep]
          exact hcl
      exact ih s1 s' (fun q hq => hmem q (List.mem_cons_of_mem p hq)) hcl1 h

/-- When the inserted clue's possibility bit is already clear, insert_value
signals Unsolvable. -/
theorem insertValue_error_of_clear {s : FastBruteForceSolver} {b d : Nat}
    (hclear : ((s.possible_cells.getD ((d - 1) * 3 + b / 27) 0).testBit (b % 27)) = false) :
    insertValue s b d = .error () := by
  have hz : s.possible_cells.getD ((d - 1) * 3 + b / 27) 0 &&& 1 <<< (b % 27) = 0 :=
    and_single_bit_eq_zero hclear
  simp only [insertValue, hz]
  rfl

/-- Two equal clues at distinct peer cells a < b make from_sudoku fail: the
insert at a clears digit d's bit at b, no later insert before b revives it,
and the insert at b then errors. -/
theorem fromSudoku_conflict_aux {g : List Nat} {a b d : Nat}
    (hlen : g.length = 81) (hab : a < b) (hb81 : b < 81)
    (hpeer : isPeer a b = true) (hd1 : 1 ≤ d) (hd9 : d ≤ 9)
    (hga : g.getD a 0 = d) (hgb : g.getD b 0 = d) :
    fromSudoku g = .error () := by
  have ha81 : a < 81 := lt_trans hab hb81
  have haE : a < g.enum.length := by rw [List.enum_length]; omega
  have hbE : b < g.enum.length := by rw [List.enum_length]; omega
  have haL : a < g.length := by omega
  have hbL : b < g.length := by omega
  have hga' : g[a] = d := (List.getD_eq_getElem g 0 haL).symm.trans hga
  have hgb' : g[b] = d := (List.getD_eq_getElem g 0 hbL).symm.trans hgb
  have hEa : g.enum[a] = (a, d) := by
    rw [List.getElem_enum]
    exact congrArg (Prod.mk a) hga'
  have hEb : g.enum[b] = (b, d) := by
    rw [List.getElem_enum]
    exact congrArg (Prod.mk b) hgb'
  have hsplit : g.enum =
      (g.enum.take a ++ (a, d) :: (g.enum.drop (a + 1)).take (b - (a + 1)))
        ++ (b, d) :: g.enum.drop (b + 1) := by
    conv_lhs => rw [← List.take_append_drop a g.enum]
    rw [List.drop_eq_getElem_cons haE, hEa]
    conv_lhs => rw [← List.take_append_drop (b - (a + 1)) (g.enum.drop (a + 1))]
    rw [List.drop_drop]
    rw [show a + 1 + (b - (a + 1)) = b from by omega]
    rw [List.drop_eq_getElem_cons hbE, hEb]
    simp [List.append_assoc]
  show g.enum.foldlM insertStep initFastSolver = .error ()
  rw [hsplit, List.foldlM_append]
  rcases h1 : (g.enum.take a ++
      (a, d) :: (g.enum.drop (a + 1)).take (b - (a + 1))).foldlM insertStep initFastSolver
    with e | s2
  · rw [except_bind_error]
  · rw [except_bind_ok, List.foldlM_cons]
    -- recover from h1 that digit d's bit at b is clear in s2
    rw [List.foldlM_append] at h1
    rcases h0 : (g.enum.take a).foldlM insertStep initFastSolver with e | s0
    · rw [h0, except_bind_error] at h1
      exact Except.noConfusion h1
    · rw [h0, except_bind_ok, List.foldlM_cons] at h1
      rcases hins : insertStep s0 (a, d) with e | s1
      · rw [hins, except_bind_error] at h1
        exact Except.noConfusion h1
      · rw [hins, except_bind_ok] at h1
        have hins' : insertValue s0 a d = .ok s1 := by
          simp only [insertStep] at hins
          split at hins
          · exact hins
          · rename_i hcond
            exfalso
            simp only [bne_iff_ne, ne_eq, Decidable.not_not] at hcond
            omega
        have hlen0 : s0.possible_cells.length = 27 := by
          rw [foldInsert_length _ _ _ h0]
          rfl
        have hclear1 := insertValue_clears_peer hins' hlen0 ha81 hb81 (by omega) hpeer hd1 hd9
        have hP2 : ∀ p ∈ (g.enum.drop (a + 1)).take (b - (a + 1)),
            p.1 < 81 ∧ p.1 ≠ b := by
          intro p hp
          rw [List.mem_iff_getElem] at hp
          obtain ⟨k, hk, hpk⟩ := hp
          have hk' : k < b - (a + 1) := by
            rw [List.length_take] at hk
            omega
          rw [List.getElem_take, List.getElem_drop, List.getElem_enum] at hpk
          rw [← hpk]
          exact ⟨by show a + 1 + k < 81; omega, by show a + 1 + k ≠ b; omega⟩
        have hclear2 := foldInsert_preserves_clear hb81 _ s1 s2 hP2 hclear1 h1
        have hdne : d ≠ 0 := by omega
        have hstep2 : insertStep s2 (b, d) = .error () := by
          simp only [insertStep]
          rw [if_pos (by simpa using hdne)]
          exact insertValue_error_of_clear hclear2
        rw [hstep2, except_bind_error]

/-- C7: on a grid holding the same digit 1..9 at two distinct peer cells
(same row, column or box), FastBruteForceSolver::from_sudoku signals
Unsolvable, and consequently has_solution and has_unique_solution return
false and count_solutions returns 0 (at every search fuel). -/
theorem c7_conflicting_peers_unsolvable {g : List Nat} {i j d : Nat}
    (hlen : g.length = 81) (hne : i ≠ j) (hpeer : isPeer i j = true)
    (hd1 : 1 ≤ d) (hd9 : d ≤ 9) (hgi : g.getD i 0 = d) (hgj : g.getD j 0 = d) :
    fromSudoku g = .error () ∧ (∀ f, hasSolutionF f g = some false) ∧
      (∀ f, hasUniqueSolutionF f g = some false) ∧
      (∀ f, countSolutionsF f g = some 0) := by
  have hi81 : i < 81 := by
    by_contra h
    rw [List.getD_eq_default g 0 (by omega)] at hgi
    omega
  have hj81 : j < 81 := by
    by_contra h
    rw [List.getD_eq_default g 0 (by omega)] at hgj
    omega
  have herr : fromSudoku g = .error () := by
    rcases Nat.lt_or_ge i j with h | h
    · exact fromSudoku_conflict_aux hlen h hj81 hpeer hd1 hd9 hgi hgj
    · have hji : j < i := by omega
      have hpeer' : isPeer j i = true := by
        rw [isPeer_symm' hj81 hi81]
        exact hpeer
      exact fromSudoku_conflict_aux hlen hji hi81 hpeer' hd1 hd9 hgj hgi
  refine ⟨herr, fun f => ?_, fun f => ?_, fun f => ?_⟩ <;>
    simp [hasSolutionF, hasUniqueSolutionF, countSolutionsF, herr]

/-- Witness for C7 at the concrete grid with digit 5 at the row peers 0
and 1. -/
theorem c7_conflicting_peers_unsolvable_witness :
    fromSudoku conflictGrid = .error () ∧
      (∀ f, hasSolutionF f conflictGrid = some false) ∧
      (∀ f, hasUniqueSolutionF f conflictGrid = some false) ∧
      (∀ f, countSolutionsF f conflictGrid = some 0) :=
  @c7_conflicting_peers_unsolvable conflictGrid 0 1 5
    (by rfl) (by decide) (by rfl) (by decide) (by decide) (by rfl) (by rfl)

end FastSolverClaims

section BasicSolverClaims

set_option maxRecDepth 10000

/-- An eliminate call that reports no change leaves the solver unchanged. -/
theorem eliminate_false_id {s : BasicSolver} {idx mask : Nat}
    (h : (s.eliminate idx mask).1 = false) : s.eliminate idx mask = (false, s) := by
  by_cases hc : s.sukaku.getD idx 0 &&& mask ≠ 0
  · exfalso
    unfold BasicSolver.eliminate at h
    rw [if_pos hc] at h
    simp at h
  · unfold BasicSolver.eliminate
    rw [if_neg hc]

/-- A progress-accumulating fold whose steps are the identity when they
report no progress is itself the identity when it reports no progress. -/
theorem foldl_progress_id {β : Type} (step : Bool × BasicSolver → β → Bool × BasicSolver)
    (hstep : ∀ acc q, (step acc q).1 = false → step acc q = acc) :
    ∀ (L : List β) (acc : Bool × BasicSolver),
      (L.foldl step acc).1 = false → L.foldl step acc = acc := by
  intro L
  induction L with
  | nil => intro acc _; rfl
  | cons q L ih =>
    intro acc h
    rw [List.foldl_cons] at h ⊢
    have h1 := ih (step acc q) h
    rw [h1]
    exact hstep acc q (by rw [h1] at h; exact h)

/-- The digit loop of one do_intersections region changes nothing when it
reports no progress. -/
theorem intersectionsMasks_false_id (left : List Nat) (left_idx : Nat)
    (left_indices : List Nat) (right : List (List Nat)) (right_indices : List Nat) :
    ∀ (masks : List Nat) (p : Bool) (s : BasicSolver),
      (intersectionsMasks left left_idx left_indices right right_indices masks p s).1 =
        false →
      intersectionsMasks left left_idx left_indices right right_indices masks p s =
        (p, s) := by
  intro masks
  induction masks with
  | nil => intro p s _; rfl
  | cons mask masks ih =>
    intro p s h
    simp only [intersectionsMasks] at h ⊢
    split at h
    · -- some right_idx: the elimination fold ran first
      have h2 := ih _ _ h
      rw [h2] at h
      dsimp only at h
      have h3 := foldl_progress_id _ ?_ _ _ h
      · rw [h2]
        exact Prod.mk.eta.trans h3
      · intro acc q hq
        by_cases hcq : left_indices.getD q 0 ≠ left_idx
        · rw [if_pos hcq] at hq ⊢
          have hor : (acc.1 || (acc.2.eliminate q mask).1) = false := hq
          obtain ⟨ha1, hr⟩ := Bool.or_eq_false_iff.mp hor
          rw [eliminate_false_id hr]
          simp
        · rw [if_neg hcq]
    · -- none: straight recursion
      exact ih _ _ h

/-- One left-family pass of do_intersections changes nothing when it
reports no progress. -/
theorem intersectionsPass_false_id (left : List (List Nat)) (left_indices : List Nat)
    (right : List (List Nat)) (right_indices : List Nat)
    (missingOf : BasicSolver → List Nat) (start : Bool × BasicSolver)
    (h : (intersectionsPass left left_indices right right_indices missingOf start).1 =
      false) :
    intersectionsPass left left_indices right right_indices missingOf start = start := by
  unfold intersectionsPass at h ⊢
  refine foldl_progress_id _ ?_ _ _ h
  intro acc q hq
  exact intersectionsMasks_false_id _ _ _ _ _ _ _ _ hq

/-- do_intersections changes nothing when it reports no progress. -/
theorem do_intersections_false_id {s : BasicSolver}
    (h : (s.do_intersections).1 = false) : s.do_intersections = (false, s) := by
  simp only [BasicSolver.do_intersections] at h ⊢
  have h4 := intersectionsPass_false_id _ _ _ _ _ _ h
  rw [h4] at h ⊢
  have h3 := intersectionsPass_false_id _ _ _ _ _ _ h
  rw [h3] at h ⊢
  have h2 := intersectionsPass_false_id _ _ _ _ _ _ h
  rw [h2] at h ⊢
  exact intersectionsPass_false_id _ _ _ _ _ _ h

/-- The elimination sweep of do_subsets changes nothing when it reports no
progress. -/
theorem subsetsElim_false_id {unsolved : List Nat} {mask : Nat} {acc : Bool × BasicSolver}
    (h : (subsetsElim unsolved mask acc).1 = false) : subsetsElim unsolved mask acc = acc := by
  unfold subsetsElim at h ⊢
  refine foldl_progress_id _ ?_ _ _ h
  intro a q hq
  by_cases hc : a.2.sukaku.getD q 0 &&& notW 16 mask ≠ 0
  · rw [if_pos hc] at hq ⊢
    have hor : (a.1 || (a.2.eliminate q mask).1) = false := hq
    obtain ⟨ha1, hr⟩ := Bool.or_eq_false_iff.mp hor
    rw [eliminate_false_id hr]
    simp
  · rw [if_neg hc]

/-- The combination loop of do_subsets changes nothing when it reports no
progress. -/
theorem subsetsLoop_false_id (unsolved : List Nat) (sz : Nat) :
    ∀ (f : Nat) (st : List Nat × List Nat) (acc : Bool × BasicSolver),
      (subsetsLoop unsolved sz f st acc).1 = false →
      subsetsLoop unsolved sz f st acc = acc := by
  intro f
  induction f with
  | zero => intro st acc _; rfl
  | succ f ih =>
    intro st acc h
    obtain ⟨is, ms⟩ := st
    simp only [subsetsLoop] at h ⊢
    split at h
    · -- the pop loop emptied the combination: the result is acc1
      by_cases hc : (countOnes 16 (ms.headD 0) == sz) = true
      · rw [if_pos hc] at h ⊢
        exact subsetsElim_false_id h
      · rw [if_neg hc] at h ⊢
    · -- continue with the refilled combination
      have h1 := ih _ _ h
      rw [h1] at h ⊢
      by_cases hc : (countOnes 16 (ms.headD 0) == sz) = true
      · rw [if_pos hc] at h ⊢
        exact subsetsElim_false_id h
      · rw [if_neg hc] at h ⊢

/-- One region of do_subsets changes nothing when it reports no
progress. -/
theorem subsetsRegion_false_id (region : List Nat) (region_idx sz : Nat)
    (missingOf : BasicSolver → List Nat) (acc : Bool × BasicSolver)
    (h : (subsetsRegion region region_idx sz missingOf acc).1 = false) :
    subsetsRegion region region_idx sz missingOf acc = acc := by
  simp only [subsetsRegion] at h ⊢
  split at h
  · rename_i hc
    rw [if_pos hc]
  · rename_i hc
    rw [if_neg hc]
    refine foldl_progress_id _ ?_ _ _ h
    intro a q hq
    exact subsetsLoop_false_id _ _ _ _ _ hq

/-- One region-family pass of do_subsets changes nothing when it reports
no progress. -/
theorem subsetsPass_false_id (regions : List (List Nat)) (missingOf : BasicSolver → List Nat)
    (sz : Nat) (acc : Bool × BasicSolver)
    (h : (subsetsPass regions missingOf sz acc).1 = false) :
    subsetsPass regions missingOf sz acc = acc := by
  unfold subsetsPass at h ⊢
  refine foldl_progress_id _ ?_ _ _ h
  intro a q hq
  exact subsetsRegion_false_id _ _ _ _ _ hq

/-- do_subsets changes nothing when it reports no progress. -/
theorem do_subsets_false_id {s : BasicSolver} {sz : Nat}
    (h : (s.do_subsets sz).1 = false) : s.do_subsets sz = (false, s) := by
  simp only [BasicSolver.do_subsets] at h ⊢
  have h3 := subsetsPass_false_id _ _ _ _ h
  rw [h3] at h ⊢
  have h2 := subsetsPass_false_id _ _ _ _ h
  rw [h2] at h ⊢
  exact subsetsPass_false_id _ _ _ _ h

/-- do_all_subsets changes nothing when it reports no progress. -/
theorem do_all_subsets_false_id {s : BasicSolver}
    (h : (s.do_all_subsets).1 = false) : s.do_all_subsets = (false, s) := by
  simp only [BasicSolver.do_all_subsets] at h ⊢
  have hor : ((s.do_subsets 2).1 || ((s.do_subsets 2).2.do_subsets 3).1 ||
      (((s.do_subsets 2).2.do_subsets 3).2.do_subsets 4).1) = false := h
  obtain ⟨hab, hc⟩ := Bool.or_eq_false_iff.mp hor
  obtain ⟨ha, hb⟩ := Bool.or_eq_false_iff.mp hab
  have ea := do_subsets_false_id ha
  rw [ea] at hb hc ⊢
  dsimp only at hb hc ⊢
  have eb := do_subsets_false_id hb
  rw [eb] at hc ⊢
  dsimp only at hc ⊢
  have ec := do_subsets_false_id hc
  rw [ec]
  rfl

/-- Once the naked-singles scan has made progress it can no longer report
false. -/
theorem doNakedSinglesGo_true_ne_false :
    ∀ (L : List Nat) (s : BasicSolver), (doNakedSinglesGo L true s).1 ≠ some false := by
  intro L
  induction L with
  | nil => intro s h; simp [doNakedSinglesGo] at h
  | cons idx L ih =>
    intro s h
    simp only [doNakedSinglesGo] at h
    by_cases hp : s.placed.getD idx false = true
    · rw [if_pos hp] at h
      exact ih _ h
    · rw [if_neg hp] at h
      generalize countOnes 16 (s.sukaku.getD idx 0) = m at h
      rcases m with _ | _ | n
      · simp at h
      · exact ih _ h
      · exact ih _ h

/-- A naked-singles scan that reports no progress changes nothing. -/
theorem doNakedSinglesGo_false_id :
    ∀ (L : List Nat) (s : BasicSolver), (doNakedSinglesGo L false s).1 = some false →
      doNakedSinglesGo L false s = (some false, s) := by
  intro L
  induction L with
  | nil => intro s _; rfl
  | cons idx L ih =>
    intro s h
    simp only [doNakedSinglesGo] at h ⊢
    by_cases hp : s.placed.getD idx false = true
    · rw [if_pos hp] at h ⊢
      exact ih _ h
    · rw [if_neg hp] at h ⊢
      generalize countOnes 16 (s.sukaku.getD idx 0) = m at h ⊢
      rcases m with _ | _ | n
      · simp at h
      · exact absurd h (doNakedSinglesGo_true_ne_false _ _)
      · exact ih _ h

/-- do_naked_singles changes nothing when it reports no progress. -/
theorem do_naked_singles_false_id {s : BasicSolver}
    (h : (s.do_naked_singles).1 = some false) : s.do_naked_singles = (some false, s) := by
  unfold BasicSolver.do_naked_singles at h ⊢
  exact doNakedSinglesGo_false_id _ _ h

/-- Once the hidden-singles cell loop has made progress it can no longer
report false. -/
theorem hiddenSinglesCells_true_ne_false (eo : Nat) :
    ∀ (L : List Nat) (s : BasicSolver), (hiddenSinglesCells eo L true s).1 ≠ some false := by
  intro L
  induction L with
  | nil => intro s h; simp [hiddenSinglesCells] at h
  | cons idx L ih =>
    intro s h
    simp only [hiddenSinglesCells] at h
    generalize countOnes 16 (s.sukaku.getD idx 0 &&& eo) = m at h
    rcases m with _ | _ | n
    · exact ih _ h
    · exact ih _ h
    · simp at h

/-- A hidden-singles cell loop that reports no progress changes
nothing. -/
theorem hiddenSinglesCells_false_id (eo : Nat) :
    ∀ (L : List Nat) (s : BasicSolver),
      (hiddenSinglesCells eo L false s).1 = some false →
      hiddenSinglesCells eo L false s = (some false, s) := by
  intro L
  induction L with
  | nil => intro s _; rfl
  | cons idx L ih =>
    intro s h
    simp only [hiddenSinglesCells] at h ⊢
    generalize countOnes 16 (s.sukaku.getD idx 0 &&& eo) = m at h ⊢
    rcases m with _ | _ | n
    · exact ih _ h
    · exact absurd h (hiddenSinglesCells_true_ne_false _ _ _)
    · simp at h

/-- Once a hidden-singles region has been entered with progress already
made, it can no longer report false. -/
theorem hiddenSinglesRegion_true_ne_false (region : List Nat) (missing : Nat)
    (s : BasicSolver) : (hiddenSinglesRegion region missing true s).1 ≠ some false := by
  intro h
  simp only [hiddenSinglesRegion] at h
  split at h
  · simp at h
  · split at h
    · exact hiddenSinglesCells_true_ne_false _ _ _ h
    · simp at h

/-- A hidden-singles region that reports no progress changes nothing. -/
theorem hiddenSinglesRegion_false_id (region : List Nat) (missing : Nat)
    (s : BasicSolver) (h : (hiddenSinglesRegion region missing false s).1 = some false) :
    hiddenSinglesRegion region missing false s = (some false, s) := by
  simp only [hiddenSinglesRegion] at h ⊢
  split at h
  · simp at h
  · rename_i hc
    rw [if_neg hc]
    split at h
    · rename_i hc2
      rw [if_pos hc2]
      exact hiddenSinglesCells_false_id _ _ _ h
    · rename_i hc2
      rw [if_neg hc2]

/-- Once a hidden-singles pass has made progress it can no longer report
false. -/
theorem hiddenSinglesPass_true_ne_false (missingOf : BasicSolver → List Nat) :
    ∀ (L : List (Nat × List Nat)) (s : BasicSolver),
      (hiddenSinglesPass missingOf L true s).1 ≠ some false := by
  intro L
  induction L with
  | nil => intro s h; simp [hiddenSinglesPass] at h
  | cons r L ih =>
    intro s h
    obtain ⟨ri, region⟩ := r
    simp only [hiddenSinglesPass] at h
    split at h
    · simp at h
    · rename_i p s' heq
      have hp : p = true := by
        rcases p with _ | _
        · exact absurd (by rw [heq]) (hiddenSinglesRegion_true_ne_false region _ s)
        · rfl
      subst hp
      exact ih _ h

/-- A hidden-singles pass that reports no progress changes nothing. -/
theorem hiddenSinglesPass_false_id (missingOf : BasicSolver → List Nat) :
    ∀ (L : List (Nat × List Nat)) (s : BasicSolver),
      (hiddenSinglesPass missingOf L false s).1 = some false →
      hiddenSinglesPass missingOf L false s = (some false, s) := by
  intro L
  induction L with
  | nil => intro s _; rfl
  | cons r L ih =>
    intro s h
    obtain ⟨ri, region⟩ := r
    simp only [hiddenSinglesPass] at h ⊢
    split at h
    · simp at h
    · rename_i p s' heq
      have hp : p = false := by
        rcases p with _ | _
        · rfl
        · exact absurd h (hiddenSinglesPass_true_ne_false _ L s')
      subst hp
      have h3 : hiddenSinglesRegion region ((missingOf s).getD ri 0) false s =
          (some false, s) := hiddenSinglesRegion_false_id _ _ _ (by rw [heq])
      have hs' : s' = s := by
        rw [heq] at h3
        simpa using h3
      subst hs'
      exact ih _ h

/-- do_hidden_singles changes nothing when it reports no progress. -/
theorem do_hidden_singles_false_id {s : BasicSolver}
    (h : (s.do_hidden_singles).1 = some false) : s.do_hidden_singles = (some false, s) := by
  unfold BasicSolver.do_hidden_singles at h ⊢
  split at h
  · simp at h
  · rename_i p1 s1 heq1
    split at h
    · simp at h
    · rename_i p2 s2 heq2
      have hp2 : p2 = false := by
        rcases p2 with _ | _
        · rfl
        · exact absurd h (hiddenSinglesPass_true_ne_false _ _ _)
      subst hp2
      have hp1 : p1 = false := by
        rcases p1 with _ | _
        · rfl
        · exact absurd (by rw [heq2]) (hiddenSinglesPass_true_ne_false _ _ _)
      subst hp1
      have e1 : hiddenSinglesPass (·.missing_from_rows) ROWS.enum false s =
          (some false, s) := hiddenSinglesPass_false_id _ _ _ (by rw [heq1])
      have hs1 : s1 = s := by
        rw [heq1] at e1
        simpa using e1
      rw [hs1] at heq2
      have e2 : hiddenSinglesPass (·.missing_from_cols) COLS.enum false s =
          (some false, s) := hiddenSinglesPass_false_id _ _ _ (by rw [heq2])
      have hs2 : s2 = s := by
        rw [heq2] at e2
        simpa using e2
      rw [hs2] at h ⊢
      exact hiddenSinglesPass_false_id _ _ _ h

/-- step_basics changes nothing when it reports no progress. -/
theorem step_basics_false_id {s : BasicSolver}
    (h : (s.step_basics).1 = some false) : s.step_basics = (some false, s) := by
  simp only [BasicSolver.step_basics] at h ⊢
  split at h
  · simp at h
  · simp at h
  · rename_i s' heq1
    have e1 : s.do_naked_singles = (some false, s) :=
      do_naked_singles_false_id (by rw [heq1])
    have hs' : s' = s := by
      rw [heq1] at e1
      simpa using e1
    rw [hs'] at h ⊢
    split at h
    · simp at h
    · simp at h
    · rename_i s'' heq2
      have e2 : s.do_hidden_singles = (some false, s) :=
        do_hidden_singles_false_id (by rw [heq2])
      have hs'' : s'' = s := by
        rw [heq2] at e2
        simpa using e2
      rw [hs''] at h ⊢
      split at h
      · simp at h
      · rename_i hc
        have hcf : (s.do_intersections).1 = false := by
          simpa using hc
        have e3 := do_intersections_false_id hcf
        rw [e3] at h ⊢
        dsimp only at h ⊢
        have hb1 : (s.do_all_subsets).1 = false := by
          simpa using h
        have e4 := do_all_subsets_false_id hb1
        rw [e4]
        rfl

/-- A state on which step_basics reports no progress is a fixpoint of
solve_basics at any positive fuel. -/
theorem solveBasicsF_fix {s : BasicSolver} (h : (s.step_basics).1 = some false) (g : Nat) :
    solveBasicsF (g + 1) s = some s := by
  simp only [solveBasicsF]
  rw [step_basics_false_id h]

/-- C6 counterexample: on the contradictory sukaku a first solve_basics
run places one cell before aborting on the empty cell, and a second run
on its output places another cell, so the two runs do not commute with
doing nothing. -/
theorem c6_counterexample :
    (solveBasicsF 2 (BasicSolver.for_sukaku contradictorySukaku)).map
        (fun s => s.placed_count) = some 1 ∧
      ((solveBasicsF 2 (BasicSolver.for_sukaku contradictorySukaku)).bind
        (solveBasicsF 2)).map (fun s => s.placed_count) = some 2 := by decide

/-- C6 amended: solve_basics is idempotent on every run that ends because
step_basics reports no progress (rather than aborting on a contradiction):
a second call returns the first call's output unchanged, at any positive
fuel. -/
theorem c6_solve_basics_idempotent_unless_aborted (f g : Nat) (s s' : BasicSolver)
    (h : solveBasicsF f s = some s') (hg : 1 ≤ g)
    (hclean : (s'.step_basics).1 = some false) :
    solveBasicsF g s' = some s' := by
  obtain ⟨g', rfl⟩ : ∃ g', g = g' + 1 := ⟨g - 1, by omega⟩
  exact solveBasicsF_fix hclean g'

/-- Witness for C6 at the solved grid's stable solver state, a fixpoint of
solve_basics. -/
theorem c6_solve_basics_idempotent_unless_aborted_witness :
    solveBasicsF 1 solvedFixpoint = some solvedFixpoint :=
  c6_solve_basics_idempotent_unless_aborted 1 1 solvedFixpoint solvedFixpoint
    (by decide) (by decide) (by decide)

end BasicSolverClaims

section GeneratorClaims

/-- When the generator's pop loop ends the search, the placements stack is
empty. -/
theorem genPopGo_false_empty :
    ∀ (L : List (Nat × Nat)) (incs : List ℚ) (g : Generator),
      (genPopGo L incs g).2 = false → (genPopGo L incs g).1.placements = [] := by
  intro L
  induction L with
  | nil => intro incs g h; simp [genPopGo] at h
  | cons p L ih =>
    intro incs g h
    obtain ⟨idx, mask⟩ := p
    simp only [genPopGo] at h ⊢
    by_cases hm : (mask == 0) = true
    · rw [if_pos hm] at h ⊢
      by_cases hr : L.isEmpty = true
      · rw [if_pos hr] at h ⊢
      · rw [if_neg hr] at h ⊢
        exact ih _ _ h
    · rw [if_neg hm] at h ⊢
      simp at h

/-- An emission of the generator always carries a puzzle that has_solution
accepted. -/
theorem genNext_emit_guard (f : Nat) :
    ∀ (fuel : Nat) (g g' : Generator) (prog inc : ℚ) (puzzle : List Nat),
      genNext f fuel g = some (some (prog, inc, puzzle), g') →
      hasSolutionF f puzzle = some true ∧ puzzle = g'.puzzle := by
  intro fuel
  induction fuel with
  | zero => intro g g' prog inc puzzle h; simp [genNext] at h
  | succ fuel ih =>
    intro g g' prog inc puzzle h
    simp only [genNext] at h
    split at h
    · simp at h
    · simp at h
    · rename_i g1 heq
      split at h
      · split at h
        · simp at h
        · rename_i hsol
          simp only [Option.some.injEq, Prod.mk.injEq] at h
          obtain ⟨⟨h1, h2, h3⟩, h4⟩ := h
          subst h3
          subst h4
          exact ⟨hsol, rfl⟩
        · exact ih _ _ _ _ _ h
      · exact ih _ _ _ _ _ h

/-- The generator deepens the placement stack only when has_solution
accepts the current partial puzzle. -/
theorem genStep_deepen_guard (f : Nat) (g : Generator) (b : Bool) (g' : Generator)
    (h : genStep f g = some (b, g')) :
    g'.placements.length ≤
      (genAdvance (genPopGo g.placements g.progress_increments g).1).placements.length ∨
    (g'.placements.length =
      (genAdvance (genPopGo g.placements g.progress_increments g).1).placements.length
        + 1 ∧
      hasSolutionF f g'.puzzle = some true) := by
  simp only [genStep] at h
  split at h
  · rename_i g1 heq
    simp only [Option.some.injEq, Prod.mk.injEq] at h
    obtain ⟨hb, hg⟩ := h
    subst hg
    left
    have he : g1.placements = [] := by
      have h0 := genPopGo_false_empty g.placements g.progress_increments g (by rw [heq])
      rw [heq] at h0
      exact h0
    rw [heq]
    simp [he]
  · rename_i g1 heq
    rw [heq]
    split at h
    · split at h
      · simp at h
      · rename_i hsol
        simp only [Option.some.injEq, Prod.mk.injEq] at h
        obtain ⟨hb, hg⟩ := h
        subst hg
        right
        exact ⟨by simp, hsol⟩
      · simp only [Option.some.injEq, Prod.mk.injEq] at h
        obtain ⟨hb, hg⟩ := h
        subst hg
        left
        exact le_refl _
    · simp only [Option.some.injEq, Prod.mk.injEq] at h
      obtain ⟨hb, hg⟩ := h
      subst hg
      left
      exact le_refl _

/-- C9: every grid emitted by the standalone generator passed the
has_solution test of the brute-force solver at emission time, and the
generator deepens its placement stack at an internal node only when
has_solution accepts the partial puzzle there. -/
theorem c9_generator_emits_solvable (f fuel : Nat) (g g' : Generator)
    (prog inc : ℚ) (puzzle : List Nat)
    (hemit : genNext f fuel g = some (some (prog, inc, puzzle), g')) :
    (hasSolutionF f puzzle = some true ∧ puzzle = g'.puzzle) ∧
    (∀ (h : Generator) (b : Bool) (h' : Generator), genStep f h = some (b, h') →
      h'.placements.length ≤
        (genAdvance (genPopGo h.placements h.progress_increments h).1).placements.length ∨
      (h'.placements.length =
        (genAdvance (genPopGo h.placements h.progress_increments h).1).placements.length
          + 1 ∧
        hasSolutionF f h'.puzzle = some true)) :=
  ⟨genNext_emit_guard f fuel g g' prog inc puzzle hemit,
   fun h b h' hstep => genStep_deepen_guard f h b h' hstep⟩

/-- Witness for C9: the all-given cyclic template emits its grid at once,
and the grid passes has_solution. -/
theorem c9_generator_emits_solvable_witness :
    (hasSolutionF 2 cyclicSolvedGrid = some true ∧
      cyclicSolvedGrid = (Generator.for_template cyclicTemplate).puzzle) ∧
    (∀ (h : Generator) (b : Bool) (h' : Generator), genStep 2 h = some (b, h') →
      h'.placements.length ≤
        (genAdvance (genPopGo h.placements h.progress_increments h).1).placements.length ∨
      (h'.placements.length =
        (genAdvance (genPopGo h.placements h.progress_increments h).1).placements.length
          + 1 ∧
        hasSolutionF 2 h'.puzzle = some true)) :=
  c9_generator_emits_solvable 2 1 (Generator.for_template cyclicTemplate)
    (Generator.for_template cyclicTemplate) 0 1 cyclicSolvedGrid
    (by with_unfolding_all rfl)

end GeneratorClaims

section ExpansionClaims

set_option maxRecDepth 4000

/-- An in-range getD is a member of the list. -/
theorem getD_mem_of_lt {l : List Nat} {i : Nat} (h : i < l.length) : l.getD i 0 ∈ l := by
  rw [List.getD_eq_getElem l 0 h]
  exact List.getElem_mem h

/-- Row indices are below 9 for every cell argument. -/
theorem row_indices_lt (idx : Nat) : ROW_INDICES.getD idx 0 < 9 := by
  by_cases h : idx < 81
  · exact (by decide : ∀ i : Fin 81, ROW_INDICES.getD i.val 0 < 9) ⟨idx, h⟩
  · rw [List.getD_eq_default _ _ (by rw [show ROW_INDICES.length = 81 from rfl]; omega)]
    norm_num

/-- Column indices are below 9 for every cell argument. -/
theorem col_indices_lt (idx : Nat) : COL_INDICES.getD idx 0 < 9 := by
  by_cases h : idx < 81
  · exact (by decide : ∀ i : Fin 81, COL_INDICES.getD i.val 0 < 9) ⟨idx, h⟩
  · rw [List.getD_eq_default _ _ (by rw [show COL_INDICES.length = 81 from rfl]; omega)]
    norm_num

/-- Box indices are below 9 for every cell argument. -/
theorem box_indices_lt (idx : Nat) : BOX_INDICES.getD idx 0 < 9 := by
  by_cases h : idx < 81
  · exact (by decide : ∀ i : Fin 81, BOX_INDICES.getD i.val 0 < 9) ⟨idx, h⟩
  · rw [List.getD_eq_default _ _ (by rw [show BOX_INDICES.length = 81 from rfl]; omega)]
    norm_num

/-- ANDing preserves evenness of the low bit. -/
theorem and_mod_two_eq_zero_left {m y : Nat} (h : m % 2 = 0) : (m &&& y) % 2 = 0 := by
  rcases Nat.mod_two_eq_zero_or_one (m &&& y) with h' | h'
  · exact h'
  · exfalso
    have hb : (m &&& y).testBit 0 = true := by simp [Nat.testBit_zero, h']
    rw [Nat.testBit_and] at hb
    simp [Nat.testBit_zero, h] at hb

/-- The mask-list update done by place keeps every entry a 16-bit even
value. -/
theorem masks_set_unset_wf {l : List Nat} (ri d : Nat)
    (hl : ∀ m ∈ l, m < 2 ^ 16 ∧ m % 2 = 0) :
    ∀ m ∈ l.set ri (maskUnset 16 (l.getD ri 0) d), m < 2 ^ 16 ∧ m % 2 = 0 := by
  intro m hm
  rcases List.mem_or_eq_of_mem_set hm with hm' | rfl
  · exact hl m hm'
  · by_cases hri : ri < l.length
    · obtain ⟨hb, hp⟩ := hl _ (getD_mem_of_lt hri)
      exact ⟨lt_of_le_of_lt Nat.and_le_left hb, and_mod_two_eq_zero_left hp⟩
    · rw [List.getD_eq_default _ _ (by omega)]
      constructor
      · exact lt_of_le_of_lt Nat.and_le_left (by norm_num)
      · exact and_mod_two_eq_zero_left (by norm_num)

/-- Placing a digit preserves grid well-formedness. -/
theorem gridWF_place {g : RegionMaskedSudoku} (hwf : GridWF g) (idx d : Nat) :
    GridWF (g.place idx d) := by
  obtain ⟨h81, hr, hc, hb, hmr, hmc, hmb⟩ := hwf
  exact ⟨by simpa [RegionMaskedSudoku.place] using h81,
    by simpa [RegionMaskedSudoku.place] using hr,
    by simpa [RegionMaskedSudoku.place] using hc,
    by simpa [RegionMaskedSudoku.place] using hb,
    masks_set_unset_wf _ _ hmr, masks_set_unset_wf _ _ hmc, masks_set_unset_wf _ _ hmb⟩

/-- Unplacing exactly inverts placing a digit d at an empty cell whose
region masks still offer d. -/
theorem unplace_place {g : RegionMaskedSudoku} {idx d : Nat} (hwf : GridWF g)
    (hempty : g.sudoku.getD idx 0 = 0) (hd : d < 16)
    (hrow : (g.rows.getD (ROW_INDICES.getD idx 0) 0).testBit d = true)
    (hcol : (g.cols.getD (COL_INDICES.getD idx 0) 0).testBit d = true)
    (hbox : (g.boxes.getD (BOX_INDICES.getD idx 0) 0).testBit d = true) :
    (g.place idx d).unplace idx d = g := by
  obtain ⟨h81, hr, hc, hb, hmr, hmc, hmb⟩ := hwf
  obtain ⟨sud, rows, cols, boxes⟩ := g
  dsimp only at h81 hr hc hb hmr hmc hmb hempty hrow hcol hbox
  simp only [RegionMaskedSudoku.place, RegionMaskedSudoku.unplace]
  congr 1
  · rw [list_set_set]
    exact list_set_getD_self hempty
  · rw [list_getD_set, if_pos ⟨rfl, by rw [hr]; exact row_indices_lt idx⟩,
      maskSet_maskUnset (hmr _ (getD_mem_of_lt (by rw [hr]; exact row_indices_lt idx))).1
        hd hrow,
      list_set_set]
    exact list_set_getD_self rfl
  · rw [list_getD_set, if_pos ⟨rfl, by rw [hc]; exact col_indices_lt idx⟩,
      maskSet_maskUnset (hmc _ (getD_mem_of_lt (by rw [hc]; exact col_indices_lt idx))).1
        hd hcol,
      list_set_set]
    exact list_set_getD_self rfl
  · rw [list_getD_set, if_pos ⟨rfl, by rw [hb]; exact box_indices_lt idx⟩,
      maskSet_maskUnset (hmb _ (getD_mem_of_lt (by rw [hb]; exact box_indices_lt idx))).1
        hd hbox,
      list_set_set]
    exact list_set_getD_self rfl

/-- Rust's min_by_key returns an element of the iterator. -/
theorem minByKeyFirst_mem {β : Type} (key : β → Nat) :
    ∀ (L : List β) (x : β), minByKeyFirst key L = some x → x ∈ L := by
  have hfold : ∀ (L : List β) (a : β),
      L.foldl (fun acc y => if key y < key acc then y else acc) a ∈ a :: L := by
    intro L
    induction L with
    | nil => intro a; exact List.mem_singleton_self a
    | cons y L ih =>
      intro a
      rw [List.foldl_cons]
      by_cases hk : key y < key a
      · rw [if_pos hk]
        rcases List.mem_cons.mp (ih y) with h | h
        · rw [h]
          simp
        · exact List.mem_cons_of_mem _ (List.mem_cons_of_mem _ h)
      · rw [if_neg hk]
        rcases List.mem_cons.mp (ih a) with h | h
        · rw [h]
          simp
        · exact List.mem_cons_of_mem _ (List.mem_cons_of_mem _ h)
  intro L x h
  match L, h with
  | y :: ys, h =>
    simp only [minByKeyFirst, Option.some.injEq] at h
    subst h
    exact hfold ys y

/-- A candidate bit of an empty cell is offered by each of its three
region masks. -/
theorem candidates_empty_testBit {g : RegionMaskedSudoku} {idx d : Nat}
    (hempty : g.sudoku.getD idx 0 = 0)
    (hbit : (g.candidates idx).testBit d = true) :
    (g.rows.getD (ROW_INDICES.getD idx 0) 0).testBit d = true ∧
    (g.cols.getD (COL_INDICES.getD idx 0) 0).testBit d = true ∧
    (g.boxes.getD (BOX_INDICES.getD idx 0) 0).testBit d = true := by
  unfold RegionMaskedSudoku.candidates at hbit
  rw [if_neg (by rw [hempty]; simp)] at hbit
  simp only [Nat.testBit_and, Bool.and_eq_true] at hbit
  exact ⟨hbit.1.1, hbit.1.2, hbit.2⟩

/-- What membership in the template traversable's next_steps gives: the
cell is empty and the digit is a sub-16 candidate of the cell. -/
theorem templateGen_next_steps_spec {s : TemplateGeneratorState} {step : Nat × Nat}
    (h : step ∈ templateGenTrav.next_steps s) :
    s.sudoku.sudoku.getD step.1 0 = 0 ∧ step.2 < 16 ∧
      (s.sudoku.candidates step.1).testBit step.2 = true := by
  simp only [templateGenTrav] at h
  split at h
  · rename_i idx digits heq
    rw [List.mem_map] at h
    obtain ⟨d, hd, rfl⟩ := h
    have hmem := minByKeyFirst_mem _ _ _ heq
    rw [List.mem_map] at hmem
    obtain ⟨p, hp, hpe⟩ := hmem
    rw [List.mem_filter] at hp
    obtain ⟨hpw, hpempty⟩ := hp
    have h1 : p.1 = idx := congrArg Prod.fst hpe
    have h2 : bitIndices 16 (p.2 &&& s.sudoku.candidates p.1) = digits :=
      congrArg Prod.snd hpe
    subst h1
    rw [← h2] at hd
    obtain ⟨hd16, hdbit⟩ := mem_bitIndices hd
    rw [Nat.testBit_and, Bool.and_eq_true] at hdbit
    refine ⟨?_, hd16, hdbit.2⟩
    show s.sudoku.sudoku.getD p.1 0 = 0
    simpa [RegionMaskedSudoku.is_empty] using hpempty
  · simp at h

/-- Every state the template generator search reaches has a well-formed
grid. -/
theorem templateGen_reachable_wf {t : Template} {s : TemplateGeneratorState}
    (h : TravReachable templateGenTrav (TemplateGeneratorState.for_template t) s) :
    GridWF s.sudoku := by
  induction h with
  | base =>
    show GridWF RegionMaskedSudoku.empty
    refine ⟨rfl, rfl, rfl, rfl, ?_, ?_, ?_⟩ <;>
    · intro m hm
      rw [List.eq_of_mem_replicate hm]
      exact ⟨by decide, by decide⟩
  | step hreach hprune hstep ih =>
    exact gridWF_place ih _ _

/-- C5, template half: applying a next_steps step of a reachable template
generator state and reverting it restores the state. -/
theorem templateGen_roundtrip {t : Template} {s : TemplateGeneratorState}
    {step : Nat × Nat}
    (hreach : TravReachable templateGenTrav (TemplateGeneratorState.for_template t) s)
    (hstep : step ∈ templateGenTrav.next_steps s) :
    templateGenTrav.revert_step (templateGenTrav.apply_step s step) step = s := by
  have hwf := templateGen_reachable_wf hreach
  obtain ⟨hempty, hd16, hbit⟩ := templateGen_next_steps_spec hstep
  obtain ⟨hrow, hcol, hbox⟩ := candidates_empty_testBit hempty hbit
  simp only [templateGenTrav]
  obtain ⟨sud, w, pc⟩ := s
  simp only
  congr 1
  exact unplace_place hwf hempty hd16 hrow hcol hbox

/-- The square symmetries map board cells to board cells. -/
theorem d4_act_lt : ∀ (g : D4) (c : Fin 81), g.act c.val < 81 := by decide

/-- The identity symmetry fixes every cell. -/
theorem d4_act_e (c : Nat) : D4.e.act c = c := by
  simp only [D4.act, D4.actRC]
  omega

/-- The cell action is compatible with composition on board cells. -/
theorem d4_act_comp : ∀ (g h : D4) (c : Fin 81),
    (D4.comp g h).act c.val = g.act (h.act c.val) := by decide

/-- The inverse symmetry undoes the action on board cells. -/
theorem d4_act_inv : ∀ (h : D4) (c : Fin 81),
    (D4.inv h).act (h.act c.val) = c.val := by decide

/-- A dihedral subgroup is closed under inverses. -/
theorem dihedral_inv_mem (G : DihedralSubgroup) {h : D4} (hm : h ∈ G.elems) :
    D4.inv h ∈ G.elems := by
  cases h
  · exact hm
  · -- r90: inverse is r270 = r90 ∘ r90 ∘ r90
    exact G.comp_mem _ (G.comp_mem _ hm _ hm) _ hm
  · exact hm
  · -- r270: inverse is r90 = r270 ∘ r270 ∘ r270
    exact G.comp_mem _ (G.comp_mem _ hm _ hm) _ hm
  · exact hm
  · exact hm
  · exact hm
  · exact hm

/-- Bit characterisation of maskFromIndices. -/
theorem maskFromIndices_testBit (l : List Nat) (j : Nat) :
    (maskFromIndices l).testBit j = true ↔ j ∈ l := by
  have haux : ∀ (l : List Nat) (acc : Nat),
      (l.foldl (fun acc x => acc ||| (1 <<< x)) acc).testBit j = true ↔
        (acc.testBit j = true ∨ j ∈ l) := by
    intro l
    induction l with
    | nil => intro acc; simp
    | cons x l ih =>
      intro acc
      rw [List.foldl_cons, ih]
      simp only [Nat.testBit_or, Bool.or_eq_true, testBit_shiftLeft_one,
        decide_eq_true_eq, List.mem_cons]
      constructor
      · rintro ((h | h) | h)
        · exact Or.inl h
        · exact Or.inr (Or.inl h)
        · exact Or.inr (Or.inr h)
      · rintro (h | h | h)
        · exact Or.inl (Or.inl h)
        · exact Or.inl (Or.inr h)
        · exact Or.inr h
  rw [maskFromIndices, haux]
  simp

/-- Nat-level action bound. -/
theorem d4_act_lt' (g : D4) {c : Nat} (hc : c < 81) : g.act c < 81 :=
  d4_act_lt g ⟨c, hc⟩

/-- Nat-level action-composition compatibility. -/
theorem d4_act_comp' (g h : D4) {c : Nat} (hc : c < 81) :
    (D4.comp g h).act c = g.act (h.act c) :=
  d4_act_comp g h ⟨c, hc⟩

/-- Nat-level action-inverse cancellation. -/
theorem d4_act_inv' (h : D4) {c : Nat} (hc : c < 81) :
    (D4.inv h).act (h.act c) = c :=
  d4_act_inv h ⟨c, hc⟩

/-- Bit characterisation of a cell's orbit mask. -/
theorem orbitMask_testBit (G : DihedralSubgroup) (c x : Nat) :
    (orbitMask G c).testBit x = true ↔ ∃ g ∈ G.elems, g.act c = x := by
  rw [orbitMask, maskFromIndices_testBit, orbitCells]
  simp [List.mem_map]

/-- Every cell lies in its own orbit. -/
theorem orbitMask_self (G : DihedralSubgroup) (c : Nat) :
    (orbitMask G c).testBit c = true :=
  (orbitMask_testBit G c c).mpr ⟨D4.e, G.e_mem, d4_act_e c⟩

/-- Orbit masks of board cells only contain board cells. -/
theorem orbitMask_bits_lt (G : DihedralSubgroup) {c x : Nat} (hc : c < 81)
    (h : (orbitMask G c).testBit x = true) : x < 81 := by
  obtain ⟨g, hg, rfl⟩ := (orbitMask_testBit G c x).mp h
  exact d4_act_lt' g hc

/-- Membership in an orbit is symmetric on board cells. -/
theorem orbitMask_symm (G : DihedralSubgroup) {c x : Nat} (hc : c < 81)
    (h : (orbitMask G c).testBit x = true) : (orbitMask G x).testBit c = true := by
  obtain ⟨g, hg, rfl⟩ := (orbitMask_testBit G c x).mp h
  exact (orbitMask_testBit G _ c).mpr
    ⟨D4.inv g, dihedral_inv_mem G hg, d4_act_inv' g hc⟩

/-- Clearing a bit that is already clear does nothing, within the
width. -/
theorem maskUnset_eq_self {w m d : Nat} (hm : m < 2 ^ w) (hbit : m.testBit d = false) :
    maskUnset w m d = m := by
  apply Nat.eq_of_testBit_eq
  intro i
  simp only [maskUnset, Nat.testBit_and, testBit_notW, testBit_shiftLeft_one]
  rcases eq_or_ne i d with rfl | hne
  · simp [hbit]
  · by_cases hiw : i < w
    · simp [hiw, hne]
    · have hfalse : m.testBit i = false :=
        Nat.testBit_lt_two_pow (lt_of_lt_of_le hm (Nat.pow_le_pow_right (by norm_num) (by omega)))
      simp [hiw, hne, hfalse]

/-- A mask built from indices below n is below 2 to the n. -/
theorem maskFromIndices_lt {l : List Nat} {n : Nat} (h : ∀ i ∈ l, i < n) :
    maskFromIndices l < 2 ^ n := by
  have haux : ∀ (l : List Nat), (∀ i ∈ l, i < n) → ∀ acc : Nat, acc < 2 ^ n →
      (l.foldl (fun acc x => acc ||| (1 <<< x)) acc) < 2 ^ n := by
    intro l
    induction l with
    | nil => intro _ acc hacc; exact hacc
    | cons x l ih =>
      intro hl acc hacc
      rw [List.foldl_cons]
      refine ih (fun i hi => hl i (List.mem_cons_of_mem x hi)) _ ?_
      refine Nat.or_lt_two_pow hacc ?_
      rw [Nat.one_shiftLeft]
      exact Nat.pow_lt_pow_right (by norm_num) (hl x (List.mem_cons_self x l))
  exact haux l h 0 (Nat.pos_pow_of_pos n (by norm_num))

/-- The orbit mask of a board cell is an 81-bit value. -/
theorem orbitMask_lt (G : DihedralSubgroup) {c : Nat} (hc : c < 81) :
    orbitMask G c < 2 ^ 81 := by
  refine maskFromIndices_lt ?_
  intro i hi
  rw [orbitCells, List.mem_map] at hi
  obtain ⟨g, hg, rfl⟩ := hi
  exact d4_act_lt' g hc

/-- trailing_zeros of a nonzero in-width value indexes a set bit. -/
theorem trailingZeros_testBit : ∀ (w : Nat) {x : Nat}, x ≠ 0 → x < 2 ^ w →
    x.testBit (trailingZeros w x) = true := by
  intro w
  induction w with
  | zero => intro x hx hlt; omega
  | succ w ih =>
    intro x hx hlt
    simp only [trailingZeros]
    by_cases hp : (x % 2 == 1) = true
    · rw [if_pos hp]
      simpa [Nat.testBit_zero] using hp
    · rw [if_neg hp]
      have hx2 : x % 2 = 0 := by
        rcases Nat.mod_two_eq_zero_or_one x with h | h
        · exact h
        · exact absurd (by simpa using h) hp
      rw [Nat.testBit_succ]
      exact ih (by omega) (by omega)

/-- log2W bounds every set bit of an in-width value from above. -/
theorem log2W_ge : ∀ (w : Nat) {x b : Nat}, x < 2 ^ w → x.testBit b = true →
    b ≤ log2W w x := by
  intro w
  induction w with
  | zero => intro x b hlt hbit; interval_cases x <;> simp_all
  | succ w ih =>
    intro x b hlt hbit
    simp only [log2W]
    by_cases h2 : 2 ≤ x
    · rw [if_pos h2]
      rcases b with _ | b
      · omega
      · rw [Nat.testBit_succ] at hbit
        have := ih (x := x / 2) (by omega) hbit
        omega
    · rw [if_neg h2]
      interval_cases x
      · simp at hbit
      · rw [show (1 : Nat) = 2 ^ 0 from rfl, Nat.testBit_two_pow] at hbit
        simp at hbit
        omega

/-- The candidate-window mask holds exactly the board cells from start
up. -/
theorem window_testBit (start j : Nat) :
    ((lowBits (81 - start) <<< start).testBit j = true) ↔ (start ≤ j ∧ j < 81) := by
  rw [Nat.testBit_shiftLeft, Bool.and_eq_true, testBit_lowBits]
  constructor
  · rintro ⟨h1, h2⟩
    have h1' : start ≤ j := by simpa using h1
    have h2' : j - start < 81 - start := by simpa using h2
    omega
  · rintro ⟨h1, h2⟩
    refine ⟨by simpa using h1, by simp; omega⟩

/-- Surviving the exclusion fold means surviving its initial mask. -/
theorem foldl_and_testBit_init {f : Nat → Nat} :
    ∀ (L : List Nat) (acc c : Nat),
      ((L.foldl (fun a i => a &&& notW 128 (f i)) acc).testBit c = true) →
      acc.testBit c = true := by
  intro L
  induction L with
  | nil => intro acc c h; exact h
  | cons x L ih =>
    intro acc c h
    rw [List.foldl_cons] at h
    have := ih _ _ h
    rw [Nat.testBit_and, Bool.and_eq_true] at this
    exact this.1

/-- Surviving the exclusion fold clears the bit from every excluded
mask. -/
theorem foldl_and_testBit_all {f : Nat → Nat} {c : Nat} (hc : c < 128) :
    ∀ (L : List Nat) (acc : Nat),
      ((L.foldl (fun a i => a &&& notW 128 (f i)) acc).testBit c = true) →
      ∀ i ∈ L, (f i).testBit c = false := by
  intro L
  induction L with
  | nil => intro acc h i hi; exact absurd hi (List.not_mem_nil i)
  | cons x L ih =>
    intro acc h i hi
    rw [List.foldl_cons] at h
    rcases List.mem_cons.mp hi with rfl | hi'
    · have h0 := foldl_and_testBit_init L _ _ h
      rw [Nat.testBit_and, Bool.and_eq_true, testBit_notW] at h0
      have h1 := h0.2
      rcases hb : (f i).testBit c with _ | _
      · rfl
      · rw [hb] at h1
        simp [hc] at h1
    · exact ih _ h i hi'

/-- Every in-width set bit appears in bitIndices. -/
theorem bitIndices_mem {w x i : Nat} (hi : i < w) (hbit : x.testBit i = true) :
    i ∈ bitIndices w x := by
  have haux : ∀ (w : Nat) (x pos i : Nat), i < w → x.testBit i = true →
      (pos + i) ∈ bitIndicesAux w x pos := by
    intro w
    induction w with
    | zero => intro x pos i hi _; omega
    | succ w ih =>
      intro x pos i hi hbit
      simp only [bitIndicesAux]
      rcases eq_or_ne x 0 with rfl | hx
      · simp at hbit
      · rw [if_neg hx]
        rcases i with _ | i
        · have h0 : x % 2 = 1 := by simpa [Nat.testBit_zero] using hbit
          rw [if_pos (by simpa using h0)]
          simp
        · rw [Nat.testBit_succ] at hbit
          have hmem := ih (x / 2) (pos + 1) i (by omega) hbit
          rw [show pos + (i + 1) = (pos + 1) + i from by omega]
          by_cases hp : (x % 2 == 1) = true
          · rw [if_pos hp]
            exact List.mem_cons_of_mem _ hmem
          · rw [if_neg hp]
            exact hmem
  have := haux w x 0 i hi hbit
  simpa using this

/-- The head of bitIndices bounds every in-width set bit from below. -/
theorem bitIndices_head_least {w x c : Nat} (h : (bitIndices w x).head? = some c) :
    ∀ q, q < w → x.testBit q = true → c ≤ q := by
  have haux : ∀ (w : Nat) (x pos c : Nat), (bitIndicesAux w x pos).head? = some c →
      ∀ q, q < w → x.testBit q = true → c ≤ pos + q := by
    intro w
    induction w with
    | zero => intro x pos c h q hq _; omega
    | succ w ih =>
      intro x pos c h q hq hbit
      simp only [bitIndicesAux] at h
      rcases eq_or_ne x 0 with rfl | hx
      · simp at h
      · rw [if_neg hx] at h
        by_cases hp : (x % 2 == 1) = true
        · rw [if_pos hp] at h
          simp only [List.head?_cons, Option.some.injEq] at h
          omega
        · rw [if_neg hp] at h
          have hx2 : x % 2 = 0 := by
            rcases Nat.mod_two_eq_zero_or_one x with h' | h'
            · exact h'
            · exact absurd (by simpa using h') hp
          rcases q with _ | q
          · exfalso
            have : x % 2 = 1 := by simpa [Nat.testBit_zero] using hbit
            omega
          · rw [Nat.testBit_succ] at hbit
            have := ih (x / 2) (pos + 1) c h q (by omega) hbit
            omega
  have := haux w x 0 c h
  intro q hq hbit
  simpa using this q hq hbit

/-- A nonzero in-width value has at least one set bit counted. -/
theorem countOnes_pos : ∀ (w : Nat) {x : Nat}, x ≠ 0 → x < 2 ^ w →
    1 ≤ countOnes w x := by
  intro w
  induction w with
  | zero => intro x hx hlt; omega
  | succ w ih =>
    intro x hx hlt
    simp only [countOnes]
    rcases Nat.mod_two_eq_zero_or_one x with h | h
    · have := ih (x := x / 2) (by omega) (by omega)
      omega
    · omega

/-- Counting a predicate weakened at exactly one fresh point adds the
point's multiplicity. -/
theorem countP_or_single {p q : Nat → Bool} {i : Nat}
    (hq : ∀ j, q j = (p j || (j == i))) (hpi : p i = false) :
    ∀ L : List Nat, L.countP q = L.countP p + L.count i := by
  intro L
  induction L with
  | nil => rfl
  | cons a L ih =>
    rw [List.countP_cons, List.countP_cons, List.count_cons, ih, hq a]
    by_cases ha : a = i
    · subst ha
      rw [hpi]
      simp +arith
    · have h1 : (a == i) = false := by simpa using ha
      rw [h1]
      simp +arith

/-- Each board cell occurs once in the scan range. -/
theorem count_range_eq_one {i n : Nat} (h : i < n) : (List.range n).count i = 1 :=
  List.count_eq_one_of_mem (List.nodup_range _) (List.mem_range.mpr h)

/-- Bit reading of maskSet. -/
theorem maskSet_testBit (m b i : Nat) :
    (maskSet m b).testBit i = (m.testBit i || (i == b)) := by
  rw [maskSet, Nat.testBit_or, testBit_shiftLeft_one]
  rcases eq_or_ne i b with rfl | hne
  · simp
  · simp [hne]

/-- Bit reading of maskUnset for in-width masks. -/
theorem maskUnset_testBit {w m : Nat} (b i : Nat) (hm : m < 2 ^ w) :
    (maskUnset w m b).testBit i = (m.testBit i && !(i == b)) := by
  rw [maskUnset, Nat.testBit_and, testBit_notW, testBit_shiftLeft_one]
  by_cases hiw : i < w
  · rcases eq_or_ne i b with rfl | hne
    · simp [hiw]
    · simp [hiw, hne]
  · have hfalse : m.testBit i = false :=
      Nat.testBit_lt_two_pow (lt_of_lt_of_le hm (Nat.pow_le_pow_right (by norm_num) (by omega)))
    simp [hfalse]

/-- An OR-fold of bounded masks is bounded. -/
theorem foldl_or_lt {n : Nat} :
    ∀ (L : List Nat), (∀ m ∈ L, m < 2 ^ n) → ∀ acc, acc < 2 ^ n →
      (L.foldl (· ||| ·) acc) < 2 ^ n := by
  intro L
  induction L with
  | nil => intro _ acc hacc; exact hacc
  | cons x L ih =>
    intro hL acc hacc
    rw [List.foldl_cons]
    exact ih (fun m hm => hL m (List.mem_cons_of_mem x hm)) _
      (Nat.or_lt_two_pow hacc (hL x (List.mem_cons_self x L)))

/-- Bit reading of an OR-fold. -/
theorem foldl_or_testBit (i : Nat) :
    ∀ (L : List Nat) (acc : Nat),
      ((L.foldl (· ||| ·) acc).testBit i = true) ↔
        (acc.testBit i = true ∨ ∃ m ∈ L, m.testBit i = true) := by
  intro L
  induction L with
  | nil => intro acc; simp
  | cons x L ih =>
    intro acc
    rw [List.foldl_cons, ih]
    simp only [Nat.testBit_or, Bool.or_eq_true, List.mem_cons]
    constructor
    · rintro ((h | h) | ⟨m, hm, hb⟩)
      · exact Or.inl h
      · exact Or.inr ⟨x, Or.inl rfl, h⟩
      · exact Or.inr ⟨m, Or.inr hm, hb⟩
    · rintro (h | ⟨m, rfl | hm, hb⟩)
      · exact Or.inl (Or.inl h)
      · exact Or.inl (Or.inr hb)
      · exact Or.inr ⟨m, hm, hb⟩

/-- The orbit table lists the orbit mask of each board cell. -/
theorem orbitMasks_getD (G : DihedralSubgroup) {c : Nat} (hc : c < 81) :
    (orbitMasks G).getD c 0 = orbitMask G c := by
  rw [orbitMasks, List.getD_eq_getElem _ _ (by simpa using hc)]
  simp

/-- Bit reading of the clue mask. -/
theorem clueMask_testBit (g : RegionMaskedSudoku) (i : Nat) :
    ((clueMask g).testBit i = true) ↔ (i < 81 ∧ g.sudoku.getD i 0 ≠ 0) := by
  rw [clueMask, maskFromIndices_testBit, List.mem_filter, List.mem_range]
  simp [RegionMaskedSudoku.is_empty]

/-- The clue mask is an 81-bit value. -/
theorem clueMask_lt (g : RegionMaskedSudoku) : clueMask g < 2 ^ 81 := by
  refine maskFromIndices_lt ?_
  intro i hi
  rw [List.mem_filter] at hi
  exact List.mem_range.mp hi.1

/-- Every set bit lies below the window start computed from
bitmask max. -/
theorem bitmaskMax_start_gt {x b : Nat} (hx : x < 2 ^ 128) (hb : x.testBit b = true) :
    b < ((bitmaskMax 128 x).map (· + 1)).getD 0 := by
  rcases eq_or_ne x 0 with rfl | hx0
  · simp at hb
  · rw [bitmaskMax, if_neg hx0]
    show b < log2W 128 x + 1
    have := log2W_ge 128 hx hb
    omega

/-- Placing a fresh non-clue digit raises the new-clue count by one. -/
theorem numNewClues_place {C : Nat} {g : RegionMaskedSudoku} {idx d : Nat}
    (h81 : g.sudoku.length = 81) (hidx : idx < 81) (hempty : g.sudoku.getD idx 0 = 0)
    (hd : d ≠ 0) (hC : C.testBit idx = false) :
    numNewClues C (g.place idx d) = numNewClues C g + 1 := by
  have hq : ∀ j, (fun i => decide ((g.place idx d).sudoku.getD i 0 ≠ 0) && !(C.testBit i)) j
      = ((fun i => decide (g.sudoku.getD i 0 ≠ 0) && !(C.testBit i)) j || (j == idx)) := by
    intro j
    show (decide ((g.sudoku.set idx d).getD j 0 ≠ 0) && !(C.testBit j))
      = (decide (g.sudoku.getD j 0 ≠ 0) && !(C.testBit j) || (j == idx))
    rw [list_getD_set]
    rcases eq_or_ne j idx with rfl | hne
    · rw [if_pos ⟨rfl, by omega⟩]
      simp [hd, hC, hempty]
    · rw [if_neg (fun hcon => hne hcon.1)]
      have hb : (j == idx) = false := by simpa using hne
      rw [hb]
      simp
  have hpi : (fun i => decide (g.sudoku.getD i 0 ≠ 0) && !(C.testBit i)) idx = false := by
    show (decide (g.sudoku.getD idx 0 ≠ 0) && !(C.testBit idx)) = false
    rw [hempty]
    simp
  have hcnt := countP_or_single hq hpi (List.range 81)
  rw [numNewClues, numNewClues, hcnt, count_range_eq_one hidx]

/-- What membership in the PlusN traversable's next_steps gives. -/
theorem plusN_next_steps_spec {s : PlusNSearchState} {step : PlusNSearchStep}
    (h : step ∈ plusNTrav.next_steps s) :
    (∃ idx d, step = .PlaceDigit idx d ∧ s.pending_placement = some idx ∧ d < 16 ∧
      (s.sudoku.candidates idx).testBit d = true) ∨
    (∃ cell, step = .AddCell cell ∧ s.pending_placement = none ∧
      ((s.required_cells ≠ 0 ∧ cell = trailingZeros 128 s.required_cells) ∨
       (s.required_cells = 0 ∧ s.allowed_cells.testBit cell = true ∧
        ((bitmaskMax 128 s.placed_cells).map (· + 1)).getD 0 ≤ cell ∧ cell < 81))) := by
  simp only [plusNTrav] at h
  split at h
  · rename_i idx heq
    rw [List.mem_map] at h
    obtain ⟨d, hd, rfl⟩ := h
    obtain ⟨hd16, hdbit⟩ := mem_bitIndices hd
    exact Or.inl ⟨idx, d, rfl, heq, hd16, hdbit⟩
  · rename_i heq
    split at h
    · rename_i hreq
      rw [List.mem_singleton] at h
      subst h
      exact Or.inr ⟨_, rfl, heq, Or.inl ⟨hreq, rfl⟩⟩
    · rename_i hreq
      split at h
      · rw [List.mem_map] at h
        obtain ⟨cell, hcell, rfl⟩ := h
        obtain ⟨hc128, hcbit⟩ := mem_bitIndices hcell
        rw [Nat.testBit_and, Bool.and_eq_true] at hcbit
        obtain ⟨hwin, hallowed⟩ := hcbit
        rw [window_testBit] at hwin
        exact Or.inr ⟨cell, rfl, heq, Or.inr ⟨not_not.mp hreq, hallowed, hwin.1, hwin.2⟩⟩
      · simp at h

/-- The root state of the PlusN search satisfies the search invariant. -/
theorem plusNInv_root (G : DihedralSubgroup) (n : Nat) (sudoku₀ : RegionMaskedSudoku)
    (excluded : List (Nat × Nat)) (hwf : GridWF sudoku₀) :
    PlusNInv G (clueMask sudoku₀) n
      (PlusNSearchState.for_sudoku_and_symmetry n sudoku₀ G excluded) := by
  have hCbits : ∀ i, (clueMask sudoku₀).testBit i = true → i < 81 :=
    fun i hi => ((clueMask_testBit _ i).mp hi).1
  have hU : (((bitIndices 128 (clueMask sudoku₀)).map
      fun cell => (orbitMasks G).getD cell 0).foldl (· ||| ·) 0) < 2 ^ 81 := by
    refine foldl_or_lt _ ?_ 0 (Nat.pos_pow_of_pos _ (by norm_num))
    intro m hm
    rw [List.mem_map] at hm
    obtain ⟨cell, hcell, rfl⟩ := hm
    have hc81 : cell < 81 := hCbits cell (mem_bitIndices hcell).2
    rw [orbitMasks_getD G hc81]
    exact orbitMask_lt G hc81
  have hRbit : ∀ i,
      ((((bitIndices 128 (clueMask sudoku₀)).map
        fun cell => (orbitMasks G).getD cell 0).foldl (· ||| ·) 0) &&&
          notW 128 (clueMask sudoku₀)).testBit i = true →
      i < 81 ∧ (clueMask sudoku₀).testBit i = false ∧
      ∃ cellC, (clueMask sudoku₀).testBit cellC = true ∧ cellC < 81 ∧
        (orbitMask G cellC).testBit i = true := by
    intro i hi
    rw [Nat.testBit_and, Bool.and_eq_true] at hi
    obtain ⟨hiU, hiN⟩ := hi
    rw [foldl_or_testBit] at hiU
    rcases hiU with h0 | ⟨m, hm, hb⟩
    · simp at h0
    · rw [List.mem_map] at hm
      obtain ⟨cell, hcell, rfl⟩ := hm
      have hc81 : cell < 81 := hCbits cell (mem_bitIndices hcell).2
      rw [orbitMasks_getD G hc81] at hb
      have hi81 : i < 81 := orbitMask_bits_lt G hc81 hb
      refine ⟨hi81, ?_, cell, (mem_bitIndices hcell).2, hc81, hb⟩
      rw [testBit_notW] at hiN
      rcases hcb : (clueMask sudoku₀).testBit i with _ | _
      · rfl
      · rw [hcb] at hiN
        simp [show i < 128 by omega] at hiN
  suffices key : PlusNInv G (clueMask sudoku₀) n
      { sudoku := sudoku₀
        orbits := orbitMasks G
        allowed_cells := (((excluded.map fun (p : Nat × Nat) => 9 * p.1 + p.2) ++
          bitIndices 128 (clueMask sudoku₀)).foldl
            (fun acc idx => acc &&& notW 128 ((orbitMasks G).getD idx 0))
            (maskFromIndices ((List.range 81).filter fun idx =>
              (bitIndices 128 ((orbitMasks G).getD idx 0)).head? == some idx)))
        required_cells := ((((bitIndices 128 (clueMask sudoku₀)).map
          fun cell => (orbitMasks G).getD cell 0).foldl (· ||| ·) 0) &&&
            notW 128 (clueMask sudoku₀))
        placed_cells := 0
        pending_placement := none
        placements_remaining := n } by exact key
  unfold PlusNInv
  dsimp only
  refine ⟨rfl, hwf, Nat.pos_pow_of_pos _ (by norm_num),
    lt_of_le_of_lt Nat.and_le_left hU, ?_, ?_, ?_, ?_, ?_, ?_, ?_, ?_, ?_, ?_⟩
  · -- allowed cells are head cells outside clue orbits
    intro c hc
    have h0 := foldl_and_testBit_init _ _ _ hc
    rw [maskFromIndices_testBit, List.mem_filter, List.mem_range] at h0
    obtain ⟨hc81, hhead⟩ := h0
    have hhead' : (bitIndices 128 ((orbitMasks G).getD c 0)).head? = some c :=
      eq_of_beq hhead
    rw [orbitMasks_getD G hc81] at hhead'
    refine ⟨hc81, ?_, ?_⟩
    · intro q hq
      exact bitIndices_head_least hhead' q
        (by have := orbitMask_bits_lt G hc81 hq; omega) hq
    · intro j hj
      have hj81 : j < 81 := hCbits j hj
      have hmem : j ∈ ((excluded.map fun (p : Nat × Nat) => 9 * p.1 + p.2) ++
          bitIndices 128 (clueMask sudoku₀)) :=
        List.mem_append_right _ (bitIndices_mem (by omega) hj)
      have hall := foldl_and_testBit_all (by omega) _ _ hc j hmem
      rw [orbitMasks_getD G hj81] at hall
      exact hall
  · -- nothing is placed at the root
    intro i _
    exact Nat.zero_testBit i
  · -- each required cell has a clue anchor outside the required set
    intro i hi
    obtain ⟨hi81, hCi, cellC, hcellC, hc81, horb⟩ := hRbit i hi
    refine ⟨cellC, orbitMask_symm G hc81 horb, ?_, Or.inl hcellC⟩
    rw [Nat.testBit_and, testBit_notW, hcellC]
    simp [show cellC < 128 by omega]
  · -- required cells are empty
    intro i hi
    obtain ⟨hi81, hCi, -⟩ := hRbit i hi
    by_contra hfill
    have hc := (clueMask_testBit sudoku₀ i).mpr ⟨hi81, hfill⟩
    rw [hc] at hCi
    exact Bool.noConfusion hCi
  · -- no pending placement at the root
    intro idx h
    exact Option.noConfusion h
  · -- no placed cells at the root
    intro p hp
    rw [Nat.zero_testBit] at hp
    exact Bool.noConfusion hp
  · -- filled cells are clue cells, anchored to themselves
    intro i hi81 hfill
    exact ⟨i, Or.inl ((clueMask_testBit sudoku₀ i).mpr ⟨hi81, hfill⟩), orbitMask_self G i⟩
  · -- clue cells are filled
    intro i hi
    exact (clueMask_testBit sudoku₀ i).mp hi
  · -- no placed orbits to cover
    intro p hp
    rw [Nat.zero_testBit] at hp
    exact Bool.noConfusion hp
  · -- the clue count balances
    have h0 : numNewClues (clueMask sudoku₀) sudoku₀ = 0 := by
      rw [numNewClues, List.countP_eq_zero]
      intro i hi
      intro hp
      rw [Bool.and_eq_true] at hp
      obtain ⟨h1, h2⟩ := hp
      rw [(clueMask_testBit sudoku₀ i).mpr ⟨List.mem_range.mp hi, by simpa using h1⟩] at h2
      simp at h2
    rw [h0]
    show 0 + 0 + n = n
    omega

/-- Orbit masks are constant on an orbit. -/
theorem orbitMask_eq_of_mem (G : DihedralSubgroup) {c x : Nat} (hc : c < 81)
    (h : (orbitMask G c).testBit x = true) : orbitMask G x = orbitMask G c := by
  obtain ⟨g0, hg0, rfl⟩ := (orbitMask_testBit G c x).mp h
  apply Nat.eq_of_testBit_eq
  intro y
  rw [Bool.eq_iff_iff, orbitMask_testBit, orbitMask_testBit]
  constructor
  · rintro ⟨g, hg, rfl⟩
    refine ⟨D4.comp g g0, G.comp_mem g hg g0 hg0, ?_⟩
    rw [d4_act_comp' g g0 hc]
  · rintro ⟨g, hg, rfl⟩
    refine ⟨D4.comp g (D4.inv g0), G.comp_mem g hg (D4.inv g0) (dihedral_inv_mem G hg0), ?_⟩
    rw [d4_act_comp' g (D4.inv g0) (d4_act_lt' g0 hc), d4_act_inv' g0 hc]

/-- Set bits of a bounded mask are bounded. -/
theorem testBit_lt_of_lt_two_pow {x i n : Nat} (hx : x < 2 ^ n)
    (hb : x.testBit i = true) : i < n := by
  by_contra h
  rw [Nat.testBit_lt_two_pow
    (lt_of_lt_of_le hx (Nat.pow_le_pow_right (by norm_num) (by omega)))] at hb
  exact Bool.noConfusion hb

/-- What an unpruned PlusN state satisfies. -/
theorem plusN_prune_false {s : PlusNSearchState} (h : plusNTrav.should_prune s = false) :
    countOnes 128 s.required_cells ≤ s.placements_remaining ∧
    (s.pending_placement = none → s.placements_remaining ≠ 0) := by
  simp only [plusNTrav] at h
  rw [Bool.or_eq_false_iff] at h
  obtain ⟨h1, h2⟩ := h
  constructor
  · simpa using h1
  · intro hpend hrem0
    rw [hpend] at h2
    simp [hrem0] at h2

/-- Preservation of the PlusN invariant by a pending digit placement. -/
theorem plusNInv_placeDigit {G : DihedralSubgroup} {C n : Nat} {s : PlusNSearchState}
    {idx d : Nat} (hinv : PlusNInv G C n s) (hpend : s.pending_placement = some idx)
    (hdbit : (s.sudoku.candidates idx).testBit d = true) :
    PlusNInv G C n
      { s with sudoku := s.sudoku.place idx d, pending_placement := none } := by
  obtain ⟨hOrb, hWF, hP81, hR81, hAllowed, hJ, hK, hRE, hM, hHeads, hS, hCfill, hCL,
    hCNT⟩ := hinv
  obtain ⟨hidx81, hempty, hRidx, p0, hp0anchor, hp0orb⟩ := hM idx hpend
  have h81 : s.sudoku.sudoku.length = 81 := hWF.1
  have hd0 : d ≠ 0 := by
    intro hd0
    subst hd0
    obtain ⟨hrow, -, -⟩ := candidates_empty_testBit hempty hdbit
    have hri : ROW_INDICES.getD idx 0 < s.sudoku.rows.length := by
      rw [hWF.2.1]
      exact row_indices_lt idx
    have hmem := hWF.2.2.2.2.1 _ (getD_mem_of_lt hri)
    rw [Nat.testBit_zero] at hrow
    have : s.sudoku.rows.getD (ROW_INDICES.getD idx 0) 0 % 2 = 1 := by
      simpa using hrow
    omega
  have hCidx : C.testBit idx = false := by
    rcases hb : C.testBit idx with _ | _
    · rfl
    · exact absurd hempty (hCfill idx hb).2
  have hgetD : ∀ i, (s.sudoku.place idx d).sudoku.getD i 0 =
      if i = idx then d else s.sudoku.sudoku.getD i 0 := by
    intro i
    show (s.sudoku.sudoku.set idx d).getD i 0 = _
    rw [list_getD_set]
    rcases eq_or_ne i idx with rfl | hne
    · rw [if_pos ⟨rfl, by omega⟩, if_pos rfl]
    · rw [if_neg (fun hcon => hne hcon.1), if_neg hne]
  unfold PlusNInv
  dsimp only
  refine ⟨hOrb, gridWF_place hWF idx d, hP81, hR81, hAllowed, hJ, hK, ?_, ?_, hHeads,
    ?_, ?_, ?_, ?_⟩
  · -- required cells stay empty
    intro i hi
    rw [hgetD]
    rcases eq_or_ne i idx with rfl | hne
    · rw [hRidx] at hi
      exact Bool.noConfusion hi
    · rw [if_neg hne]
      exact hRE i hi
  · -- no pending placement afterwards
    intro idx' h
    exact Option.noConfusion h
  · -- filled cells stay anchored
    intro i hi81 hfill
    rw [hgetD] at hfill
    rcases eq_or_ne i idx with rfl | hne
    · exact ⟨p0, hp0anchor, hp0orb⟩
    · rw [if_neg hne] at hfill
      exact hS i hi81 hfill
  · -- clue cells stay filled
    intro i hi
    obtain ⟨hi81, hfil⟩ := hCfill i hi
    refine ⟨hi81, ?_⟩
    rw [hgetD]
    rcases eq_or_ne i idx with rfl | hne
    · rw [if_pos rfl]
      exact hd0
    · rw [if_neg hne]
      exact hfil
  · -- placed orbits stay covered
    intro p hp j hj
    rcases hCL p hp j hj with hfil | hreq | hpendj
    · left
      rw [hgetD]
      rcases eq_or_ne j idx with rfl | hne
      · rw [if_pos rfl]
        exact hd0
      · rw [if_neg hne]
        exact hfil
    · right
      left
      exact hreq
    · left
      rw [hpend] at hpendj
      have hji : j = idx := (Option.some.inj hpendj).symm
      rw [hgetD, if_pos hji]
      exact hd0
  · -- the clue count balances
    show numNewClues C (s.sudoku.place idx d) + 0 + s.placements_remaining = n
    rw [numNewClues_place h81 hidx81 hempty hd0 hCidx]
    have hpc : pendCount s = 1 := by
      unfold pendCount
      rw [hpend]
    omega

/-- Preservation of the PlusN invariant by adding the least required
cell. -/
theorem plusNInv_addRequired {G : DihedralSubgroup} {C n : Nat} {s : PlusNSearchState}
    (hinv : PlusNInv G C n s) (hprune : plusNTrav.should_prune s = false)
    (hpend : s.pending_placement = none) (hreq : s.required_cells ≠ 0) :
    PlusNInv G C n
      { s with
        required_cells := maskUnset 128 s.required_cells (trailingZeros 128 s.required_cells),
        pending_placement := some (trailingZeros 128 s.required_cells),
        placements_remaining := s.placements_remaining - 1 } := by
  obtain ⟨hOrb, hWF, hP81, hR81, hAllowed, hJ, hK, hRE, hM, hHeads, hS, hCfill, hCL,
    hCNT⟩ := hinv
  have hR128 : s.required_cells < 2 ^ 128 :=
    lt_of_lt_of_le hR81 (Nat.pow_le_pow_right (by norm_num) (by norm_num))
  have hbit : s.required_cells.testBit (trailingZeros 128 s.required_cells) = true :=
    trailingZeros_testBit 128 hreq hR128
  have hc81 : trailingZeros 128 s.required_cells < 81 :=
    testBit_lt_of_lt_two_pow hR81 hbit
  have hchar : ∀ i, (maskUnset 128 s.required_cells
      (trailingZeros 128 s.required_cells)).testBit i =
      (s.required_cells.testBit i && !(i == trailingZeros 128 s.required_cells)) :=
    fun i => maskUnset_testBit _ i hR128
  have hrem : 1 ≤ s.placements_remaining := by
    obtain ⟨hcnt, hrem0⟩ := plusN_prune_false hprune
    have := countOnes_pos 128 hreq hR128
    omega
  unfold PlusNInv
  dsimp only
  refine ⟨hOrb, hWF, hP81, ?_, hAllowed, ?_, ?_, ?_, ?_, hHeads, hS, hCfill, ?_, ?_⟩
  · -- the shrunk required mask stays in width
    exact lt_of_le_of_lt Nat.and_le_left hR81
  · -- required cells remain unplaced
    intro i hi
    rw [hchar i, Bool.and_eq_true] at hi
    exact hJ i hi.1
  · -- required cells keep an anchored orbit-mate outside the set
    intro i hi
    rw [hchar i, Bool.and_eq_true] at hi
    obtain ⟨r, hr1, hr2, hr3⟩ := hK i hi.1
    exact ⟨r, hr1, by rw [hchar r, hr2, Bool.false_and], hr3⟩
  · -- required cells stay empty
    intro i hi
    rw [hchar i, Bool.and_eq_true] at hi
    exact hRE i hi.1
  · -- the new pending cell is empty and anchored
    intro idx' h
    have hidx : idx' = trailingZeros 128 s.required_cells := Option.some.inj h.symm
    subst hidx
    refine ⟨hc81, hRE _ hbit, ?_, ?_⟩
    · rw [hchar]
      simp
    · obtain ⟨r, hr1, hr2, hr3⟩ := hK _ hbit
      exact ⟨r, hr3, orbitMask_symm G hc81 hr1⟩
  · -- the orbit of each placed cell stays covered
    intro p hp j hj
    rcases hCL p hp j hj with hfil | hreqj | hpendj
    · exact Or.inl hfil
    · rcases eq_or_ne j (trailingZeros 128 s.required_cells) with rfl | hne
      · exact Or.inr (Or.inr rfl)
      · refine Or.inr (Or.inl ?_)
        rw [hchar j, hreqj, Bool.true_and]
        simpa using hne
    · rw [hpend] at hpendj
      exact Option.noConfusion hpendj
  · -- the clue count balances
    show numNewClues C s.sudoku + 1 + (s.placements_remaining - 1) = n
    have hpc : pendCount s = 0 := by
      unfold pendCount
      rw [hpend]
    omega

/-- Preservation of the PlusN invariant by adding a fresh candidate
cell from the search window. -/
theorem plusNInv_addCandidate {G : DihedralSubgroup} {C n : Nat} {s : PlusNSearchState}
    {cell : Nat} (hinv : PlusNInv G C n s) (hprune : plusNTrav.should_prune s = false)
    (hpend : s.pending_placement = none) (hreq0 : s.required_cells = 0)
    (hall : s.allowed_cells.testBit cell = true)
    (hwin : ((bitmaskMax 128 s.placed_cells).map (· + 1)).getD 0 ≤ cell) :
    PlusNInv G C n
      { s with
        required_cells := maskUnset 128 (orbitMask G cell) cell,
        placed_cells := maskSet s.placed_cells cell,
        pending_placement := some cell,
        placements_remaining := s.placements_remaining - 1 } := by
  obtain ⟨hOrb, hWF, hP81, hR81, hAllowed, hJ, hK, hRE, hM, hHeads, hS, hCfill, hCL,
    hCNT⟩ := hinv
  obtain ⟨hc81, hhead, hCorb⟩ := hAllowed cell hall
  have hP128 : s.placed_cells < 2 ^ 128 :=
    lt_of_lt_of_le hP81 (Nat.pow_le_pow_right (by norm_num) (by norm_num))
  have hplacedcell : s.placed_cells.testBit cell = false := by
    rcases hpc : s.placed_cells.testBit cell with _ | _
    · rfl
    · have := bitmaskMax_start_gt hP128 hpc
      omega
  have hOM128 : orbitMask G cell < 2 ^ 128 :=
    lt_of_lt_of_le (orbitMask_lt G hc81) (Nat.pow_le_pow_right (by norm_num) (by norm_num))
  have hchar : ∀ i, (maskUnset 128 (orbitMask G cell) cell).testBit i =
      ((orbitMask G cell).testBit i && !(i == cell)) :=
    fun i => maskUnset_testBit cell i hOM128
  have hpchar : ∀ i, (maskSet s.placed_cells cell).testBit i =
      (s.placed_cells.testBit i || (i == cell)) :=
    maskSet_testBit s.placed_cells cell
  have hanchor81 : ∀ p, (C.testBit p = true ∨ s.placed_cells.testBit p = true) → p < 81 := by
    intro p hp
    rcases hp with h | h
    · exact (hCfill p h).1
    · exact testBit_lt_of_lt_two_pow hP81 h
  unfold PlusNInv
  dsimp only
  refine ⟨hOrb, hWF, ?_, ?_, hAllowed, ?_, ?_, ?_, ?_, ?_, ?_, hCfill, ?_, ?_⟩
  · -- the grown placed mask stays in width
    exact Nat.or_lt_two_pow hP81
      (by rw [Nat.one_shiftLeft]; exact Nat.pow_lt_pow_right (by norm_num) hc81)
  · -- the new required mask stays in width
    exact lt_of_le_of_lt Nat.and_le_left (orbitMask_lt G hc81)
  · -- required cells remain unplaced
    intro i hi
    rw [hchar i, Bool.and_eq_true] at hi
    obtain ⟨horb, hne'⟩ := hi
    have hne : i ≠ cell := by simpa using hne'
    rw [hpchar i, Bool.or_eq_false_iff]
    refine ⟨?_, by simpa using hne⟩
    rcases hpi : s.placed_cells.testBit i with _ | _
    · rfl
    · exfalso
      have h1 : i ≤ cell := hHeads i hpi cell (by
        rw [orbitMask_eq_of_mem G hc81 horb]
        exact orbitMask_self G cell)
      have h2 : cell ≤ i := hhead i horb
      exact hne (le_antisymm h1 h2)
  · -- required cells keep an anchored orbit-mate outside the set
    intro i hi
    rw [hchar i, Bool.and_eq_true] at hi
    refine ⟨cell, orbitMask_symm G hc81 hi.1, by rw [hchar]; simp, Or.inr ?_⟩
    rw [hpchar]
    simp
  · -- required cells are empty
    intro i hi
    rw [hchar i, Bool.and_eq_true] at hi
    obtain ⟨horb, hne'⟩ := hi
    have hne : i ≠ cell := by simpa using hne'
    rcases hfil : s.sudoku.sudoku.getD i 0 with _ | v
    · rfl
    · exfalso
      have hi81 : i < 81 := orbitMask_bits_lt G hc81 horb
      obtain ⟨p, hpa, hporb⟩ := hS i hi81 (by rw [hfil]; exact Nat.succ_ne_zero v)
      have hp81 : p < 81 := hanchor81 p hpa
      have heq : orbitMask G i = orbitMask G p := orbitMask_eq_of_mem G hp81 hporb
      have heq2 : orbitMask G i = orbitMask G cell := orbitMask_eq_of_mem G hc81 horb
      have hpc : (orbitMask G p).testBit cell = true := by
        rw [← heq, heq2]
        exact orbitMask_self G cell
      rcases hpa with hpC | hpp
      · rw [hCorb p hpC] at hpc
        exact Bool.noConfusion hpc
      · have h1 : p ≤ cell := hHeads p hpp cell hpc
        have h2 : cell ≤ p := hhead p (by rw [← heq2, heq]; exact orbitMask_self G p)
        have : p = cell := le_antisymm h1 h2
        rw [this, hplacedcell] at hpp
        exact Bool.noConfusion hpp
  · -- the new pending cell is empty and anchored
    intro idx' h
    have hidx : idx' = cell := Option.some.inj h.symm
    rw [hidx]
    refine ⟨hc81, ?_, by rw [hchar]; simp, cell, Or.inr (by rw [hpchar]; simp),
      orbitMask_self G cell⟩
    rcases hfil : s.sudoku.sudoku.getD cell 0 with _ | v
    · rfl
    · exfalso
      obtain ⟨p, hpa, hporb⟩ := hS cell hc81 (by rw [hfil]; exact Nat.succ_ne_zero v)
      have hp81 : p < 81 := hanchor81 p hpa
      rcases hpa with hpC | hpp
      · rw [hCorb p hpC] at hporb
        exact Bool.noConfusion hporb
      · have heq : orbitMask G cell = orbitMask G p := orbitMask_eq_of_mem G hp81 hporb
        have h1 : p ≤ cell := hHeads p hpp cell hporb
        have h2 : cell ≤ p := hhead p (by rw [heq]; exact orbitMask_self G p)
        have : p = cell := le_antisymm h1 h2
        rw [this, hplacedcell] at hpp
        exact Bool.noConfusion hpp
  · -- placed cells are minimal in their orbits
    intro p hp q hq
    rw [hpchar p, Bool.or_eq_true] at hp
    rcases hp with hold | hcellp
    · exact hHeads p hold q hq
    · have : p = cell := by simpa using hcellp
      subst this
      exact hhead q hq
  · -- filled cells stay anchored
    intro i hi81 hfil
    obtain ⟨p, hpa, hpo⟩ := hS i hi81 hfil
    refine ⟨p, ?_, hpo⟩
    rcases hpa with h | h
    · exact Or.inl h
    · right
      rw [hpchar p, h]
      rfl
  · -- the orbit of each placed cell is covered
    intro p hp j hj
    rw [hpchar p, Bool.or_eq_true] at hp
    rcases hp with hold | hcellp
    · rcases hCL p hold j hj with hfil | hreqj | hpendj
      · exact Or.inl hfil
      · rw [hreq0, Nat.zero_testBit] at hreqj
        exact Bool.noConfusion hreqj
      · rw [hpend] at hpendj
        exact Option.noConfusion hpendj
    · have hpcell : p = cell := by simpa using hcellp
      rw [hpcell] at hj
      rcases eq_or_ne j cell with rfl | hne
      · exact Or.inr (Or.inr rfl)
      · refine Or.inr (Or.inl ?_)
        rw [hchar j, hj, Bool.true_and]
        simpa using hne
  · -- the clue count balances
    show numNewClues C s.sudoku + 1 + (s.placements_remaining - 1) = n
    have hpc : pendCount s = 0 := by
      unfold pendCount
      rw [hpend]
    have hrem : s.placements_remaining ≠ 0 := (plusN_prune_false hprune).2 hpend
    omega

/-- Every step offered on an unpruned state preserves the PlusN search
invariant. -/
theorem plusNInv_preserved {G : DihedralSubgroup} {C n : Nat} {s : PlusNSearchState}
    {step : PlusNSearchStep} (hinv : PlusNInv G C n s)
    (hprune : plusNTrav.should_prune s = false)
    (hstep : step ∈ plusNTrav.next_steps s) :
    PlusNInv G C n (plusNTrav.apply_step s step) := by
  rcases plusN_next_steps_spec hstep with ⟨idx, d, rfl, hpend, hd16, hdbit⟩ |
    ⟨cell, rfl, hpend, hcase⟩
  · exact plusNInv_placeDigit hinv hpend hdbit
  · rcases hcase with ⟨hreq, rfl⟩ | ⟨hreq0, hall, hstart, hc81⟩
    · have key := plusNInv_addRequired hinv hprune hpend hreq
      simp only [plusNTrav]
      rw [if_neg hreq]
      exact key
    · have key := plusNInv_addCandidate hinv hprune hpend hreq0 hall hstart
      simp only [plusNTrav]
      rw [if_pos hreq0]
      dsimp only
      have horb : s.orbits.getD cell 0 = orbitMask G cell := by
        rw [hinv.1, orbitMasks_getD G hc81]
      rw [horb]
      exact key

/-- Every state the PlusN search reaches from its root satisfies the
search invariant. -/
theorem plusN_reachable_inv {G : DihedralSubgroup} {n : Nat}
    {sudoku₀ : RegionMaskedSudoku} {excluded : List (Nat × Nat)} {s : PlusNSearchState}
    (hwf : GridWF sudoku₀)
    (h : TravReachable plusNTrav
      (PlusNSearchState.for_sudoku_and_symmetry n sudoku₀ G excluded) s) :
    PlusNInv G (clueMask sudoku₀) n s := by
  induction h with
  | base => exact plusNInv_root G n sudoku₀ excluded hwf
  | step hreach hprune hstep ih => exact plusNInv_preserved ih hprune hstep

/-- C5, PlusN half: applying a next_steps step of an invariant-satisfying
unpruned PlusN state and reverting it restores the state. -/
theorem plusN_roundtrip {G : DihedralSubgroup} {C n : Nat} {s : PlusNSearchState}
    {step : PlusNSearchStep} (hinv : PlusNInv G C n s)
    (hprune : plusNTrav.should_prune s = false)
    (hstep : step ∈ plusNTrav.next_steps s) :
    plusNTrav.revert_step (plusNTrav.apply_step s step) step = s := by
  obtain ⟨hOrb, hWF, hP81, hR81, hAllowed, hJ, hK, hRE, hM, hHeads, hS, hCfill, hCL,
    hCNT⟩ := hinv
  have hP128 : s.placed_cells < 2 ^ 128 :=
    lt_of_lt_of_le hP81 (Nat.pow_le_pow_right (by norm_num) (by norm_num))
  have hR128 : s.required_cells < 2 ^ 128 :=
    lt_of_lt_of_le hR81 (Nat.pow_le_pow_right (by norm_num) (by norm_num))
  rcases plusN_next_steps_spec hstep with ⟨idx, d, rfl, hpend, hd16, hdbit⟩ |
    ⟨cell, rfl, hpend, hcase⟩
  · -- placing a pending digit and unplacing it restores the grid
    obtain ⟨hidx81, hempty, hRidx, -⟩ := hM idx hpend
    obtain ⟨hrow, hcol, hbox⟩ := candidates_empty_testBit hempty hdbit
    simp only [plusNTrav]
    rw [unplace_place hWF hempty hd16 hrow hcol hbox, ← hpend]
  · rcases hcase with ⟨hreq, rfl⟩ | ⟨hreq0, hall, hstart, hc81⟩
    · -- reverting the addition of a required cell
      have hbit : s.required_cells.testBit (trailingZeros 128 s.required_cells) = true :=
        trailingZeros_testBit 128 hreq hR128
      have hc81 : trailingZeros 128 s.required_cells < 81 :=
        testBit_lt_of_lt_two_pow hR81 hbit
      have hrem : s.placements_remaining ≠ 0 := (plusN_prune_false hprune).2 hpend
      simp only [plusNTrav]
      rw [if_neg hreq]
      rw [maskUnset_eq_self hP128 (hJ _ hbit),
        maskSet_maskUnset hR128 (by omega) hbit]
      have horb : s.orbits.getD (trailingZeros 128 s.required_cells) 0 =
          orbitMask G (trailingZeros 128 s.required_cells) := by
        rw [hOrb, orbitMasks_getD G hc81]
      rw [horb]
      have hne : s.required_cells ≠ orbitMask G (trailingZeros 128 s.required_cells) := by
        intro hcon
        obtain ⟨r, hr1, hr2, -⟩ := hK _ hbit
        rw [hcon, hr1] at hr2
        exact Bool.noConfusion hr2
      rw [if_neg hne, ← hpend]
      have hrem1 : s.placements_remaining - 1 + 1 = s.placements_remaining := by omega
      rw [hrem1]
    · -- reverting the addition of a fresh candidate cell
      have hrem : s.placements_remaining ≠ 0 := (plusN_prune_false hprune).2 hpend
      have hplacedcell : s.placed_cells.testBit cell = false := by
        rcases hpc : s.placed_cells.testBit cell with _ | _
        · rfl
        · have := bitmaskMax_start_gt hP128 hpc
          omega
      have hOM128 : orbitMask G cell < 2 ^ 128 :=
        lt_of_lt_of_le (orbitMask_lt G hc81)
          (Nat.pow_le_pow_right (by norm_num) (by norm_num))
      simp only [plusNTrav]
      rw [if_pos hreq0]
      have horb : s.orbits.getD cell 0 = orbitMask G cell := by
        rw [hOrb, orbitMasks_getD G hc81]
      rw [horb, maskUnset_maskSet hP128 (by omega) hplacedcell,
        maskSet_maskUnset hOM128 (by omega) (orbitMask_self G cell)]
      rw [if_pos rfl]
      dsimp only
      rw [← hreq0, ← hpend]
      have hrem1 : s.placements_remaining - 1 + 1 = s.placements_remaining := by omega
      rw [hrem1]

/-- C5: for both the template generator traversable and the PlusN
expansion traversable, applying any step produced by next_steps at a
state reachable from the respective search root (unpruned, as the
depth-first searcher only expands unpruned states) and then immediately
reverting that same step restores the entire search state — the grid
with its region masks and all bookkeeping fields — to the exact state
before the apply. -/
theorem c5_apply_revert_roundtrip {t : Template} {sT : TemplateGeneratorState}
    {stepT : Nat × Nat} {G : DihedralSubgroup} {n : Nat}
    {sudoku₀ : RegionMaskedSudoku} {excluded : List (Nat × Nat)}
    {sP : PlusNSearchState} {stepP : PlusNSearchStep}
    (hTreach : TravReachable templateGenTrav (TemplateGeneratorState.for_template t) sT)
    (hTstep : stepT ∈ templateGenTrav.next_steps sT)
    (hwf : GridWF sudoku₀)
    (hPreach : TravReachable plusNTrav
      (PlusNSearchState.for_sudoku_and_symmetry n sudoku₀ G excluded) sP)
    (hPprune : plusNTrav.should_prune sP = false)
    (hPstep : stepP ∈ plusNTrav.next_steps sP) :
    templateGenTrav.revert_step (templateGenTrav.apply_step sT stepT) stepT = sT ∧
    plusNTrav.revert_step (plusNTrav.apply_step sP stepP) stepP = sP :=
  ⟨templateGen_roundtrip hTreach hTstep,
   plusN_roundtrip (plusN_reachable_inv hwf hPreach) hPprune hPstep⟩

/-- Witness for C5 at the roots of two concrete searches. -/
theorem c5_apply_revert_roundtrip_witness :
    templateGenTrav.revert_step
        (templateGenTrav.apply_step
          (TemplateGeneratorState.for_template given1Template) (0, 1)) (0, 1) =
      TemplateGeneratorState.for_template given1Template ∧
    plusNTrav.revert_step
        (plusNTrav.apply_step
          (PlusNSearchState.for_sudoku_and_symmetry 2 RegionMaskedSudoku.empty
            diagSubgroup [])
          (.AddCell 0)) (.AddCell 0) =
      PlusNSearchState.for_sudoku_and_symmetry 2 RegionMaskedSudoku.empty
        diagSubgroup [] :=
  c5_apply_revert_roundtrip TravReachable.base (by decide)
    (by unfold GridWF; decide) TravReachable.base (by decide) (by decide)

/-- The root state covers all clue orbits. -/
theorem clueOrbitCovered_root (G : DihedralSubgroup) (n : Nat)
    (sudoku₀ : RegionMaskedSudoku) (excluded : List (Nat × Nat)) :
    ClueOrbitCovered G (clueMask sudoku₀)
      (PlusNSearchState.for_sudoku_and_symmetry n sudoku₀ G excluded) := by
  intro p hp j hj
  have hp81 : p < 81 := ((clueMask_testBit _ p).mp hp).1
  have hj81 : j < 81 := orbitMask_bits_lt G hp81 hj
  rcases hjC : (clueMask sudoku₀).testBit j with _ | _
  · -- a non-clue orbit mate of a clue lies in the root required mask
    right
    left
    show ((((bitIndices 128 (clueMask sudoku₀)).map
      fun cell => (orbitMasks G).getD cell 0).foldl (· ||| ·) 0) &&&
        notW 128 (clueMask sudoku₀)).testBit j = true
    rw [Nat.testBit_and, Bool.and_eq_true]
    constructor
    · rw [foldl_or_testBit]
      right
      refine ⟨(orbitMasks G).getD p 0,
        List.mem_map.mpr ⟨p, bitIndices_mem (by omega) hp, rfl⟩, ?_⟩
      rw [orbitMasks_getD G hp81]
      exact hj
    · rw [testBit_notW]
      simp [hjC, show j < 128 by omega]
  · -- a clue orbit mate that is itself a clue is filled
    left
    exact ((clueMask_testBit _ j).mp hjC).2

/-- Every search step preserves clue-orbit coverage. -/
theorem clueOrbitCovered_preserved {G : DihedralSubgroup} {C n : Nat}
    {s : PlusNSearchState} {step : PlusNSearchStep} (hinv : PlusNInv G C n s)
    (hcov : ClueOrbitCovered G C s) (hstep : step ∈ plusNTrav.next_steps s) :
    ClueOrbitCovered G C (plusNTrav.apply_step s step) := by
  obtain ⟨hOrb, hWF, hP81, hR81, hAllowed, hJ, hK, hRE, hM, hHeads, hS, hCfill, hCL,
    hCNT⟩ := hinv
  have hR128 : s.required_cells < 2 ^ 128 :=
    lt_of_lt_of_le hR81 (Nat.pow_le_pow_right (by norm_num) (by norm_num))
  rcases plusN_next_steps_spec hstep with ⟨idx, d, rfl, hpend, hd16, hdbit⟩ |
    ⟨cell, rfl, hpendn, hcase⟩
  · -- a digit placement fills the pending cell
    obtain ⟨hidx81, hempty, -, -⟩ := hM idx hpend
    have h81 : s.sudoku.sudoku.length = 81 := hWF.1
    have hd0 : d ≠ 0 := by
      intro hd0
      subst hd0
      obtain ⟨hrow, -, -⟩ := candidates_empty_testBit hempty hdbit
      have hri : ROW_INDICES.getD idx 0 < s.sudoku.rows.length := by
        rw [hWF.2.1]
        exact row_indices_lt idx
      have hmem := hWF.2.2.2.2.1 _ (getD_mem_of_lt hri)
      rw [Nat.testBit_zero] at hrow
      have : s.sudoku.rows.getD (ROW_INDICES.getD idx 0) 0 % 2 = 1 := by
        simpa using hrow
      omega
    have hgetD : ∀ i, (s.sudoku.place idx d).sudoku.getD i 0 =
        if i = idx then d else s.sudoku.sudoku.getD i 0 := by
      intro i
      show (s.sudoku.sudoku.set idx d).getD i 0 = _
      rw [list_getD_set]
      rcases eq_or_ne i idx with rfl | hne
      · rw [if_pos ⟨rfl, by omega⟩, if_pos rfl]
      · rw [if_neg (fun hcon => hne hcon.1), if_neg hne]
    simp only [plusNTrav]
    unfold ClueOrbitCovered
    dsimp only
    intro p hp j hj
    rcases hcov p hp j hj with hfil | hreqj | hpendj
    · left
      rw [hgetD]
      rcases eq_or_ne j idx with rfl | hne
      · rw [if_pos rfl]
        exact hd0
      · rw [if_neg hne]
        exact hfil
    · right
      left
      exact hreqj
    · left
      rw [hpend] at hpendj
      have hji : j = idx := (Option.some.inj hpendj).symm
      rw [hgetD, if_pos hji]
      exact hd0
  · rcases hcase with ⟨hreq, rfl⟩ | ⟨hreq0, hall, hstart, hc81⟩
    · -- adding a required cell moves it from required to pending
      simp only [plusNTrav]
      rw [if_neg hreq]
      unfold ClueOrbitCovered
      dsimp only
      intro p hp j hj
      rcases hcov p hp j hj with hfil | hreqj | hpendj
      · exact Or.inl hfil
      · rcases eq_or_ne j (trailingZeros 128 s.required_cells) with rfl | hne
        · exact Or.inr (Or.inr rfl)
        · refine Or.inr (Or.inl ?_)
          rw [maskUnset_testBit _ j hR128, hreqj, Bool.true_and]
          simpa using hne
      · rw [hpendn] at hpendj
        exact Option.noConfusion hpendj
    · -- adding a candidate cell leaves covered clue orbits filled
      simp only [plusNTrav]
      rw [if_pos hreq0]
      unfold ClueOrbitCovered
      dsimp only
      intro p hp j hj
      rcases hcov p hp j hj with hfil | hreqj | hpendj
      · exact Or.inl hfil
      · rw [hreq0, Nat.zero_testBit] at hreqj
        exact Bool.noConfusion hreqj
      · rw [hpendn] at hpendj
        exact Option.noConfusion hpendj

/-- Every state the PlusN search reaches covers all clue orbits. -/
theorem plusN_reachable_cover {G : DihedralSubgroup} {n : Nat}
    {sudoku₀ : RegionMaskedSudoku} {excluded : List (Nat × Nat)} {s : PlusNSearchState}
    (hwf : GridWF sudoku₀)
    (h : TravReachable plusNTrav
      (PlusNSearchState.for_sudoku_and_symmetry n sudoku₀ G excluded) s) :
    ClueOrbitCovered G (clueMask sudoku₀) s := by
  induction h with
  | base => exact clueOrbitCovered_root G n sudoku₀ excluded
  | step hreach hprune hstep ih =>
    exact clueOrbitCovered_preserved (plusN_reachable_inv hwf hreach) ih hstep

/-- What an emission of the PlusN search satisfies. -/
theorem plusN_output_spec {s : PlusNSearchState} {ω : RegionMaskedSudoku}
    (h : plusNTrav.output s = some ω) :
    s.required_cells = 0 ∧ s.pending_placement = none ∧ ω = s.sudoku := by
  simp only [plusNTrav] at h
  split at h
  · rename_i hc
    rw [Bool.and_eq_true] at hc
    exact ⟨of_decide_eq_true hc.1, Option.isNone_iff_eq_none.mp hc.2,
      (Option.some.inj h).symm⟩
  · exact Option.noConfusion h

/-- C2 counterexample: on the empty grid with diagonal symmetry and
n = 2, the first emission of the expansion search is the unchanged empty
input grid, which has 0 new clue cells, not exactly 2. -/
theorem c2_counterexample :
    ((dfsNext plusNTrav 3 (dfsNew
        (PlusNSearchState.for_sudoku_and_symmetry 2 RegionMaskedSudoku.empty
          diagSubgroup []))).map fun r => r.1.map fun e => e.2.2) =
      some (some RegionMaskedSudoku.empty) ∧
    numNewClues (clueMask RegionMaskedSudoku.empty) RegionMaskedSudoku.empty = 0 := by
  constructor
  · with_unfolding_all rfl
  · decide

/-- C2 (amended): every grid emitted by the PlusN expansion search adds
at most n new clue cells to the input grid (the search also emits its
intermediate partial expansions, including the input grid itself), and
the emitted grid's set of filled cells is closed under the action of the
chosen dihedral subgroup. -/
theorem c2_emitted_grid_bounded_and_closed {G : DihedralSubgroup} {n : Nat}
    {sudoku₀ : RegionMaskedSudoku} {excluded : List (Nat × Nat)}
    {s : PlusNSearchState} {ω : RegionMaskedSudoku} (hwf : GridWF sudoku₀)
    (hreach : TravReachable plusNTrav
      (PlusNSearchState.for_sudoku_and_symmetry n sudoku₀ G excluded) s)
    (hout : plusNTrav.output s = some ω) :
    numNewClues (clueMask sudoku₀) ω ≤ n ∧
    ∀ i, i < 81 → ω.sudoku.getD i 0 ≠ 0 →
      ∀ g ∈ G.elems, ω.sudoku.getD (g.act i) 0 ≠ 0 := by
  obtain ⟨hreq0, hpend, rfl⟩ := plusN_output_spec hout
  have hcov := plusN_reachable_cover hwf hreach
  obtain ⟨hOrb, hWF, hP81, hR81, hAllowed, hJ, hK, hRE, hM, hHeads, hS, hCfill, hCL,
    hCNT⟩ := plusN_reachable_inv hwf hreach
  constructor
  · have hpc : pendCount s = 0 := by
      unfold pendCount
      rw [hpend]
    omega
  · intro i hi81 hfil g hg
    have horbiti : (orbitMask G i).testBit (g.act i) = true :=
      (orbitMask_testBit G i (g.act i)).mpr ⟨g, hg, rfl⟩
    rcases hC : (clueMask sudoku₀).testBit i with _ | _
    · obtain ⟨p, hpa, hpo⟩ := hS i hi81 hfil
      have hp81 : p < 81 := by
        rcases hpa with h | h
        · exact (hCfill p h).1
        · exact testBit_lt_of_lt_two_pow hP81 h
      have heq : orbitMask G i = orbitMask G p := orbitMask_eq_of_mem G hp81 hpo
      have hmem : (orbitMask G p).testBit (g.act i) = true := by
        rw [← heq]
        exact horbiti
      rcases hpa with hpC | hpp
      · rcases hcov p hpC (g.act i) hmem with h | h | h
        · exact h
        · rw [hreq0, Nat.zero_testBit] at h
          exact Bool.noConfusion h
        · rw [hpend] at h
          exact Option.noConfusion h
      · rcases hCL p hpp (g.act i) hmem with h | h | h
        · exact h
        · rw [hreq0, Nat.zero_testBit] at h
          exact Bool.noConfusion h
        · rw [hpend] at h
          exact Option.noConfusion h
    · rcases hcov i hC (g.act i) horbiti with h | h | h
      · exact h
      · rw [hreq0, Nat.zero_testBit] at h
        exact Bool.noConfusion h
      · rw [hpend] at h
        exact Option.noConfusion h

/-- Witness for C2's amended statement at the root emission of the
concrete scenario. -/
theorem c2_emitted_grid_bounded_and_closed_witness :
    numNewClues (clueMask RegionMaskedSudoku.empty) RegionMaskedSudoku.empty ≤ 2 ∧
    ∀ i, i < 81 → RegionMaskedSudoku.empty.sudoku.getD i 0 ≠ 0 →
      ∀ g ∈ diagSubgroup.elems, RegionMaskedSudoku.empty.sudoku.getD (g.act i) 0 ≠ 0 :=
  @c2_emitted_grid_bounded_and_closed diagSubgroup 2 RegionMaskedSudoku.empty [] _
    RegionMaskedSudoku.empty (by unfold GridWF; decide) TravReachable.base (by decide)

end ExpansionClaims

end SudokuUtils
